import Mathlib

/-!
# CANPANEL button-matrix scan and debounce: a shallow embedding

The definitions below embed `buttonscan.c` (with the constants of `module.h`,
`panelNv.h` and `panelEvents.h`) as pure state-passing functions.

* The three global arrays `keyInputState`, `keyOutputState` and
  `debounceCounters` are maps from an index to a record.  The unions
  `ByteBits` and `ByteNibbles` are records of their bit fields, so that no
  assumption on the order in which the compiler allocates bit fields is made:
  `.val = 0` clears every field and copying `.val` copies every field.
* The input pins `KBD_INP0 .. KBD_INP7` are an oracle `pins col row`: the level
  read on row `row` while column `col` is strobed.  The level is taken to be
  stable during the strobe of one column in one pass.
* `getNV` is the configuration provider, a map `nv` from an NV index to its
  value; the cast to `uint8_t` is the explicit `% 256`.
* `sendProducedEvent` is the event sink: it appends to the log `produced`.
-/

namespace CANPanel

/-! ## Constants -/

/-- Value of `NUM_PB` in `module.h`. -/
def NUM_PB : Nat := 64

/-- Modelled from the spec: `buttonscan.h` is not among the sources; the matrix of
the reference configuration has `N = columns × rows = 64` buttons, and
`getKeyState` decomposes an id with `/8` and `%8`, so there are 8 columns. -/
def COLUMN_OUTPUTS : Nat := 8

/-- Modelled from the spec: `buttonscan.h` is not among the sources; a column has
8 rows (`KBD_INP0 .. KBD_INP7`, one bit of a `ByteBits` each). -/
def ROW_INPUTS : Nat := 8

/-- Modelled from the spec: `buttonscan.h` is not among the sources; the strobe
lines of the 8 columns are shifted from bit 0, so they fill the 8-bit latch. -/
def COLUMN_MASK : Nat := 0xFF

/-- Value of `DEBOUNCE_DELAY` in `buttonscan.c`. -/
def DEBOUNCE_DELAY : Nat := 4

/-- Value of `NV_PB_FLAGS` in `panelNv.h`: index of the flags byte of button 0. -/
def NV_PB_FLAGS : Nat := 8

def NV_PB_FLAGS_SEND_ON : Nat := 0x01
def NV_PB_FLAGS_SEND_OFF : Nat := 0x02
def NV_PB_FLAGS_POLARITY : Nat := 0x04
def NV_PB_FLAGS_TOGGLE : Nat := 0x08
def NV_PB_FLAGS_ENABLE_SOD : Nat := 0x10

/-- The macro `PB(c,r)` of `buttonscan.c`. -/
def PB (c r : Nat) : Nat := c * ROW_INPUTS + r

/-- The macro `COUNTER_INDEX(c,r)` of `buttonscan.c`. -/
def COUNTER_INDEX (c r : Nat) : Nat := PB c r / 2

/-- The macro `PB_2_HAPPENING(pb)` of `panelEvents.h`. -/
def PB_2_HAPPENING (pb : Nat) : Nat := pb + 1

/-- The macro `HAPPENING_2_PB(h)` of `panelEvents.h`, on C `int` values. -/
def HAPPENING_2_PB (h : Int) : Int := h - 1

/-- The macro `HAPPENING_SOD` of `panelEvents.h`. -/
def HAPPENING_SOD : Nat := NUM_PB + 1

/-- Value of `NO_ACTION` in `module.h`. -/
def NO_ACTION : Nat := 0

/-! ## Data model -/

/-- The enumeration `EventState` of the event producer interface. -/
inductive EventState where
  | EVENT_OFF
  | EVENT_ON
  | EVENT_UNKNOWN
deriving DecidableEq

/-- The union `ByteBits`: one byte seen as eight one-bit fields. -/
structure ByteBits where
  b0 : Bool
  b1 : Bool
  b2 : Bool
  b3 : Bool
  b4 : Bool
  b5 : Bool
  b6 : Bool
  b7 : Bool
deriving DecidableEq

/-- The union `ByteNibbles`: one byte seen as two four-bit fields. -/
structure ByteNibbles where
  lower : Nat
  upper : Nat
deriving DecidableEq

/-- The byte whose `.val` is 0. -/
def ByteBits.zero : ByteBits :=
  { b0 := false, b1 := false, b2 := false, b3 := false,
    b4 := false, b5 := false, b6 := false, b7 := false }

/-- The byte whose `.val` is 0. -/
def ByteNibbles.zero : ByteNibbles := { lower := 0, upper := 0 }

/-- Bit field `b<r>` of a byte (rows above 7 do not exist and read as `false`). -/
def ByteBits.bit (b : ByteBits) (r : Nat) : Bool :=
  match r with
  | 0 => b.b0
  | 1 => b.b1
  | 2 => b.b2
  | 3 => b.b3
  | 4 => b.b4
  | 5 => b.b5
  | 6 => b.b6
  | 7 => b.b7
  | _ => false

/-- The counter of row `r` in a byte of `debounceCounters`: two counters per byte,
the even button id in the lower nibble. -/
def ByteNibbles.nibble (d : ByteNibbles) (r : Nat) : Nat :=
  if r % 2 = 0 then d.lower else d.upper

/-- A produced event: happening id and state. -/
abbrev Event := Nat × EventState

/-- The state touched by `buttonscan.c`: its three global arrays, the column
strobe latch `COL_LAT`, and the log of the calls of `sendProducedEvent`. -/
structure KeyState where
  keyInputState : Nat → ByteBits
  keyOutputState : Nat → ByteBits
  debounceCounters : Nat → ByteNibbles
  COL_LAT : Nat
  produced : List Event

/-- The inputs of one pass: the NV table read by `getNV` and the pin levels. -/
structure ScanInput where
  nv : Nat → Nat
  pins : Nat → Nat → Bool

/-! ## Operations -/

/-- Modelled from the spec: the event emission sink `emit(happening_id, ON|OFF)`,
the library function `sendProducedEvent`; a call is recorded in the log. -/
def sendProducedEvent (h : Nat) (st : EventState) (s : KeyState) : KeyState :=
  { s with produced := s.produced ++ [(h, st)] }

/-- `sendPBEvent(pb, state, flags)`; the cast `(Happening)` is to one byte. -/
def sendPBEvent (pb state flags : Nat) (s : KeyState) : KeyState :=
  if state ≠ 0 then
    if flags &&& NV_PB_FLAGS_SEND_ON ≠ 0 then
      sendProducedEvent (PB_2_HAPPENING pb % 256) EventState.EVENT_ON s
    else s
  else
    if flags &&& NV_PB_FLAGS_SEND_OFF ≠ 0 then
      sendProducedEvent (PB_2_HAPPENING pb % 256) EventState.EVENT_OFF s
    else s

/-- The three strobe statements at the head of the column loops:
`strobeMask = ~((1 << col) & COLUMN_MASK); COL_LAT |= COLUMN_MASK;
COL_LAT &= strobeMask;` on 8-bit values. -/
def strobeColumn (col : Nat) (s : KeyState) : KeyState :=
  let strobeMask := 255 - ((1 <<< col) &&& COLUMN_MASK) % 256
  let lat := (s.COL_LAT ||| COLUMN_MASK) % 256
  { s with COL_LAT := lat &&& strobeMask }

/-- Body of the first loop of `initKeyscan` for one column. -/
def initColumn (pins : Nat → Nat → Bool) (col : Nat) (s : KeyState) : KeyState :=
  let s := strobeColumn col s
  let v : ByteBits :=
    { b0 := pins col 0, b1 := pins col 1, b2 := pins col 2, b3 := pins col 3,
      b4 := pins col 4, b5 := pins col 5, b6 := pins col 6, b7 := pins col 7 }
  let s := { s with keyInputState := Function.update s.keyInputState col v }
  { s with keyOutputState := Function.update s.keyOutputState col (s.keyInputState col) }

/-- `initKeyscan()`: raise the strobe lines, seed both bit arrays from the pins,
then zero the counters.  The assignments to the `TRIS` direction bits of the
input pins touch no data of the scan and are left out. -/
def initKeyscan (pins : Nat → Nat → Bool) (s : KeyState) : KeyState :=
  let s := { s with COL_LAT := (s.COL_LAT ||| COLUMN_MASK) % 256 }
  let s := (List.range COLUMN_OUTPUTS).foldl (fun s col => initColumn pins col s) s
  (List.range (COLUMN_OUTPUTS * ROW_INPUTS / 2)).foldl
    (fun s i => { s with debounceCounters :=
                    Function.update s.debounceCounters i ByteNibbles.zero }) s

/-- Body of the loop of `keyScan()` for one column.  Only the branch of
`KBD_INP0` has a body; the comparisons of rows 1 to 7 guard empty blocks. -/
def keyScanColumn (nv : Nat → Nat) (pins : Nat → Nat → Bool) (col : Nat)
    (s : KeyState) : KeyState :=
  let s := strobeColumn col s
  if (s.keyInputState col).b0 != pins col 0 then
    let k := COUNTER_INDEX col 0
    let d := s.debounceCounters k
    if d.lower = DEBOUNCE_DELAY then
      let s := { s with debounceCounters := Function.update s.debounceCounters k { d with lower := 0 } }
      let i := s.keyInputState col
      let s := { s with keyInputState := Function.update s.keyInputState col { i with b0 := pins col 0 } }
      let flags := nv (NV_PB_FLAGS + PB col 0) % 256
      let o := s.keyOutputState col
      let s :=
        if flags &&& NV_PB_FLAGS_TOGGLE ≠ 0 then
          { s with keyOutputState := Function.update s.keyOutputState col { o with b0 := !o.b0 } }
        else if flags &&& NV_PB_FLAGS_POLARITY ≠ 0 then
          { s with keyOutputState := Function.update s.keyOutputState col { o with b0 := pins col 0 } }
        else
          { s with keyOutputState := Function.update s.keyOutputState col { o with b0 := !pins col 0 } }
      sendPBEvent (PB col 0 % 256) ((s.keyOutputState col).b0.toNat) flags s
    else
      { s with debounceCounters := Function.update s.debounceCounters k { d with lower := (d.lower + 1) % 16 } }
  else s

/-- `keyScan()`: one pass over the columns `0 .. COLUMN_OUTPUTS - 1`. -/
def keyScan (nv : Nat → Nat) (pins : Nat → Nat → Bool) (s : KeyState) : KeyState :=
  (List.range COLUMN_OUTPUTS).foldl (fun s col => keyScanColumn nv pins col s) s

/-- `getKeyState(pb)`. -/
def getKeyState (s : KeyState) (pb : Nat) : EventState :=
  match pb % 8 with
  | 0 => if (s.keyOutputState (pb / 8)).b0 then EventState.EVENT_ON else EventState.EVENT_OFF
  | 1 => if (s.keyOutputState (pb / 8)).b1 then EventState.EVENT_ON else EventState.EVENT_OFF
  | 2 => if (s.keyOutputState (pb / 8)).b2 then EventState.EVENT_ON else EventState.EVENT_OFF
  | 3 => if (s.keyOutputState (pb / 8)).b3 then EventState.EVENT_ON else EventState.EVENT_OFF
  | 4 => if (s.keyOutputState (pb / 8)).b4 then EventState.EVENT_ON else EventState.EVENT_OFF
  | 5 => if (s.keyOutputState (pb / 8)).b5 then EventState.EVENT_ON else EventState.EVENT_OFF
  | 6 => if (s.keyOutputState (pb / 8)).b6 then EventState.EVENT_ON else EventState.EVENT_OFF
  | 7 => if (s.keyOutputState (pb / 8)).b7 then EventState.EVENT_ON else EventState.EVENT_OFF
  | _ => EventState.EVENT_UNKNOWN

/-- `APP_GetEventState(h)` of `main.c`, for a one-byte `Happening` `h`: the button
id is `h - 1` computed on `int` and stored into a `uint8_t`. -/
def APP_GetEventState (s : KeyState) (h : Nat) : EventState :=
  let button := (HAPPENING_2_PB (h : Int) % 256).toNat
  if button ≥ NUM_PB then EventState.EVENT_UNKNOWN else getKeyState s button

/-! ## Runs and observations -/

/-- Successive `keyScan()` passes, one per element of the input list. -/
def keyScanRun (ins : List ScanInput) (s : KeyState) : KeyState :=
  ins.foldl (fun s i => keyScan i.nv i.pins s) s

/-- Accepted (debounced) level of button `pb`. -/
def acceptedLevel (s : KeyState) (pb : Nat) : Bool :=
  (s.keyInputState (pb / ROW_INPUTS)).bit (pb % ROW_INPUTS)

/-- Logical (post-interpretation) level of button `pb`. -/
def logicalLevel (s : KeyState) (pb : Nat) : Bool :=
  (s.keyOutputState (pb / ROW_INPUTS)).bit (pb % ROW_INPUTS)

/-- Debounce counter of button `pb`. -/
def debounceCounter (s : KeyState) (pb : Nat) : Nat :=
  (s.debounceCounters (pb / 2)).nibble pb

/-- A pass from `s` to `t` committed a transition for button `pb`: its accepted
level changed. -/
def committed (s t : KeyState) (pb : Nat) : Bool :=
  acceptedLevel t pb != acceptedLevel s pb

/-- Number of transitions committed for button `pb` in a run of passes. -/
def commitCount (pb : Nat) : List ScanInput → KeyState → Nat
  | [], _ => 0
  | i :: ins, s =>
    (if committed s (keyScan i.nv i.pins s) pb then 1 else 0)
      + commitCount pb ins (keyScan i.nv i.pins s)

/-- The events produced between state `s` and a later state `t`. -/
def emitted (s t : KeyState) : List Event :=
  t.produced.drop s.produced.length

/-- The globals as the C start-up code leaves them: static storage is zero. -/
def resetState : KeyState :=
  { keyInputState := fun _ => ByteBits.zero
    keyOutputState := fun _ => ByteBits.zero
    debounceCounters := fun _ => ByteNibbles.zero
    COL_LAT := 0
    produced := [] }

/-- States reachable from `initKeyscan()` by `keyScan()` passes, with arbitrary
pin samples and NV contents at every call. -/
inductive Reachable : KeyState → Prop where
  | init (pins : Nat → Nat → Bool) (s : KeyState) : Reachable (initKeyscan pins s)
  | scan (nv : Nat → Nat) (pins : Nat → Nat → Bool) (s : KeyState) :
      Reachable s → Reachable (keyScan nv pins s)

/-- The debounce step in the words of the specification (section 4.2),
`advance(button_id, raw_level)`, on the counter and the accepted level of one
button: the new counter, the new accepted level and the committed level, if any.
The increment is an increment by exactly one. -/
def specAdvance (counter : Nat) (accepted raw : Bool) : Nat × Bool × Option Bool :=
  if raw = accepted then (counter, accepted, none)
  else if counter = DEBOUNCE_DELAY then (0, raw, some raw)
  else (counter + 1, accepted, none)

/-- What one `keyScan()` pass does to button `pb`, observed on the state: the new
counter, the new accepted level and the committed level, if any. -/
def passEffect (nv : Nat → Nat) (pins : Nat → Nat → Bool) (s : KeyState) (pb : Nat) :
    Nat × Bool × Option Bool :=
  let t := keyScan nv pins s
  (debounceCounter t pb, acceptedLevel t pb,
    if committed s t pb then some (acceptedLevel t pb) else none)

/-- The events of a log that carry the happening of button `pb`. -/
def eventsFor (pb : Nat) (l : List Event) : List Event :=
  l.filter (fun e => e.1 == PB_2_HAPPENING pb)

/-- A series of `n` events with happening `h` whose states alternate, the first
being the opposite of `prev`: what a button in toggle mode with both send flags
set produces over `n` committed transitions from logical level `prev`. -/
def toggleEvents (h : Nat) (prev : Bool) : Nat → List Event
  | 0 => []
  | n + 1 =>
    (h, if prev then EventState.EVENT_OFF else EventState.EVENT_ON) :: toggleEvents h (!prev) n

/-! ## The LED driver -/

def MX_NOP : Nat := 0
def MX_DECODE : Nat := 1
def MX_INTENSITY : Nat := 2
def MX_SCAN_LIMIT : Nat := 3
def MX_CONF : Nat := 4
def MX_TEST : Nat := 7
def MX_DIG_P0 : Nat := 0x20
def MX_DIG_P1 : Nat := 0x40
def MX_DIG_BOTH : Nat := 0x60
def MX_CONF_ENABLE : Nat := 1
def MX_CONF_FASTBLINK : Nat := 4
def MX_CONF_BLINKON : Nat := 8
def MX_CONF_CLEAR : Nat := 32

/-- The table `charGen` of `max6951.c`: segment patterns from character `'0'`. -/
def charGen : List Nat :=
  [0x7E, 0x30, 0x6d, 0x79, 0x33, 0x5b, 0x5F, 0x70, 0x7F, 0x7B, 0, 0, 0, 0, 0, 0,
   0, 0x77, 0x1F, 0x4E, 0x3D, 0x4F, 0x47, 0x5E, 0x17, 0x06, 0x3C, 0x07, 0x0E, 0x76, 0x15, 0x7E,
   0x67, 0x73, 0x05, 0x5B, 0x0F, 0x3E, 0x1C, 0x3F, 0x31, 0x3B, 0x6D, 0, 0, 0, 0, 0,
   0, 0x77, 0x1F, 0x4E, 0x3D, 0x4F, 0x47, 0x5E, 0x17, 0x06, 0x3C, 0x07, 0x0E, 0x76, 0x15, 0x7E,
   0x67, 0x73, 0x05, 0x5B, 0x0F, 0x3E, 0x1C, 0x3F, 0x31, 0x3B, 0x6D, 0, 0, 0, 0, 0]

/-- The state of `max6951.c`: the RAM copies `ledsMap[plane][digit]` and
`decodeMode`, and the log of the commands `sendMxCmd` clocked out to the chip,
each a register address and a value. -/
structure LedState where
  ledsMap : Nat → Nat → Nat
  decodeMode : Nat
  sent : List (Nat × Nat)

/-- `sendMxCmd(mxRegister, mxValue)`: both arguments are bytes; the command is
recorded in the log. -/
def sendMxCmd (mxRegister mxValue : Nat) (s : LedState) : LedState :=
  { s with sent := s.sent ++ [(mxRegister % 256, mxValue % 256)] }

/-- The assignment `ledsMap[plane][digNum] = v`. -/
def LedState.store (s : LedState) (plane digNum v : Nat) : LedState :=
  { s with ledsMap := Function.update s.ledsMap plane (Function.update (s.ledsMap plane) digNum v) }

/-- `clearAllLeds()`. -/
def clearAllLeds (s : LedState) : LedState :=
  let s := sendMxCmd MX_DECODE 0 s
  let s := (List.range 8).foldl (fun s digCount => sendMxCmd (MX_DIG_BOTH + digCount) 0 s) s
  { s with ledsMap := fun _ _ => 0 }

/-- `initLedDriver(brightness)`, without the set-up of the SPI peripheral. -/
def initLedDriver (brightness : Nat) (s : LedState) : LedState :=
  let s := sendMxCmd MX_TEST 0 s
  let s := sendMxCmd MX_CONF MX_CONF_CLEAR s
  let s := sendMxCmd MX_SCAN_LIMIT 0xFF s
  let s := sendMxCmd MX_INTENSITY (brightness % 256 &&& 0x0F) s
  let s := clearAllLeds s
  let s := { s with decodeMode := 0 }
  sendMxCmd MX_CONF (MX_CONF_FASTBLINK + MX_CONF_BLINKON + MX_CONF_ENABLE) s

/-- The digit index computed by the LED operations: `digNum = --ledNumber / 8`
on a `uint8_t`. -/
def digNumOf (ledNumber : Nat) : Nat := (ledNumber + 255) % 256 / 8

/-- The value computed by the LED operations as `segNum = ledNumber % 8`, after
the decrement of `ledNumber`. -/
def segNumOf (ledNumber : Nat) : Nat := (ledNumber + 255) % 256 % 8

/-- The two `sendMxCmd` calls that end each LED operation. -/
def sendDigit (digNum : Nat) (s : LedState) : LedState :=
  let s := sendMxCmd (MX_DIG_P0 + digNum) (s.ledsMap 0 digNum) s
  sendMxCmd (MX_DIG_P1 + digNum) (s.ledsMap 1 digNum) s

/-- `setOn(ledNumber)`: `ledsMap[p][digNum] |= segNum` in both planes. -/
def setOn (ledNumber : Nat) (s : LedState) : LedState :=
  let digNum := digNumOf ledNumber
  let segNum := segNumOf ledNumber
  let s := s.store 0 digNum (s.ledsMap 0 digNum ||| segNum)
  let s := s.store 1 digNum (s.ledsMap 1 digNum ||| segNum)
  sendDigit digNum s

/-- `setOff(ledNumber)`: `ledsMap[p][digNum] &= ~segNum` in both planes. -/
def setOff (ledNumber : Nat) (s : LedState) : LedState :=
  let digNum := digNumOf ledNumber
  let segNum := segNumOf ledNumber
  let s := s.store 0 digNum (s.ledsMap 0 digNum &&& (255 - segNum))
  let s := s.store 1 digNum (s.ledsMap 1 digNum &&& (255 - segNum))
  sendDigit digNum s

/-- `flashLed(ledNumber)`: `|= segNum` in plane 0, `&= ~segNum` in plane 1. -/
def flashLed (ledNumber : Nat) (s : LedState) : LedState :=
  let digNum := digNumOf ledNumber
  let segNum := segNumOf ledNumber
  let s := s.store 0 digNum (s.ledsMap 0 digNum ||| segNum)
  let s := s.store 1 digNum (s.ledsMap 1 digNum &&& (255 - segNum))
  sendDigit digNum s

/-- `antiFlashLed(ledNumber)`: `&= ~segNum` in plane 0, `|= segNum` in plane 1. -/
def antiFlashLed (ledNumber : Nat) (s : LedState) : LedState :=
  let digNum := digNumOf ledNumber
  let segNum := segNumOf ledNumber
  let s := s.store 0 digNum (s.ledsMap 0 digNum &&& (255 - segNum))
  let s := s.store 1 digNum (s.ledsMap 1 digNum ||| segNum)
  sendDigit digNum s

/-- `displayDigit(toDisplay, offset)`. -/
def displayDigit (toDisplay offset : Nat) (s : LedState) : LedState :=
  let toDisplay := toDisplay % 256 &&& 0x0F
  let s := { s with decodeMode := (s.decodeMode ||| (1 <<< offset)) % 256 }
  let s := sendMxCmd MX_DECODE s.decodeMode s
  sendMxCmd (MX_DIG_BOTH + offset) toDisplay s

/-- `displayChar(toDisplay, offset)`.  An index outside `charGen` is undefined in
C; it reads 0 here. -/
def displayChar (toDisplay offset : Nat) (s : LedState) : LedState :=
  let s := { s with decodeMode := s.decodeMode &&& (255 - (1 <<< offset) % 256) }
  let s := sendMxCmd MX_DECODE s.decodeMode s
  let genChar := if toDisplay = 32 then 0 else charGen.getD (toDisplay - 0x30) 0
  sendMxCmd (MX_DIG_BOTH + offset) genChar s

/-- `ledTestCycle(testStatus)` on the 16-bit status word (digit count in the high
byte, segment pattern in the low byte); returns the new status word. -/
def ledTestCycle (testStatus : Nat) (s : LedState) : Nat × LedState :=
  let start := testStatus = 0xFFFF
  let hi := testStatus / 256 % 256
  let lo := testStatus % 256
  let digCount :=
    if start then 0
    else if lo = 0 then (if (hi + 1) % 256 > 7 then 0 else (hi + 1) % 256)
    else hi
  let segCount := if start then 0 else lo
  let segCount := if segCount = 0 then 1 else (segCount <<< 1) % 256
  (digCount * 256 + segCount, sendMxCmd (MX_DIG_BOTH + digCount) segCount s)

/-- `showTestX()`. -/
def showTestX (s : LedState) : LedState :=
  let s := sendMxCmd MX_DIG_BOTH 0xC0 s
  let s := sendMxCmd (MX_DIG_BOTH + 1) 0x21 s
  let s := sendMxCmd (MX_DIG_BOTH + 2) 0x12 s
  let s := sendMxCmd (MX_DIG_BOTH + 3) 0x0C s
  let s := sendMxCmd (MX_DIG_BOTH + 4) 0x0c s
  let s := sendMxCmd (MX_DIG_BOTH + 5) 0x12 s
  let s := sendMxCmd (MX_DIG_BOTH + 6) 0x21 s
  sendMxCmd (MX_DIG_BOTH + 7) 0xC0 s

/-- The driver operations that can follow `initLedDriver`. -/
inductive LedOp where
  | clearAllLeds
  | setOn (ledNumber : Nat)
  | setOff (ledNumber : Nat)
  | flashLed (ledNumber : Nat)
  | antiFlashLed (ledNumber : Nat)
  | displayDigit (toDisplay offset : Nat)
  | displayChar (toDisplay offset : Nat)
  | ledTestCycle (testStatus : Nat)
  | showTestX

/-- The effect of one driver operation on the state of the driver. -/
def LedOp.run (op : LedOp) (s : LedState) : LedState :=
  match op with
  | LedOp.clearAllLeds => CANPanel.clearAllLeds s
  | LedOp.setOn n => CANPanel.setOn n s
  | LedOp.setOff n => CANPanel.setOff n s
  | LedOp.flashLed n => CANPanel.flashLed n s
  | LedOp.antiFlashLed n => CANPanel.antiFlashLed n s
  | LedOp.displayDigit v o => CANPanel.displayDigit v o s
  | LedOp.displayChar v o => CANPanel.displayChar v o s
  | LedOp.ledTestCycle w => (CANPanel.ledTestCycle w s).2
  | LedOp.showTestX => CANPanel.showTestX s

/-- Bit `i` of a byte. -/
def bitOf (v i : Nat) : Bool := v.testBit i

/-! ## Consumed events and start of day -/

/-- Value of `NUM_LED` in `module.h`. -/
def NUM_LED : Nat := 64

/-- Value of `EVperEVT` in `module.h`: the number of EVs per event. -/
def EVperEVT : Nat := 20

def ACTION_FLAGS_ENABLEON : Nat := 0x01
def ACTION_FLAGS_ENABLEOFF : Nat := 0x02
def ACTION_FLAGS_INVERT_EVENT : Nat := 0x04
def ACTION_FLAGS_FLASH : Nat := 0x08
def ACTION_FLAGS_INVERT_FLASH : Nat := 0x10

/-- The macro `ACTION_SPECIALS` of `panelEvents.h`. -/
def ACTION_SPECIALS : Nat := NUM_LED + 1

def ACTION_SPECIAL_SOD : Nat := 1

/-- The macro `NUM_ACTIONS` of `panelEvents.h`. -/
def NUM_ACTIONS : Nat := NUM_LED + 1

/-- Modelled from the spec: the opcodes of the transport protocol are defined in a
library header that is not among the sources; these are the CBUS values of the
accessory ON opcodes `OPC_ACON`, `OPC_ASON` and their variants with 1 to 3 data
bytes, in the order of the `switch` of `APP_processConsumedEvent`. -/
def onOpcodes : List Nat := [0x90, 0xB0, 0xD0, 0xF0, 0x98, 0xB8, 0xD8, 0xF8]

/-- Modelled from the spec: the CBUS values of the accessory OFF opcodes `OPC_ACOF`,
`OPC_ASOF` and their variants with 1 to 3 data bytes (see `onOpcodes`). -/
def offOpcodes : List Nat := [0x91, 0xB1, 0xD1, 0xF1, 0x99, 0xB9, 0xD9, 0xF9]

/-- Modelled from the spec: the library macro `EVENT_ON_MASK`, not among the
sources; the bit of an accessory opcode that is clear in an ON opcode and set in
the OFF opcode next to it. -/
def EVENT_ON_MASK : Nat := 1

/-- The part of a received `Message` that `APP_processConsumedEvent` reads. -/
structure Message where
  len : Nat
  opc : Nat

/-- The enumeration `Processed` of the library. -/
inductive Processed where
  | NOT_PROCESSED
  | PROCESSED
deriving DecidableEq

/-- A call made by `APP_processConsumedEvent`: one of the four LED operations of
`max6951.c`, with its argument, or `doSOD()`. -/
inductive PanelCall where
  | antiFlashLed (ledNo : Nat)
  | flashLed (ledNo : Nat)
  | setOn (ledNo : Nat)
  | setOff (ledNo : Nat)
  | doSOD
deriving DecidableEq

/-- Body of the loop of `APP_processConsumedEvent` for one action pair
`ledNo = evs[e]`, `flags = evs[e+1]`: the calls made, and the value of the local
variable `pol` afterwards.  `pol` is assigned only under the enable flag of the
direction of the event and keeps its value otherwise. -/
def actionPair (opc ledNo flags pol : Nat) : List PanelCall × Nat :=
  if ledNo = NO_ACTION then ([], pol)
  else if ledNo = ACTION_SPECIALS ∧ flags = ACTION_SPECIAL_SOD then ([PanelCall.doSOD], pol)
  else if ledNo > NUM_ACTIONS then ([], pol)
  else
    let pol :=
      if opc &&& EVENT_ON_MASK = 0 then
        if flags &&& ACTION_FLAGS_ENABLEON ≠ 0 then
          if flags &&& ACTION_FLAGS_INVERT_EVENT ≠ 0 then 0 else 1
        else pol
      else
        if flags &&& ACTION_FLAGS_ENABLEOFF ≠ 0 then
          if flags &&& ACTION_FLAGS_INVERT_EVENT ≠ 0 then 1 else 0
        else pol
    if flags &&& ACTION_FLAGS_FLASH ≠ 0 ∧ pol = 1 then
      if flags &&& ACTION_FLAGS_INVERT_FLASH ≠ 0 then ([PanelCall.antiFlashLed ledNo], pol)
      else ([PanelCall.flashLed ledNo], pol)
    else if pol = 1 then ([PanelCall.setOn ledNo], pol)
    else ([PanelCall.setOff ledNo], pol)

/-- The loop body applied to a list of action pairs in order, `pol` carried from
one pair to the next: all the calls made. -/
def runPairs (opc : Nat) : List (Nat × Nat) → Nat → List PanelCall
  | [], _ => []
  | (ledNo, flags) :: rest, pol =>
    (actionPair opc ledNo flags pol).1 ++ runPairs opc rest (actionPair opc ledNo flags pol).2

/-- The value of `pol` after the loop body has run on a list of action pairs. -/
def polAfter (opc : Nat) : List (Nat × Nat) → Nat → Nat
  | [], pol => pol
  | (ledNo, flags) :: rest, pol => polAfter opc rest (actionPair opc ledNo flags pol).2

/-- The indices `e` visited by `for (e=1; e<EVperEVT; e+=2)`. -/
def evIndices : List Nat := (List.range (EVperEVT / 2)).map (fun k => 2 * k + 1)

/-- The action pairs `(evs[e], evs[e+1])` read by the loop, in order. -/
def evPairs (evs : Nat → Nat) : List (Nat × Nat) :=
  evIndices.map (fun e => (evs e, evs (e + 1)))

/-- `APP_processConsumedEvent(tableIndex, m)`: the result and the calls made.
`evs` is the buffer as `getEVs(tableIndex)` fills it, `pol0` the value the
uninitialised local `pol` happens to hold on entry. -/
def APP_processConsumedEvent (m : Message) (evs : Nat → Nat) (pol0 : Nat) :
    Processed × List PanelCall :=
  if m.len < 5 then (Processed.NOT_PROCESSED, [])
  else if m.opc ∈ onOpcodes ∨ m.opc ∈ offOpcodes then
    (Processed.PROCESSED, runPairs m.opc (evPairs evs) pol0)
  else (Processed.NOT_PROCESSED, [])

/-- The effect of a call on the LED driver (`doSOD()` does not touch it). -/
def PanelCall.run (c : PanelCall) (s : LedState) : LedState :=
  match c with
  | PanelCall.antiFlashLed n => CANPanel.antiFlashLed n s
  | PanelCall.flashLed n => CANPanel.flashLed n s
  | PanelCall.setOn n => CANPanel.setOn n s
  | PanelCall.setOff n => CANPanel.setOff n s
  | PanelCall.doSOD => s

/-- The enumeration `TimedResponseResult` of the library, as far as
`sodTRCallback` returns it. -/
inductive TimedResponseResult where
  | TIMED_RESPONSE_RESULT_FINISHED
  | TIMED_RESPONSE_RESULT_NEXT
deriving DecidableEq

/-- Modelled from the spec: the values of the enumeration `EventState` are in a
library header that is not among the sources; an `EventState` used as a C
condition is true unless it is `EVENT_OFF`, whose value is 0. -/
def EventState.truthy (st : EventState) : Bool :=
  st != EventState.EVENT_OFF

/-- Modelled from the spec: `!state` stored into an `EventState`: 1, which is
`EVENT_ON`, if `state` is `EVENT_OFF` (0), and 0, `EVENT_OFF`, otherwise. -/
def EventState.lnot (st : EventState) : EventState :=
  if st = EventState.EVENT_OFF then EventState.EVENT_ON else EventState.EVENT_OFF

/-- `sendInvertedProducedEvent(happening, state, invert, can_send_on,
can_send_off)`: the result and the new state.  `ok` gives the result of the
library call `sendProducedEvent`. -/
def sendInvertedProducedEvent (ok : Nat → EventState → Bool) (happening : Nat)
    (state : EventState) (invert can_send_on can_send_off : Nat) (s : KeyState) :
    Bool × KeyState :=
  let state_to_send := if invert ≠ 0 then state.lnot else state
  if (state_to_send.truthy = true ∧ can_send_on ≠ 0)
      ∨ (state_to_send.truthy = false ∧ can_send_off ≠ 0) then
    (ok happening state_to_send, sendProducedEvent happening state_to_send s)
  else (true, s)

/-- `sodTRCallback(type, serviceIndex, step)`: the result and the new state. -/
def sodTRCallback (nv : Nat → Nat) (ok : Nat → EventState → Bool) (step : Nat)
    (s : KeyState) : TimedResponseResult × KeyState :=
  if step ≥ NUM_PB then (TimedResponseResult.TIMED_RESPONSE_RESULT_FINISHED, s)
  else
    let flags := nv (NV_PB_FLAGS + step) % 256
    if flags &&& NV_PB_FLAGS_ENABLE_SOD = 0 then
      (TimedResponseResult.TIMED_RESPONSE_RESULT_NEXT, s)
    else
      let happeningIndex := PB_2_HAPPENING step % 256
      let event_inverted := flags &&& NV_PB_FLAGS_POLARITY
      let send_on_ok := flags &&& NV_PB_FLAGS_SEND_ON
      let send_off_ok := flags &&& NV_PB_FLAGS_SEND_OFF
      let value := APP_GetEventState s happeningIndex
      if value ≠ EventState.EVENT_UNKNOWN then
        (TimedResponseResult.TIMED_RESPONSE_RESULT_NEXT,
          (sendInvertedProducedEvent ok happeningIndex value event_inverted send_on_ok
            send_off_ok s).2)
      else (TimedResponseResult.TIMED_RESPONSE_RESULT_NEXT, s)

/-! ## Default events and the main loop -/

/-- A call `addEvent(nodeNumber, eventNumber, evNum, evVal, forceOwnNN)` of the
event teaching library: for the event `nodeNumber:eventNumber` it writes the
value `evVal` into the EV of index `evNum` (EV#0 holds the happening). -/
structure AddEventCall where
  nodeNumber : Nat
  eventNumber : Nat
  evNum : Nat
  evVal : Nat
  forceOwnNN : Bool
deriving DecidableEq

/-- The loop `for (i=1; i<=NUM_PB; i++) addEvent(nn.word, i, 0, i, TRUE);` of
`factoryResetGlobalEvents`, entered at the test with the one-byte counter at `i`
and the calls made so far in `acc`.  One unit of fuel is spent per evaluation of
the test; `none` when the fuel runs out before the loop exits. -/
def factoryResetLoop (nn : Nat) : Nat → Nat → List AddEventCall → Option (List AddEventCall)
  | 0, _, _ => none
  | fuel + 1, i, acc =>
    if i ≤ NUM_PB then
      factoryResetLoop nn fuel ((i + 1) % 256) (acc ++ [AddEventCall.mk nn i 0 i true])
    else some acc

/-- `factoryResetGlobalEvents()`: the calls of `addEvent` it makes, in order, for
the node number `nn`. -/
def factoryResetGlobalEvents (nn fuel : Nat) : Option (List AddEventCall) :=
  factoryResetLoop nn fuel 1 []

/-- The indices of `evs` read by the loop of `APP_processConsumedEvent`, in
order: `ledNo = evs[e]; flags = evs[e+1];` for each `e` visited. -/
def evReads : List Nat := evIndices.flatMap (fun e => [e, e + 1])

/-- Number of bytes in one plane of `ledsMap`: `typedef uint8_t DigitMap[8]`. -/
def DIGIT_MAP_SIZE : Nat := 8

def NV_SOD_DELAY : Nat := 1
def NV_BRIGHTNESS : Nat := 5

/-- The tick library as `main.c` uses it.  Its header is not among the sources,
so its macros are parameters: `tickTimeSince now t` is the value of
`tickTimeSince(t)` when `tickGet()` reads `now`, and the three constants are the
tick counts of the named durations. -/
structure TickLib where
  tickTimeSince : Nat → Nat → Nat
  ONE_MILI_SECOND : Nat
  HUNDRED_MILI_SECOND : Nat
  TWO_SECOND : Nat

/-- The static variables of `main.c` with the state of the scan and of the LED
driver. -/
structure MainState where
  startTime : Nat
  started : Nat
  lastInputScanTime : Nat
  key : KeyState
  led : LedState

/-- What one call of `loop()` reads from outside: the three readings of the tick
counter (inside `tickTimeSince(startTime)`, inside
`tickTimeSince(lastInputScanTime)` and in `lastInputScanTime.val = tickGet()`),
the NV table and the pin levels. -/
structure LoopInput where
  tickStart : Nat
  tickScan : Nat
  tickNow : Nat
  nv : Nat → Nat
  pins : Nat → Nat → Bool

/-- A call made by `loop()`. -/
inductive MainCall where
  | sendProducedEvent (h : Nat) (st : EventState)
  | keyScan
deriving DecidableEq

/-- `setup()`: `initKeyscan()`, `initLedDriver(getNV(NV_BRIGHTNESS))`, then the
two time stamps are set to the tick read by `tickGet()` and `started` to FALSE.
The writes to the pull-up and analogue registers and the library calls that
touch no variable of `main.c` are left out. -/
def setup (nv : Nat → Nat) (pins : Nat → Nat → Bool) (tick : Nat) (s : MainState) :
    MainState :=
  { startTime := tick
    started := 0
    lastInputScanTime := tick
    key := initKeyscan pins s.key
    led := initLedDriver (nv NV_BRIGHTNESS % 256) s.led }

/-- The first statement of `loop()`: after the start-up delay, set `started` and
send the start-of-day event.  The delay `getNV(NV_SOD_DELAY) * HUNDRED_MILI_SECOND
+ TWO_SECOND` is computed in the tick type of the library. -/
def loopStart (lib : TickLib) (i : LoopInput) (s : MainState) : MainState × List MainCall :=
  if s.started = 0 ∧ lib.tickTimeSince i.tickStart s.startTime
      > i.nv NV_SOD_DELAY * lib.HUNDRED_MILI_SECOND + lib.TWO_SECOND then
    (MainState.mk s.startTime 1 s.lastInputScanTime
        (sendProducedEvent HAPPENING_SOD EventState.EVENT_ON s.key) s.led,
      [MainCall.sendProducedEvent HAPPENING_SOD EventState.EVENT_ON])
  else (s, [])

/-- The second statement of `loop()`: once started, scan the keys when more
than 10 ms have passed since the last scan. -/
def loopScan (lib : TickLib) (i : LoopInput) (s : MainState) : MainState × List MainCall :=
  if s.started ≠ 0 then
    if lib.tickTimeSince i.tickScan s.lastInputScanTime > 10 * lib.ONE_MILI_SECOND then
      (MainState.mk s.startTime s.started i.tickNow (keyScan i.nv i.pins s.key) s.led,
        [MainCall.keyScan])
    else (s, [])
  else (s, [])

/-- `loop()`: the new state and the calls made, in order. -/
def loop (lib : TickLib) (i : LoopInput) (s : MainState) : MainState × List MainCall :=
  ((loopScan lib i (loopStart lib i s).1).1,
    (loopStart lib i s).2 ++ (loopScan lib i (loopStart lib i s).1).2)

/-- Successive calls of `loop()`, one per element of the input list: the state
reached. -/
def loopRun (lib : TickLib) (ins : List LoopInput) (s : MainState) : MainState :=
  ins.foldl (fun s i => (loop lib i s).1) s

/-- The start-of-day event `(HAPPENING_SOD, EVENT_ON)`. -/
def sodEvent : Event := (HAPPENING_SOD, EventState.EVENT_ON)

/-! ## Concrete inputs -/

/-- Every pin reads low. -/
def pinsLow : Nat → Nat → Bool := fun _ _ => false

/-- Only the pin of row `r` reads high while column `c` is strobed. -/
def pinsOnly (c r : Nat) : Nat → Nat → Bool := fun c1 r1 => c1 == c && r1 == r

/-- An NV table holding the same byte at every index. -/
def nvAll (v : Nat) : Nat → Nat := fun _ => v

/-- The state after power-up with every pin low. -/
def idleState : KeyState := initKeyscan pinsLow resetState

/-- The state after power-up with every pin low, but with the counter nibbles
at 15, the largest value a 4-bit field holds. -/
def saturatedState : KeyState :=
  { idleState with debounceCounters := fun _ => { lower := 15, upper := 15 } }

/-- A pass with the given flags byte for every button and the given pin levels. -/
def pass (flags : Nat) (pins : Nat → Nat → Bool) : ScanInput :=
  { nv := nvAll flags, pins := pins }

/-- The state reached from idle when the pin of button 0 reads high for four
passes and low again for one: the accepted level is still low, the sample agrees
with it, and the counter of button 0 holds 4. -/
def noisyState : KeyState :=
  keyScanRun (List.replicate 4 (pass 7 (pinsOnly 0 0)) ++ [pass 7 pinsLow]) idleState

/-- The state after power-up with the pin of button 0 high and every other pin
low. -/
def heldState : KeyState := initKeyscan (pinsOnly 0 0) resetState

/-- Button 0 pressed and released twice: five passes with its pin high, five with
it low, and again, with the given flags byte. -/
def twoCycles (flags : Nat) : List ScanInput :=
  List.replicate 5 (pass flags (pinsOnly 0 0)) ++ List.replicate 5 (pass flags pinsLow)
    ++ List.replicate 5 (pass flags (pinsOnly 0 0)) ++ List.replicate 5 (pass flags pinsLow)

/-- The LED driver before `initLedDriver`: RAM zeroed by the C start-up code,
nothing sent yet. -/
def ledBlank : LedState := { ledsMap := fun _ _ => 0, decodeMode := 0, sent := [] }

/-- The LED driver after `initLedDriver(0)`. -/
def ledStart : LedState := initLedDriver 0 ledBlank

/-- The LED driver after `initLedDriver(0)`, with the byte of digit 0 holding `v`
in both planes. -/
def ledDigit0 (v : Nat) : LedState :=
  { ledStart with ledsMap := fun _ d => if d = 0 then v else 0 }

/-- An EV buffer with one action pair, `(ledNo, flags)` at `evs[1]`, `evs[2]`, and
`NO_ACTION` everywhere else. -/
def evsOne (ledNo flags : Nat) : Nat → Nat :=
  fun e => if e = 1 then ledNo else if e = 2 then flags else 0

/-- A result function for `sendProducedEvent`: the event is always sent. -/
def okAll : Nat → EventState → Bool := fun _ _ => true

/-- An EV buffer with two action pairs, `(l1, f1)` at `evs[1]`, `evs[2]` and
`(l2, f2)` at `evs[3]`, `evs[4]`, and `NO_ACTION` everywhere else. -/
def evsTwo (l1 f1 l2 f2 : Nat) : Nat → Nat :=
  fun e => if e = 1 then l1 else if e = 2 then f1 else if e = 3 then l2
    else if e = 4 then f2 else 0

/-- An EV buffer whose last action pair starts at `evs[19]` with `ledNo`: the
20 entries `evs[0]` to `evs[19]` hold `NO_ACTION` but for `evs[19]`, and `beyond`
is the byte that follows the buffer in memory. -/
def evsLast (ledNo beyond : Nat) : Nat → Nat :=
  fun e => if e = 19 then ledNo else if e = 20 then beyond else 0

/-- The state reached from idle when the pin of button 0 reads high for five
passes, with the given flags byte for every button: the press is committed. -/
def pressedState (flags : Nat) : KeyState :=
  keyScanRun (List.replicate 5 (pass flags (pinsOnly 0 0))) idleState

/-- A tick library counting in milliseconds, elapsed time by subtraction. -/
def ticksMs : TickLib :=
  { tickTimeSince := fun now t => now - t
    ONE_MILI_SECOND := 1
    HUNDRED_MILI_SECOND := 100
    TWO_SECOND := 2000 }

/-- The variables of `main.c` as the C start-up code leaves them. -/
def mainReset : MainState :=
  { startTime := 0, started := 0, lastInputScanTime := 0, key := resetState, led := ledBlank }

/-- A call of `loop()` at tick `t` with NV bytes all zero and every pin low. -/
def loopAt (t : Nat) : LoopInput :=
  { tickStart := t, tickScan := t, tickNow := t, nv := nvAll 0, pins := pinsLow }

/-! ## Auxiliary notions for the proofs -/

/-- The states `s` and `t` hold the same three cells for the row-0 button of
column `c`: its byte of each bit array and its byte of counters. -/
def SameCells (c : Nat) (s t : KeyState) : Prop :=
  t.keyInputState c = s.keyInputState c ∧ t.keyOutputState c = s.keyOutputState c ∧
    t.debounceCounters (COUNTER_INDEX c 0) = s.debounceCounters (COUNTER_INDEX c 0)

/-- The events a call `sendPBEvent(pb, state, flags)` hands to the sink. -/
def pbEvents (pb state flags : Nat) : List Event :=
  emitted resetState (sendPBEvent pb state flags resetState)

/-- The value the commit branch of `keyScan` assigns to the logical bit, from the
flags byte, the previous logical bit and the pin level. -/
def storedLevel (flags : Nat) (prev raw : Bool) : Bool :=
  if flags &&& NV_PB_FLAGS_TOGGLE ≠ 0 then !prev
  else if flags &&& NV_PB_FLAGS_POLARITY ≠ 0 then raw
  else !raw

/-- The invariant of the main loop relative to the log `p` at the end of
`setup()`: `started` holds FALSE or TRUE, and the log is `p` followed by events
among which the start-of-day event occurs `started` times. -/
def LoopInv (p : List Event) (t : MainState) : Prop :=
  (t.started = 0 ∨ t.started = 1)
    ∧ ∃ l, t.key.produced = p ++ l ∧ l.count sodEvent = t.started

/-! ## The column step -/

theorem PB_zero (c : Nat) : PB c 0 = 8 * c := by
  simp [PB, ROW_INPUTS, Nat.mul_comm]

theorem COUNTER_INDEX_zero (c : Nat) : COUNTER_INDEX c 0 = 4 * c := by
  simp only [COUNTER_INDEX, PB_zero]; omega

theorem acceptedLevel_PB (s : KeyState) (c : Nat) :
    acceptedLevel s (PB c 0) = (s.keyInputState c).b0 := by
  have h1 : 8 * c / 8 = c := by omega
  have h2 : 8 * c % 8 = 0 := by omega
  simp [acceptedLevel, PB_zero, ROW_INPUTS, h1, h2, ByteBits.bit]

theorem logicalLevel_PB (s : KeyState) (c : Nat) :
    logicalLevel s (PB c 0) = (s.keyOutputState c).b0 := by
  have h1 : 8 * c / 8 = c := by omega
  have h2 : 8 * c % 8 = 0 := by omega
  simp [logicalLevel, PB_zero, ROW_INPUTS, h1, h2, ByteBits.bit]

theorem debounceCounter_PB (s : KeyState) (c : Nat) :
    debounceCounter s (PB c 0) = (s.debounceCounters (COUNTER_INDEX c 0)).lower := by
  have h2 : 8 * c % 2 = 0 := by omega
  simp [debounceCounter, ByteNibbles.nibble, COUNTER_INDEX, PB_zero, h2]

theorem SameCells.refl (c : Nat) (s : KeyState) : SameCells c s s := ⟨rfl, rfl, rfl⟩

theorem SameCells.trans {c : Nat} {s t u : KeyState} (h1 : SameCells c s t)
    (h2 : SameCells c t u) : SameCells c s u :=
  ⟨h2.1.trans h1.1, h2.2.1.trans h1.2.1, h2.2.2.trans h1.2.2⟩

theorem sendPBEvent_eq (pb state flags : Nat) (s : KeyState) :
    sendPBEvent pb state flags s
      = { s with produced := s.produced ++ pbEvents pb state flags } := by
  simp only [pbEvents, emitted, sendPBEvent, sendProducedEvent, resetState]
  split_ifs <;> simp

/-- The column step when the sample of row 0 equals the accepted level. -/
theorem keyScanColumn_agree (nv : Nat → Nat) (pins : Nat → Nat → Bool)
    (c : Nat) (s : KeyState) (h : (s.keyInputState c).b0 = pins c 0) :
    keyScanColumn nv pins c s = strobeColumn c s := by
  simp [keyScanColumn, strobeColumn, h]

/-- The column step when the sample disagrees and the counter has not reached
`DEBOUNCE_DELAY`. -/
theorem keyScanColumn_count (nv : Nat → Nat) (pins : Nat → Nat → Bool)
    (c : Nat) (s : KeyState) (h : (s.keyInputState c).b0 ≠ pins c 0)
    (hn : (s.debounceCounters (COUNTER_INDEX c 0)).lower ≠ DEBOUNCE_DELAY) :
    keyScanColumn nv pins c s =
      { strobeColumn c s with
        debounceCounters := Function.update s.debounceCounters (COUNTER_INDEX c 0)
          { lower := ((s.debounceCounters (COUNTER_INDEX c 0)).lower + 1) % 16
            upper := (s.debounceCounters (COUNTER_INDEX c 0)).upper } } := by
  simp [keyScanColumn, strobeColumn, h, hn]

/-- The column step when the sample disagrees and the counter equals
`DEBOUNCE_DELAY`: the commit branch. -/
theorem keyScanColumn_commit (nv : Nat → Nat) (pins : Nat → Nat → Bool)
    (c : Nat) (s : KeyState) (h : (s.keyInputState c).b0 ≠ pins c 0)
    (hn : (s.debounceCounters (COUNTER_INDEX c 0)).lower = DEBOUNCE_DELAY) :
    keyScanColumn nv pins c s =
      { keyInputState := Function.update s.keyInputState c
          { (s.keyInputState c) with b0 := pins c 0 }
        keyOutputState := Function.update s.keyOutputState c
          { (s.keyOutputState c) with
            b0 := storedLevel (nv (NV_PB_FLAGS + PB c 0) % 256) (s.keyOutputState c).b0 (pins c 0) }
        debounceCounters := Function.update s.debounceCounters (COUNTER_INDEX c 0)
          { lower := 0, upper := (s.debounceCounters (COUNTER_INDEX c 0)).upper }
        COL_LAT := (strobeColumn c s).COL_LAT
        produced := s.produced ++ pbEvents (PB c 0 % 256)
          (storedLevel (nv (NV_PB_FLAGS + PB c 0) % 256) (s.keyOutputState c).b0
            (pins c 0)).toNat (nv (NV_PB_FLAGS + PB c 0) % 256) } := by
  simp only [keyScanColumn, strobeColumn, sendPBEvent_eq, storedLevel]
  simp only [bne_iff_ne, ne_eq, h, not_false_eq_true, if_true, hn]
  split_ifs <;> simp

/-- A column step leaves the cells of the other columns alone. -/
theorem keyScanColumn_input_other (nv : Nat → Nat) (pins : Nat → Nat → Bool)
    (a c : Nat) (s : KeyState) (h : c ≠ a) :
    (keyScanColumn nv pins a s).keyInputState c = s.keyInputState c := by
  by_cases ha : (s.keyInputState a).b0 = pins a 0
  · rw [keyScanColumn_agree nv pins a s ha]; rfl
  · by_cases hn : (s.debounceCounters (COUNTER_INDEX a 0)).lower = DEBOUNCE_DELAY
    · rw [keyScanColumn_commit nv pins a s ha hn]; exact Function.update_noteq h _ _
    · rw [keyScanColumn_count nv pins a s ha hn]; rfl

theorem keyScanColumn_output_other (nv : Nat → Nat) (pins : Nat → Nat → Bool)
    (a c : Nat) (s : KeyState) (h : c ≠ a) :
    (keyScanColumn nv pins a s).keyOutputState c = s.keyOutputState c := by
  by_cases ha : (s.keyInputState a).b0 = pins a 0
  · rw [keyScanColumn_agree nv pins a s ha]; rfl
  · by_cases hn : (s.debounceCounters (COUNTER_INDEX a 0)).lower = DEBOUNCE_DELAY
    · rw [keyScanColumn_commit nv pins a s ha hn]; exact Function.update_noteq h _ _
    · rw [keyScanColumn_count nv pins a s ha hn]; rfl

theorem keyScanColumn_counter_other (nv : Nat → Nat) (pins : Nat → Nat → Bool)
    (a i : Nat) (s : KeyState) (h : i ≠ COUNTER_INDEX a 0) :
    (keyScanColumn nv pins a s).debounceCounters i = s.debounceCounters i := by
  by_cases ha : (s.keyInputState a).b0 = pins a 0
  · rw [keyScanColumn_agree nv pins a s ha]; rfl
  · by_cases hn : (s.debounceCounters (COUNTER_INDEX a 0)).lower = DEBOUNCE_DELAY
    · rw [keyScanColumn_commit nv pins a s ha hn]; exact Function.update_noteq h _ _
    · rw [keyScanColumn_count nv pins a s ha hn]; exact Function.update_noteq h _ _

/-- A column step does not touch the cells of another column. -/
theorem keyScanColumn_frame (nv : Nat → Nat) (pins : Nat → Nat → Bool)
    (a c : Nat) (s : KeyState) (h : c ≠ a) :
    SameCells c s (keyScanColumn nv pins a s) := by
  refine ⟨keyScanColumn_input_other nv pins a c s h, keyScanColumn_output_other nv pins a c s h,
    keyScanColumn_counter_other nv pins a _ s ?_⟩
  simp only [COUNTER_INDEX_zero]; omega

/-- The log only grows in a column step. -/
theorem keyScanColumn_produced (nv : Nat → Nat) (pins : Nat → Nat → Bool)
    (c : Nat) (s : KeyState) :
    (keyScanColumn nv pins c s).produced
      = s.produced ++ emitted s (keyScanColumn nv pins c s) := by
  by_cases ha : (s.keyInputState c).b0 = pins c 0
  · rw [keyScanColumn_agree nv pins c s ha]; simp [emitted, strobeColumn]
  · by_cases hn : (s.debounceCounters (COUNTER_INDEX c 0)).lower = DEBOUNCE_DELAY
    · rw [keyScanColumn_commit nv pins c s ha hn]; simp [emitted]
    · rw [keyScanColumn_count nv pins c s ha hn]; simp [emitted, strobeColumn]

/-- A column step reads and writes only the cells of its own column. -/
theorem keyScanColumn_local (nv : Nat → Nat) (pins : Nat → Nat → Bool)
    (c : Nat) (s t : KeyState) (h : SameCells c s t) :
    SameCells c (keyScanColumn nv pins c s) (keyScanColumn nv pins c t)
      ∧ emitted t (keyScanColumn nv pins c t) = emitted s (keyScanColumn nv pins c s) := by
  obtain ⟨h1, h2, h3⟩ := h
  by_cases ha : (s.keyInputState c).b0 = pins c 0
  · have ha' : (t.keyInputState c).b0 = pins c 0 := by rw [h1]; exact ha
    rw [keyScanColumn_agree nv pins c s ha, keyScanColumn_agree nv pins c t ha']
    simp [SameCells, emitted, strobeColumn, h1, h2, h3]
  · have ha' : (t.keyInputState c).b0 ≠ pins c 0 := by rw [h1]; exact ha
    by_cases hn : (s.debounceCounters (COUNTER_INDEX c 0)).lower = DEBOUNCE_DELAY
    · have hn' : (t.debounceCounters (COUNTER_INDEX c 0)).lower = DEBOUNCE_DELAY := by
        rw [h3]; exact hn
      rw [keyScanColumn_commit nv pins c s ha hn, keyScanColumn_commit nv pins c t ha' hn']
      simp [SameCells, emitted, h1, h2, h3]
    · have hn' : (t.debounceCounters (COUNTER_INDEX c 0)).lower ≠ DEBOUNCE_DELAY := by
        rw [h3]; exact hn
      rw [keyScanColumn_count nv pins c s ha hn, keyScanColumn_count nv pins c t ha' hn']
      simp [SameCells, emitted, strobeColumn, h1, h2, h3]

/-- Folding column steps over columns other than `c` keeps the cells of `c`. -/
theorem foldl_keyScanColumn_frame (nv : Nat → Nat) (pins : Nat → Nat → Bool) (c : Nat) :
    ∀ (cols : List Nat) (s : KeyState), c ∉ cols →
      SameCells c s (cols.foldl (fun s col => keyScanColumn nv pins col s) s)
  | [], s, _ => SameCells.refl c s
  | a :: cols, s, h => by
    have hca : c ≠ a := fun e => h (by simp [e])
    have hc : c ∉ cols := fun e => h (by simp [e])
    exact (keyScanColumn_frame nv pins a c s hca).trans
      (foldl_keyScanColumn_frame nv pins c cols _ hc)

/-- Folding column steps over distinct columns: the cells of a column `c` of the
list end up as the step of `c` alone leaves them. -/
theorem foldl_keyScanColumn_cells (nv : Nat → Nat) (pins : Nat → Nat → Bool) (c : Nat) :
    ∀ (cols : List Nat) (s : KeyState), cols.Nodup → c ∈ cols →
      SameCells c (keyScanColumn nv pins c s)
        (cols.foldl (fun s col => keyScanColumn nv pins col s) s)
  | [], _, _, h => by simp at h
  | a :: cols, s, hnd, h => by
    rw [List.nodup_cons] at hnd
    by_cases hca : c = a
    · subst hca
      exact foldl_keyScanColumn_frame nv pins c cols _ hnd.1
    · have hc : c ∈ cols := by
        rcases List.mem_cons.1 h with e | e
        · exact absurd e hca
        · exact e
      have ih := foldl_keyScanColumn_cells nv pins c cols (keyScanColumn nv pins a s) hnd.2 hc
      exact (keyScanColumn_local nv pins c s _ (keyScanColumn_frame nv pins a c s hca)).1.trans ih

/-- Folding column steps over distinct columns: the log grows by what each
column step alone emits, in the order of the columns. -/
theorem foldl_keyScanColumn_produced (nv : Nat → Nat) (pins : Nat → Nat → Bool) :
    ∀ (cols : List Nat) (s : KeyState), cols.Nodup →
      (cols.foldl (fun s col => keyScanColumn nv pins col s) s).produced
        = s.produced ++ cols.flatMap (fun c => emitted s (keyScanColumn nv pins c s))
  | [], s, _ => by simp
  | a :: cols, s, hnd => by
    rw [List.nodup_cons] at hnd
    rw [List.foldl_cons, foldl_keyScanColumn_produced nv pins cols _ hnd.2,
      keyScanColumn_produced nv pins a s, List.flatMap_cons, List.append_assoc]
    congr 2
    apply List.flatMap_congr
    intro c hc
    have hca : c ≠ a := fun e => hnd.1 (e ▸ hc)
    exact (keyScanColumn_local nv pins c s _ (keyScanColumn_frame nv pins a c s hca)).2

/-! ## One pass -/

theorem range_COLUMN_OUTPUTS_nodup : (List.range COLUMN_OUTPUTS).Nodup := List.nodup_range _

/-- After a pass the cells of a column `c < COLUMN_OUTPUTS` are what the step of
that column alone makes of them. -/
theorem keyScan_cells (nv : Nat → Nat) (pins : Nat → Nat → Bool) (c : Nat) (s : KeyState)
    (hc : c < COLUMN_OUTPUTS) :
    SameCells c (keyScanColumn nv pins c s) (keyScan nv pins s) :=
  foldl_keyScanColumn_cells nv pins c _ s range_COLUMN_OUTPUTS_nodup (List.mem_range.2 hc)

/-- The log after a pass: what each column step alone emits, columns in order. -/
theorem keyScan_produced (nv : Nat → Nat) (pins : Nat → Nat → Bool) (s : KeyState) :
    (keyScan nv pins s).produced = s.produced ++
      (List.range COLUMN_OUTPUTS).flatMap (fun c => emitted s (keyScanColumn nv pins c s)) :=
  foldl_keyScanColumn_produced nv pins _ s range_COLUMN_OUTPUTS_nodup

/-- A relation that is reflexive, transitive and established by every column
step is established by a pass. -/
theorem keyScan_rel (nv : Nat → Nat) (pins : Nat → Nat → Bool)
    (R : KeyState → KeyState → Prop) (hr : ∀ s, R s s)
    (ht : ∀ s t u, R s t → R t u → R s u)
    (hstep : ∀ a s, R s (keyScanColumn nv pins a s)) (s : KeyState) :
    R s (keyScan nv pins s) := by
  have key : ∀ (cols : List Nat) (s : KeyState),
      R s (cols.foldl (fun s col => keyScanColumn nv pins col s) s) := by
    intro cols
    induction cols with
    | nil => intro s; exact hr s
    | cons a cols ih => intro s; exact ht _ _ _ (hstep a s) (ih _)
  exact key _ s

theorem ByteBits.bit_b0_update (x : ByteBits) (v : Bool) (r : Nat) (h : r ≠ 0) :
    ByteBits.bit { x with b0 := v } r = x.bit r := by
  unfold ByteBits.bit
  split <;> simp_all

/-- A column step writes no bit of a row other than row 0, in either bit array. -/
theorem keyScanColumn_rows (nv : Nat → Nat) (pins : Nat → Nat → Bool) (a : Nat) (s : KeyState)
    (c r : Nat) (h : r ≠ 0) :
    ((keyScanColumn nv pins a s).keyInputState c).bit r = (s.keyInputState c).bit r
      ∧ ((keyScanColumn nv pins a s).keyOutputState c).bit r = (s.keyOutputState c).bit r := by
  by_cases ha : (s.keyInputState a).b0 = pins a 0
  · rw [keyScanColumn_agree nv pins a s ha]; simp [strobeColumn]
  · by_cases hn : (s.debounceCounters (COUNTER_INDEX a 0)).lower = DEBOUNCE_DELAY
    · rw [keyScanColumn_commit nv pins a s ha hn]
      by_cases hca : c = a
      · subst hca; simp [ByteBits.bit_b0_update _ _ r h]
      · simp [Function.update_noteq hca]
    · rw [keyScanColumn_count nv pins a s ha hn]; simp [strobeColumn]

/-- A column step writes no upper nibble, and no byte of counters other than
byte `COUNTER_INDEX(col,0)`. -/
theorem keyScanColumn_upper (nv : Nat → Nat) (pins : Nat → Nat → Bool) (a : Nat) (s : KeyState)
    (i : Nat) :
    ((keyScanColumn nv pins a s).debounceCounters i).upper = (s.debounceCounters i).upper := by
  by_cases ha : (s.keyInputState a).b0 = pins a 0
  · rw [keyScanColumn_agree nv pins a s ha]; simp [strobeColumn]
  · by_cases hi : i = COUNTER_INDEX a 0
    · by_cases hn : (s.debounceCounters (COUNTER_INDEX a 0)).lower = DEBOUNCE_DELAY
      · rw [keyScanColumn_commit nv pins a s ha hn]; subst hi; simp
      · rw [keyScanColumn_count nv pins a s ha hn]; subst hi; simp [strobeColumn]
    · rw [keyScanColumn_counter_other nv pins a i s hi]

/-- A pass writes no bit of a row other than row 0, in either bit array. -/
theorem keyScan_rows (nv : Nat → Nat) (pins : Nat → Nat → Bool) (s : KeyState)
    (c r : Nat) (h : r ≠ 0) :
    ((keyScan nv pins s).keyInputState c).bit r = (s.keyInputState c).bit r
      ∧ ((keyScan nv pins s).keyOutputState c).bit r = (s.keyOutputState c).bit r :=
  keyScan_rel nv pins
    (fun s t => (t.keyInputState c).bit r = (s.keyInputState c).bit r
      ∧ (t.keyOutputState c).bit r = (s.keyOutputState c).bit r)
    (fun _ => ⟨rfl, rfl⟩)
    (fun _ _ _ h1 h2 => ⟨h2.1.trans h1.1, h2.2.trans h1.2⟩)
    (fun a s => keyScanColumn_rows nv pins a s c r h) s

/-- A pass writes no upper nibble. -/
theorem keyScan_upper (nv : Nat → Nat) (pins : Nat → Nat → Bool) (s : KeyState) (i : Nat) :
    ((keyScan nv pins s).debounceCounters i).upper = (s.debounceCounters i).upper :=
  keyScan_rel nv pins
    (fun s t => (t.debounceCounters i).upper = (s.debounceCounters i).upper)
    (fun _ => rfl) (fun _ _ _ h1 h2 => h2.trans h1)
    (fun a s => keyScanColumn_upper nv pins a s i) s

/-- A pass writes no byte of counters whose index is not `COUNTER_INDEX(col,0)` for
a column `col < COLUMN_OUTPUTS`. -/
theorem keyScan_counter_other (nv : Nat → Nat) (pins : Nat → Nat → Bool) (s : KeyState)
    (i : Nat) (h : ∀ a, a < COLUMN_OUTPUTS → i ≠ COUNTER_INDEX a 0) :
    (keyScan nv pins s).debounceCounters i = s.debounceCounters i := by
  have key : ∀ (cols : List Nat) (s : KeyState), (∀ a ∈ cols, a < COLUMN_OUTPUTS) →
      (cols.foldl (fun s col => keyScanColumn nv pins col s) s).debounceCounters i
        = s.debounceCounters i := by
    intro cols
    induction cols with
    | nil => intro s _; rfl
    | cons a cols ih =>
      intro s hall
      rw [List.foldl_cons, ih _ (fun b hb => hall b (List.mem_cons_of_mem _ hb))]
      exact keyScanColumn_counter_other nv pins a i s (h a (hall a (List.mem_cons_self _ _)))
  exact key _ s (fun a ha => List.mem_range.1 ha)

/-- A pass writes no byte of the bit arrays outside the columns it scans. -/
theorem keyScan_column_other (nv : Nat → Nat) (pins : Nat → Nat → Bool) (s : KeyState)
    (c : Nat) (h : COLUMN_OUTPUTS ≤ c) :
    (keyScan nv pins s).keyInputState c = s.keyInputState c
      ∧ (keyScan nv pins s).keyOutputState c = s.keyOutputState c := by
  have hs := foldl_keyScanColumn_frame nv pins c (List.range COLUMN_OUTPUTS) s
    (fun hm => absurd (List.mem_range.1 hm) (Nat.not_lt.2 h))
  exact ⟨hs.1, hs.2.1⟩

/-- Pass, row 0 of column `c`, sample equal to the accepted level: nothing moves. -/
theorem keyScan_agree (nv : Nat → Nat) (pins : Nat → Nat → Bool) (c : Nat) (s : KeyState)
    (hc : c < COLUMN_OUTPUTS) (h : (s.keyInputState c).b0 = pins c 0) :
    (keyScan nv pins s).keyInputState c = s.keyInputState c
      ∧ (keyScan nv pins s).keyOutputState c = s.keyOutputState c
      ∧ (keyScan nv pins s).debounceCounters (COUNTER_INDEX c 0)
          = s.debounceCounters (COUNTER_INDEX c 0)
      ∧ emitted s (keyScanColumn nv pins c s) = [] := by
  obtain ⟨h1, h2, h3⟩ := keyScan_cells nv pins c s hc
  rw [keyScanColumn_agree nv pins c s h] at h1 h2 h3 ⊢
  exact ⟨h1, h2, h3, by simp [emitted, strobeColumn]⟩

/-- Pass, row 0 of column `c`, sample different from the accepted level, counter
not at `DEBOUNCE_DELAY`: the 4-bit counter is incremented, nothing else moves. -/
theorem keyScan_count (nv : Nat → Nat) (pins : Nat → Nat → Bool) (c : Nat) (s : KeyState)
    (hc : c < COLUMN_OUTPUTS) (h : (s.keyInputState c).b0 ≠ pins c 0)
    (hn : (s.debounceCounters (COUNTER_INDEX c 0)).lower ≠ DEBOUNCE_DELAY) :
    (keyScan nv pins s).keyInputState c = s.keyInputState c
      ∧ (keyScan nv pins s).keyOutputState c = s.keyOutputState c
      ∧ (keyScan nv pins s).debounceCounters (COUNTER_INDEX c 0)
          = { lower := ((s.debounceCounters (COUNTER_INDEX c 0)).lower + 1) % 16
              upper := (s.debounceCounters (COUNTER_INDEX c 0)).upper }
      ∧ emitted s (keyScanColumn nv pins c s) = [] := by
  obtain ⟨h1, h2, h3⟩ := keyScan_cells nv pins c s hc
  rw [keyScanColumn_count nv pins c s h hn] at h1 h2 h3 ⊢
  refine ⟨h1, h2, ?_, by simp [emitted, strobeColumn]⟩
  rw [h3]; simp

/-- Pass, row 0 of column `c`, sample different from the accepted level, counter
at `DEBOUNCE_DELAY`: the transition is committed. -/
theorem keyScan_commit (nv : Nat → Nat) (pins : Nat → Nat → Bool) (c : Nat) (s : KeyState)
    (hc : c < COLUMN_OUTPUTS) (h : (s.keyInputState c).b0 ≠ pins c 0)
    (hn : (s.debounceCounters (COUNTER_INDEX c 0)).lower = DEBOUNCE_DELAY) :
    (keyScan nv pins s).keyInputState c = { (s.keyInputState c) with b0 := pins c 0 }
      ∧ (keyScan nv pins s).keyOutputState c
          = { (s.keyOutputState c) with
              b0 := storedLevel (nv (NV_PB_FLAGS + PB c 0) % 256) (s.keyOutputState c).b0
                (pins c 0) }
      ∧ (keyScan nv pins s).debounceCounters (COUNTER_INDEX c 0)
          = { lower := 0, upper := (s.debounceCounters (COUNTER_INDEX c 0)).upper }
      ∧ emitted s (keyScanColumn nv pins c s)
          = pbEvents (PB c 0 % 256)
              (storedLevel (nv (NV_PB_FLAGS + PB c 0) % 256) (s.keyOutputState c).b0
                (pins c 0)).toNat (nv (NV_PB_FLAGS + PB c 0) % 256) := by
  obtain ⟨h1, h2, h3⟩ := keyScan_cells nv pins c s hc
  rw [keyScanColumn_commit nv pins c s h hn] at h1 h2 h3 ⊢
  refine ⟨?_, ?_, ?_, by simp [emitted]⟩
  · rw [h1]; simp
  · rw [h2]; simp
  · rw [h3]; simp

/-! ## One pass, seen from a button -/

theorem PB_div_mod (pb : Nat) (h : pb % 8 = 0) : PB (pb / 8) 0 = pb := by
  rw [PB_zero]; omega

/-- Buttons of rows 1 to 7: a pass leaves accepted level, logical level and
counter as they were. -/
theorem keyScan_button_other_row (nv : Nat → Nat) (pins : Nat → Nat → Bool) (s : KeyState)
    (pb : Nat) (h : pb % 8 ≠ 0) :
    acceptedLevel (keyScan nv pins s) pb = acceptedLevel s pb
      ∧ logicalLevel (keyScan nv pins s) pb = logicalLevel s pb
      ∧ debounceCounter (keyScan nv pins s) pb = debounceCounter s pb := by
  have hr := keyScan_rows nv pins s (pb / ROW_INPUTS) (pb % ROW_INPUTS) (by simpa [ROW_INPUTS] using h)
  refine ⟨hr.1, hr.2, ?_⟩
  unfold debounceCounter ByteNibbles.nibble
  by_cases h2 : pb % 2 = 0
  · rw [keyScan_counter_other nv pins s (pb / 2)]
    intro a _
    rw [COUNTER_INDEX_zero]; omega
  · simp only [h2, if_false]
    exact keyScan_upper nv pins s _

/-- Buttons of columns that do not exist: a pass leaves them as they were. -/
theorem keyScan_button_other_column (nv : Nat → Nat) (pins : Nat → Nat → Bool) (s : KeyState)
    (pb : Nat) (h : COLUMN_OUTPUTS ≤ pb / 8) :
    acceptedLevel (keyScan nv pins s) pb = acceptedLevel s pb
      ∧ logicalLevel (keyScan nv pins s) pb = logicalLevel s pb := by
  have hc := keyScan_column_other nv pins s (pb / 8) h
  simp only [acceptedLevel, logicalLevel, ROW_INPUTS, hc.1, hc.2, and_self]

/-- Row-0 button, sample equal to the accepted level. -/
theorem keyScan_button_agree (nv : Nat → Nat) (pins : Nat → Nat → Bool) (c : Nat)
    (s : KeyState) (hc : c < COLUMN_OUTPUTS) (h : acceptedLevel s (PB c 0) = pins c 0) :
    acceptedLevel (keyScan nv pins s) (PB c 0) = acceptedLevel s (PB c 0)
      ∧ logicalLevel (keyScan nv pins s) (PB c 0) = logicalLevel s (PB c 0)
      ∧ debounceCounter (keyScan nv pins s) (PB c 0) = debounceCounter s (PB c 0) := by
  simp only [acceptedLevel_PB, logicalLevel_PB, debounceCounter_PB] at h ⊢
  obtain ⟨h1, h2, h3, _⟩ := keyScan_agree nv pins c s hc h
  rw [h1, h2, h3]; exact ⟨rfl, rfl, rfl⟩

/-- Row-0 button, sample different, counter not at `DEBOUNCE_DELAY`. -/
theorem keyScan_button_count (nv : Nat → Nat) (pins : Nat → Nat → Bool) (c : Nat)
    (s : KeyState) (hc : c < COLUMN_OUTPUTS) (h : acceptedLevel s (PB c 0) ≠ pins c 0)
    (hn : debounceCounter s (PB c 0) ≠ DEBOUNCE_DELAY) :
    acceptedLevel (keyScan nv pins s) (PB c 0) = acceptedLevel s (PB c 0)
      ∧ logicalLevel (keyScan nv pins s) (PB c 0) = logicalLevel s (PB c 0)
      ∧ debounceCounter (keyScan nv pins s) (PB c 0) = (debounceCounter s (PB c 0) + 1) % 16 := by
  simp only [acceptedLevel_PB, logicalLevel_PB, debounceCounter_PB] at h hn ⊢
  obtain ⟨h1, h2, h3, _⟩ := keyScan_count nv pins c s hc h hn
  rw [h1, h2, h3]; exact ⟨rfl, rfl, rfl⟩

/-- Row-0 button, sample different, counter at `DEBOUNCE_DELAY`. -/
theorem keyScan_button_commit (nv : Nat → Nat) (pins : Nat → Nat → Bool) (c : Nat)
    (s : KeyState) (hc : c < COLUMN_OUTPUTS) (h : acceptedLevel s (PB c 0) ≠ pins c 0)
    (hn : debounceCounter s (PB c 0) = DEBOUNCE_DELAY) :
    acceptedLevel (keyScan nv pins s) (PB c 0) = pins c 0
      ∧ logicalLevel (keyScan nv pins s) (PB c 0)
          = storedLevel (nv (NV_PB_FLAGS + PB c 0) % 256) (logicalLevel s (PB c 0)) (pins c 0)
      ∧ debounceCounter (keyScan nv pins s) (PB c 0) = 0 := by
  simp only [acceptedLevel_PB, logicalLevel_PB, debounceCounter_PB] at h hn ⊢
  obtain ⟨h1, h2, h3, _⟩ := keyScan_commit nv pins c s hc h hn
  rw [h1, h2, h3]; exact ⟨rfl, rfl, rfl⟩

/-- A pass commits a transition for a button exactly when the button is in row 0
of a scanned column, its sample differs from its accepted level and its counter
equals `DEBOUNCE_DELAY`. -/
theorem committed_iff (nv : Nat → Nat) (pins : Nat → Nat → Bool) (s : KeyState) (pb : Nat) :
    committed s (keyScan nv pins s) pb = true ↔
      pb % 8 = 0 ∧ pb / 8 < COLUMN_OUTPUTS ∧ acceptedLevel s pb ≠ pins (pb / 8) 0
        ∧ debounceCounter s pb = DEBOUNCE_DELAY := by
  unfold committed
  by_cases hr : pb % 8 = 0
  · by_cases hc : pb / 8 < COLUMN_OUTPUTS
    · have hpb := PB_div_mod pb hr
      by_cases ha : acceptedLevel s pb = pins (pb / 8) 0
      · have := keyScan_button_agree nv pins (pb / 8) s hc (by rw [hpb]; exact ha)
        rw [hpb] at this
        simp [this.1, ha]
      · by_cases hn : debounceCounter s pb = DEBOUNCE_DELAY
        · have := keyScan_button_commit nv pins (pb / 8) s hc (by rw [hpb]; exact ha)
            (by rw [hpb]; exact hn)
          rw [hpb] at this
          simp only [this.1, hr, hc, hn, ha, ne_eq, not_false_eq_true, and_self, iff_true,
            bne_iff_ne]
          exact fun e => ha e.symm
        · have := keyScan_button_count nv pins (pb / 8) s hc (by rw [hpb]; exact ha)
            (by rw [hpb]; exact hn)
          rw [hpb] at this
          simp [this.1, hn]
    · have := keyScan_button_other_column nv pins s pb (Nat.not_lt.1 hc)
      simp [this.1, hc]
  · have := keyScan_button_other_row nv pins s pb hr
    simp [this.1, hr]

/-! ## Events of one pass -/

/-- The events of a call `sendPBEvent(pb, state, flags)`, spelled out. -/
theorem pbEvents_eq (pb state flags : Nat) :
    pbEvents pb state flags =
      if state ≠ 0 then
        if flags &&& NV_PB_FLAGS_SEND_ON ≠ 0 then [(PB_2_HAPPENING pb % 256, EventState.EVENT_ON)]
        else []
      else
        if flags &&& NV_PB_FLAGS_SEND_OFF ≠ 0 then
          [(PB_2_HAPPENING pb % 256, EventState.EVENT_OFF)]
        else [] := by
  simp only [pbEvents, emitted, sendPBEvent, sendProducedEvent, resetState]
  split_ifs <;> simp

theorem pbEvents_happening (pb state flags : Nat) (e : Event)
    (h : e ∈ pbEvents pb state flags) : e.1 = PB_2_HAPPENING pb % 256 := by
  rw [pbEvents_eq] at h
  split_ifs at h <;> simp_all

theorem PB_mod (c : Nat) (hc : c < COLUMN_OUTPUTS) : PB c 0 % 256 = PB c 0 := by
  rw [PB_zero]; unfold COLUMN_OUTPUTS at hc; omega

/-- The log after a pass is the old log followed by the events of the pass. -/
theorem keyScan_produced_emitted (nv : Nat → Nat) (pins : Nat → Nat → Bool) (s : KeyState) :
    (keyScan nv pins s).produced = s.produced ++ emitted s (keyScan nv pins s) := by
  unfold emitted
  rw [keyScan_produced, List.drop_left]

/-- The events of a pass: for every column in order, the events of the one call of
`sendPBEvent` made if the row-0 button of the column commits, with the logical
level the pass stores for it. -/
theorem keyScan_emitted (nv : Nat → Nat) (pins : Nat → Nat → Bool) (s : KeyState) :
    emitted s (keyScan nv pins s) =
      (List.range COLUMN_OUTPUTS).flatMap (fun c =>
        if committed s (keyScan nv pins s) (PB c 0) then
          pbEvents (PB c 0) (logicalLevel (keyScan nv pins s) (PB c 0)).toNat
            (nv (NV_PB_FLAGS + PB c 0) % 256)
        else []) := by
  have hp : emitted s (keyScan nv pins s) =
      (List.range COLUMN_OUTPUTS).flatMap (fun c => emitted s (keyScanColumn nv pins c s)) := by
    unfold emitted
    rw [keyScan_produced, List.drop_left]
    rfl
  rw [hp]
  apply List.flatMap_congr
  intro c hc
  have hc := List.mem_range.1 hc
  have h8 : PB c 0 % 8 = 0 := by rw [PB_zero]; omega
  have hd : PB c 0 / 8 = c := by rw [PB_zero]; omega
  have hci := committed_iff nv pins s (PB c 0)
  rw [hd] at hci
  by_cases ha : acceptedLevel s (PB c 0) = pins c 0
  · have hnc : ¬ committed s (keyScan nv pins s) (PB c 0) = true := by
      rw [hci]; intro h; exact h.2.2.1 ha
    rw [if_neg hnc]
    exact (keyScan_agree nv pins c s hc (by rw [← acceptedLevel_PB]; exact ha)).2.2.2
  · by_cases hn : debounceCounter s (PB c 0) = DEBOUNCE_DELAY
    · have hcm : committed s (keyScan nv pins s) (PB c 0) = true := hci.2 ⟨h8, hc, ha, hn⟩
      rw [if_pos hcm, (keyScan_button_commit nv pins c s hc ha hn).2.1, logicalLevel_PB]
      have := (keyScan_commit nv pins c s hc (by rw [← acceptedLevel_PB]; exact ha)
        (by rw [← debounceCounter_PB]; exact hn)).2.2.2
      rw [this, PB_mod c hc]
    · have hnc : ¬ committed s (keyScan nv pins s) (PB c 0) = true := by
        rw [hci]; intro h; exact hn h.2.2.2
      rw [if_neg hnc]
      exact (keyScan_count nv pins c s hc (by rw [← acceptedLevel_PB]; exact ha)
        (by rw [← debounceCounter_PB]; exact hn)).2.2.2

/-- Every event of a pass carries the happening of a row-0 button that the pass
committed. -/
theorem keyScan_emitted_mem (nv : Nat → Nat) (pins : Nat → Nat → Bool) (s : KeyState)
    (e : Event) (h : e ∈ emitted s (keyScan nv pins s)) :
    ∃ c, c < COLUMN_OUTPUTS ∧ committed s (keyScan nv pins s) (PB c 0) = true
      ∧ e.1 = PB_2_HAPPENING (PB c 0) := by
  rw [keyScan_emitted, List.mem_flatMap] at h
  obtain ⟨c, hc, he⟩ := h
  have hc := List.mem_range.1 hc
  split_ifs at he with hcm
  · refine ⟨c, hc, hcm, ?_⟩
    rw [pbEvents_happening _ _ _ e he, PB_zero, PB_2_HAPPENING]
    unfold COLUMN_OUTPUTS at hc; omega
  · simp at he

/-- A pass that does not commit button `PB(c,0)` emits no event with its happening. -/
theorem keyScan_no_event (nv : Nat → Nat) (pins : Nat → Nat → Bool) (s : KeyState) (c : Nat)
    (h : committed s (keyScan nv pins s) (PB c 0) = false) (e : Event)
    (he : e ∈ emitted s (keyScan nv pins s)) : e.1 ≠ PB_2_HAPPENING (PB c 0) := by
  obtain ⟨a, _, hcm, hea⟩ := keyScan_emitted_mem nv pins s e he
  intro hec
  rw [hea] at hec
  have : a = c := by
    simp only [PB_2_HAPPENING, PB_zero] at hec; omega
  subst this
  rw [h] at hcm
  exact Bool.noConfusion hcm

/-! ## Runs of passes -/

theorem keyScanRun_nil (s : KeyState) : keyScanRun [] s = s := rfl

theorem keyScanRun_cons (i : ScanInput) (ins : List ScanInput) (s : KeyState) :
    keyScanRun (i :: ins) s = keyScanRun ins (keyScan i.nv i.pins s) := rfl

/-- A run in which the sample of `PB(c,0)` always equals the accepted level:
nothing is committed and the button's state stays as it is. -/
theorem run_stable (c : Nat) (hc : c < COLUMN_OUTPUTS) (L : Bool) :
    ∀ (ins : List ScanInput) (s : KeyState), (∀ i ∈ ins, i.pins c 0 = L) →
      acceptedLevel s (PB c 0) = L →
      acceptedLevel (keyScanRun ins s) (PB c 0) = L
        ∧ logicalLevel (keyScanRun ins s) (PB c 0) = logicalLevel s (PB c 0)
        ∧ debounceCounter (keyScanRun ins s) (PB c 0) = debounceCounter s (PB c 0)
        ∧ commitCount (PB c 0) ins s = 0
  | [], s, _, ha => ⟨ha, rfl, rfl, rfl⟩
  | i :: ins, s, hp, ha => by
    have hi : i.pins c 0 = L := hp i (List.mem_cons_self _ _)
    have h1 := keyScan_button_agree i.nv i.pins c s hc (by rw [ha, hi])
    have ih := run_stable c hc L ins (keyScan i.nv i.pins s)
      (fun j hj => hp j (List.mem_cons_of_mem _ hj)) (by rw [h1.1]; exact ha)
    rw [keyScanRun_cons]
    refine ⟨ih.1, by rw [ih.2.1, h1.2.1], by rw [ih.2.2.1, h1.2.2], ?_⟩
    simp [commitCount, committed, h1.1, ih.2.2.2]

/-- A run in which the sample of `PB(c,0)` always differs from the accepted level
and the counter does not reach beyond `DEBOUNCE_DELAY`: the counter counts the
passes and nothing is committed. -/
theorem run_counting (c : Nat) (hc : c < COLUMN_OUTPUTS) (L : Bool) :
    ∀ (ins : List ScanInput) (s : KeyState), (∀ i ∈ ins, i.pins c 0 = L) →
      acceptedLevel s (PB c 0) ≠ L →
      debounceCounter s (PB c 0) + ins.length ≤ DEBOUNCE_DELAY →
      acceptedLevel (keyScanRun ins s) (PB c 0) = acceptedLevel s (PB c 0)
        ∧ logicalLevel (keyScanRun ins s) (PB c 0) = logicalLevel s (PB c 0)
        ∧ debounceCounter (keyScanRun ins s) (PB c 0) = debounceCounter s (PB c 0) + ins.length
        ∧ commitCount (PB c 0) ins s = 0
  | [], s, _, _, _ => ⟨rfl, rfl, rfl, rfl⟩
  | i :: ins, s, hp, ha, hn => by
    have hi : i.pins c 0 = L := hp i (List.mem_cons_self _ _)
    simp only [List.length_cons, DEBOUNCE_DELAY] at hn
    have h1 := keyScan_button_count i.nv i.pins c s hc (by rw [hi]; exact ha)
      (by simp only [DEBOUNCE_DELAY]; omega)
    have hcnt : debounceCounter (keyScan i.nv i.pins s) (PB c 0)
        = debounceCounter s (PB c 0) + 1 := by
      rw [h1.2.2]; omega
    have ih := run_counting c hc L ins (keyScan i.nv i.pins s)
      (fun j hj => hp j (List.mem_cons_of_mem _ hj)) (by rw [h1.1]; exact ha)
      (by rw [hcnt]; simp only [DEBOUNCE_DELAY]; omega)
    rw [keyScanRun_cons]
    refine ⟨by rw [ih.1, h1.1], by rw [ih.2.1, h1.2.1], ?_, ?_⟩
    · rw [ih.2.2.1, hcnt, List.length_cons]; omega
    · simp [commitCount, committed, h1.1, ih.2.2.2]

/-- A run in which the sample of `PB(c,0)` is held at a level different from the
accepted one for more passes than the counter still has to count: exactly one
transition is committed, and the run ends with the level accepted and the
counter at 0. -/
theorem run_commit (c : Nat) (hc : c < COLUMN_OUTPUTS) (L : Bool) :
    ∀ (ins : List ScanInput) (s : KeyState), (∀ i ∈ ins, i.pins c 0 = L) →
      acceptedLevel s (PB c 0) ≠ L →
      debounceCounter s (PB c 0) ≤ DEBOUNCE_DELAY →
      DEBOUNCE_DELAY + 1 ≤ debounceCounter s (PB c 0) + ins.length →
      acceptedLevel (keyScanRun ins s) (PB c 0) = L
        ∧ debounceCounter (keyScanRun ins s) (PB c 0) = 0
        ∧ commitCount (PB c 0) ins s = 1
  | [], s, _, _, hn, hl => by simp only [List.length_nil] at hl; omega
  | i :: ins, s, hp, ha, hn, hl => by
    have hi : i.pins c 0 = L := hp i (List.mem_cons_self _ _)
    have hrest : ∀ j ∈ ins, j.pins c 0 = L := fun j hj => hp j (List.mem_cons_of_mem _ hj)
    simp only [List.length_cons, DEBOUNCE_DELAY] at hn hl
    rw [keyScanRun_cons]
    by_cases h4 : debounceCounter s (PB c 0) = DEBOUNCE_DELAY
    · have h1 := keyScan_button_commit i.nv i.pins c s hc (by rw [hi]; exact ha) h4
      have hs := run_stable c hc L ins (keyScan i.nv i.pins s) hrest (by rw [h1.1, hi])
      refine ⟨hs.1, by rw [hs.2.2.1, h1.2.2], ?_⟩
      have hcm : committed s (keyScan i.nv i.pins s) (PB c 0) = true := by
        simp only [committed, h1.1, hi, bne_iff_ne, ne_eq]
        exact fun e => ha e.symm
      simp [commitCount, hcm, hs.2.2.2]
    · have h1 := keyScan_button_count i.nv i.pins c s hc (by rw [hi]; exact ha) h4
      simp only [DEBOUNCE_DELAY] at h4
      have hcnt : debounceCounter (keyScan i.nv i.pins s) (PB c 0)
          = debounceCounter s (PB c 0) + 1 := by
        rw [h1.2.2]; omega
      have ih := run_commit c hc L ins (keyScan i.nv i.pins s) hrest
        (by rw [h1.1]; exact ha) (by rw [hcnt]; simp only [DEBOUNCE_DELAY]; omega)
        (by rw [hcnt]; simp only [DEBOUNCE_DELAY]; omega)
      refine ⟨ih.1, ih.2.1, ?_⟩
      simp [commitCount, committed, h1.1, ih.2.2]

/-! ## More on passes and runs -/

/-- What a pass does to an arbitrary button: either it commits (the sample is
accepted, the logical level recomputed, the counter reset) or the accepted and
logical levels stay. -/
theorem keyScan_button_cases (nv : Nat → Nat) (pins : Nat → Nat → Bool) (s : KeyState)
    (pb : Nat) :
    (committed s (keyScan nv pins s) pb = true
        ∧ acceptedLevel (keyScan nv pins s) pb = pins (pb / 8) 0
        ∧ logicalLevel (keyScan nv pins s) pb
            = storedLevel (nv (NV_PB_FLAGS + pb) % 256) (logicalLevel s pb) (pins (pb / 8) 0)
        ∧ debounceCounter (keyScan nv pins s) pb = 0)
      ∨ (committed s (keyScan nv pins s) pb = false
        ∧ acceptedLevel (keyScan nv pins s) pb = acceptedLevel s pb
        ∧ logicalLevel (keyScan nv pins s) pb = logicalLevel s pb) := by
  by_cases hcm : committed s (keyScan nv pins s) pb = true
  · left
    obtain ⟨h8, hc, ha, hn⟩ := (committed_iff nv pins s pb).1 hcm
    have hpb := PB_div_mod pb h8
    have hk := keyScan_button_commit nv pins (pb / 8) s hc (by rw [hpb]; exact ha)
      (by rw [hpb]; exact hn)
    rw [hpb] at hk
    exact ⟨hcm, hk⟩
  · right
    have hcf : committed s (keyScan nv pins s) pb = false := by simpa using hcm
    refine ⟨hcf, ?_⟩
    have hacc : acceptedLevel (keyScan nv pins s) pb = acceptedLevel s pb := by
      simpa [committed] using hcf
    refine ⟨hacc, ?_⟩
    by_cases h8 : pb % 8 = 0
    · by_cases hc : pb / 8 < COLUMN_OUTPUTS
      · have hpb := PB_div_mod pb h8
        by_cases ha : acceptedLevel s pb = pins (pb / 8) 0
        · have := keyScan_button_agree nv pins (pb / 8) s hc (by rw [hpb]; exact ha)
          rw [hpb] at this
          exact this.2.1
        · have hn : debounceCounter s pb ≠ DEBOUNCE_DELAY := fun hn =>
            hcm ((committed_iff nv pins s pb).2 ⟨h8, hc, ha, hn⟩)
          have := keyScan_button_count nv pins (pb / 8) s hc (by rw [hpb]; exact ha)
            (by rw [hpb]; exact hn)
          rw [hpb] at this
          exact this.2.1
      · exact (keyScan_button_other_column nv pins s pb (Nat.not_lt.1 hc)).2
    · exact (keyScan_button_other_row nv pins s pb h8).2.1

/-- `getKeyState` reads the logical level of the button. -/
theorem getKeyState_eq (s : KeyState) (pb : Nat) :
    getKeyState s pb
      = if logicalLevel s pb then EventState.EVENT_ON else EventState.EVENT_OFF := by
  have h : pb % 8 = 0 ∨ pb % 8 = 1 ∨ pb % 8 = 2 ∨ pb % 8 = 3 ∨ pb % 8 = 4 ∨ pb % 8 = 5
      ∨ pb % 8 = 6 ∨ pb % 8 = 7 := by omega
  rcases h with h | h | h | h | h | h | h | h <;>
    simp [getKeyState, logicalLevel, ByteBits.bit, ROW_INPUTS, h]

theorem keyScanRun_append (xs ys : List ScanInput) (s : KeyState) :
    keyScanRun (xs ++ ys) s = keyScanRun ys (keyScanRun xs s) := by
  simp [keyScanRun, List.foldl_append]

theorem commitCount_append (pb : Nat) :
    ∀ (xs ys : List ScanInput) (s : KeyState),
      commitCount pb (xs ++ ys) s = commitCount pb xs s + commitCount pb ys (keyScanRun xs s)
  | [], ys, s => by simp [commitCount, keyScanRun]
  | x :: xs, ys, s => by
    have ih := commitCount_append pb xs ys (keyScan x.nv x.pins s)
    show commitCount pb (x :: (xs ++ ys)) s = _
    simp only [commitCount, keyScanRun_cons, ih, Nat.add_assoc]

/-- The log after a run is the old log followed by the events of the run. -/
theorem keyScanRun_produced :
    ∀ (ins : List ScanInput) (s : KeyState),
      (keyScanRun ins s).produced = s.produced ++ emitted s (keyScanRun ins s)
  | [], s => by simp [keyScanRun, emitted]
  | i :: ins, s => by
    have h1 := keyScan_produced_emitted i.nv i.pins s
    have h2 := keyScanRun_produced ins (keyScan i.nv i.pins s)
    rw [keyScanRun_cons]
    unfold emitted at h1 h2 ⊢
    rw [h2, h1, List.append_assoc, List.drop_left]

/-- The events of a run: those of its first pass, then those of the rest. -/
theorem emitted_cons (i : ScanInput) (ins : List ScanInput) (s : KeyState) :
    emitted s (keyScanRun (i :: ins) s)
      = emitted s (keyScan i.nv i.pins s)
        ++ emitted (keyScan i.nv i.pins s) (keyScanRun ins (keyScan i.nv i.pins s)) := by
  have h1 := keyScan_produced_emitted i.nv i.pins s
  have h2 := keyScanRun_produced ins (keyScan i.nv i.pins s)
  rw [keyScanRun_cons]
  conv_lhs => unfold emitted; rw [h2, h1, List.append_assoc, List.drop_left]

/-- A run that commits nothing for `PB(c,0)` produces no event with its happening. -/
theorem run_no_event (c : Nat) :
    ∀ (ins : List ScanInput) (s : KeyState), commitCount (PB c 0) ins s = 0 →
      ∀ e ∈ emitted s (keyScanRun ins s), e.1 ≠ PB_2_HAPPENING (PB c 0)
  | [], s, _, e, he => by simp [keyScanRun, emitted] at he
  | i :: ins, s, h, e, he => by
    simp only [commitCount] at h
    have hcf : committed s (keyScan i.nv i.pins s) (PB c 0) = false := by
      by_contra hne
      simp only [Bool.not_eq_false] at hne
      rw [hne] at h
      simp at h
    have hrest : commitCount (PB c 0) ins (keyScan i.nv i.pins s) = 0 := by omega
    rw [emitted_cons, List.mem_append] at he
    rcases he with he | he
    · exact keyScan_no_event i.nv i.pins s c hcf e he
    · exact run_no_event c ins _ hrest e he

/-- Passes keep a reachable state reachable. -/
theorem Reachable.run (s : KeyState) (h : Reachable s) :
    ∀ ins : List ScanInput, Reachable (keyScanRun ins s) := by
  intro ins
  induction ins generalizing s with
  | nil => exact h
  | cons i ins ih => exact ih _ (Reachable.scan i.nv i.pins s h)

theorem storedLevel_toggle (flags : Nat) (prev raw : Bool)
    (h : flags &&& NV_PB_FLAGS_TOGGLE ≠ 0) : storedLevel flags prev raw = !prev := by
  simp [storedLevel, h]

theorem xor_parity_succ (a : Bool) (n : Nat) :
    xor (!a) (decide (n % 2 = 1)) = xor a (decide ((1 + n) % 2 = 1)) := by
  rcases Nat.mod_two_eq_zero_or_one n with h | h
  · have h2 : (1 + n) % 2 = 1 := by omega
    cases a <;> simp [h, h2]
  · have h2 : (1 + n) % 2 = 0 := by omega
    cases a <;> simp [h, h2]

/-- With TOGGLE set in every pass, the logical level after a run is the starting
level flipped once per committed transition. -/
theorem toggle_run (pb : Nat) :
    ∀ (ins : List ScanInput) (s : KeyState),
      (∀ i ∈ ins, (i.nv (NV_PB_FLAGS + pb) % 256) &&& NV_PB_FLAGS_TOGGLE ≠ 0) →
      logicalLevel (keyScanRun ins s) pb
        = xor (logicalLevel s pb) (decide (commitCount pb ins s % 2 = 1))
  | [], s, _ => by simp [keyScanRun, commitCount]
  | i :: ins, s, ht => by
    have hi := ht i (List.mem_cons_self _ _)
    have ih := toggle_run pb ins (keyScan i.nv i.pins s)
      (fun j hj => ht j (List.mem_cons_of_mem _ hj))
    rw [keyScanRun_cons, ih]
    simp only [commitCount]
    rcases keyScan_button_cases i.nv i.pins s pb with ⟨hcm, _, hl, _⟩ | ⟨hcm, _, hl⟩
    · rw [hl, storedLevel_toggle _ _ _ hi]
      simp only [hcm, if_true]
      exact xor_parity_succ _ _
    · rw [hl]
      simp [hcm]

theorem bool_eq_not_of_ne (a b : Bool) (h : a ≠ b) : a = !b := by
  cases a <;> cases b <;> simp_all

/-! ## Initialisation and the counter invariant -/

/-- Zeroing the bytes of a list of indices zeroes the bytes of those indices. -/
theorem foldl_zero_counters (i : Nat) :
    ∀ (l : List Nat) (s : KeyState), i ∈ l →
      (l.foldl
        (fun s j =>
          { s with debounceCounters := Function.update s.debounceCounters j ByteNibbles.zero })
        s).debounceCounters i = ByteNibbles.zero := by
  intro l
  induction l using List.reverseRecOn with
  | nil => intro s h; simp at h
  | append_singleton l a ih =>
    intro s h
    rw [List.foldl_append]
    simp only [List.foldl_cons, List.foldl_nil]
    by_cases hia : i = a
    · subst hia; simp
    · rw [Function.update_noteq hia]
      rcases List.mem_append.1 h with h | h
      · exact ih s h
      · simp at h; exact absurd h hia

/-- After `initKeyscan` every byte of `debounceCounters` is zero. -/
theorem initKeyscan_counters (pins : Nat → Nat → Bool) (s : KeyState) (i : Nat)
    (hi : i < COLUMN_OUTPUTS * ROW_INPUTS / 2) :
    (initKeyscan pins s).debounceCounters i = ByteNibbles.zero := by
  unfold initKeyscan
  exact foldl_zero_counters i _ _ (List.mem_range.2 hi)

/-- What a pass does to a byte of counters: nothing, or the lower nibble goes
from `DEBOUNCE_DELAY` to 0, or the lower nibble, not at `DEBOUNCE_DELAY`, is
incremented in its 4 bits.  The upper nibble stays. -/
theorem keyScan_counter_cases (nv : Nat → Nat) (pins : Nat → Nat → Bool) (s : KeyState)
    (i : Nat) :
    ((keyScan nv pins s).debounceCounters i).upper = (s.debounceCounters i).upper
      ∧ (((keyScan nv pins s).debounceCounters i).lower = (s.debounceCounters i).lower
        ∨ ((s.debounceCounters i).lower = DEBOUNCE_DELAY
            ∧ ((keyScan nv pins s).debounceCounters i).lower = 0)
        ∨ ((s.debounceCounters i).lower ≠ DEBOUNCE_DELAY
            ∧ ((keyScan nv pins s).debounceCounters i).lower
                = ((s.debounceCounters i).lower + 1) % 16)) := by
  refine ⟨keyScan_upper nv pins s i, ?_⟩
  by_cases hex : ∃ a, a < COLUMN_OUTPUTS ∧ i = COUNTER_INDEX a 0
  · obtain ⟨a, ha, hia⟩ := hex
    subst hia
    by_cases hag : (s.keyInputState a).b0 = pins a 0
    · left; rw [(keyScan_agree nv pins a s ha hag).2.2.1]
    · by_cases hn : (s.debounceCounters (COUNTER_INDEX a 0)).lower = DEBOUNCE_DELAY
      · right; left
        rw [(keyScan_commit nv pins a s ha hag hn).2.2.1]
        exact ⟨hn, rfl⟩
      · right; right
        rw [(keyScan_count nv pins a s ha hag hn).2.2.1]
        exact ⟨hn, rfl⟩
  · left
    rw [keyScan_counter_other nv pins s i (fun a ha hia => hex ⟨a, ha, hia⟩)]

/-- In a reachable state every lower nibble of the counters array is at most
`DEBOUNCE_DELAY` and every upper nibble is 0. -/
theorem Reachable.counters (s : KeyState) (h : Reachable s) (i : Nat)
    (hi : i < COLUMN_OUTPUTS * ROW_INPUTS / 2) :
    (s.debounceCounters i).lower ≤ DEBOUNCE_DELAY ∧ (s.debounceCounters i).upper = 0 := by
  induction h with
  | init pins s => rw [initKeyscan_counters pins s i hi]; exact ⟨Nat.zero_le _, rfl⟩
  | scan nv pins s _ ih =>
    obtain ⟨hu, hl⟩ := keyScan_counter_cases nv pins s i
    refine ⟨?_, by rw [hu]; exact ih.2⟩
    have := ih.1
    unfold DEBOUNCE_DELAY at this hl ⊢
    rcases hl with hl | ⟨_, hl⟩ | ⟨hne, hl⟩
    · rw [hl]; exact this
    · rw [hl]; exact Nat.zero_le _
    · rw [hl]; omega

/-! ## Initialisation -/

/-- Zeroing bytes of counters touches neither bit array nor the log. -/
theorem foldl_zero_frame :
    ∀ (l : List Nat) (s : KeyState),
      (l.foldl
        (fun s j =>
          { s with debounceCounters := Function.update s.debounceCounters j ByteNibbles.zero })
        s).keyInputState = s.keyInputState
      ∧ (l.foldl
        (fun s j =>
          { s with debounceCounters := Function.update s.debounceCounters j ByteNibbles.zero })
        s).keyOutputState = s.keyOutputState
      ∧ (l.foldl
        (fun s j =>
          { s with debounceCounters := Function.update s.debounceCounters j ByteNibbles.zero })
        s).produced = s.produced
  | [], _ => ⟨rfl, rfl, rfl⟩
  | _ :: l, s => by
    rw [List.foldl_cons]
    exact foldl_zero_frame l _

/-- The seeding loop of `initKeyscan` leaves, in both bit arrays, the byte of a
column of the list as the pins of that column read. -/
theorem foldl_initColumn_cells (pins : Nat → Nat → Bool) (c : Nat) :
    ∀ (cols : List Nat) (s : KeyState), c ∈ cols →
      (cols.foldl (fun s col => initColumn pins col s) s).keyInputState c
          = { b0 := pins c 0, b1 := pins c 1, b2 := pins c 2, b3 := pins c 3,
              b4 := pins c 4, b5 := pins c 5, b6 := pins c 6, b7 := pins c 7 }
      ∧ (cols.foldl (fun s col => initColumn pins col s) s).keyOutputState c
          = { b0 := pins c 0, b1 := pins c 1, b2 := pins c 2, b3 := pins c 3,
              b4 := pins c 4, b5 := pins c 5, b6 := pins c 6, b7 := pins c 7 } := by
  intro cols
  induction cols using List.reverseRecOn with
  | nil => intro s h; simp at h
  | append_singleton l a ih =>
    intro s h
    rw [List.foldl_append]
    simp only [List.foldl_cons, List.foldl_nil]
    by_cases hca : c = a
    · subst hca
      simp [initColumn, strobeColumn]
    · have hc : c ∈ l := by
        rcases List.mem_append.1 h with h | h
        · exact h
        · simp at h; exact absurd h hca
      have := ih s hc
      simp only [initColumn, strobeColumn, Function.update_noteq hca]
      exact this

/-- The seeding loop of `initKeyscan` writes nothing to the log. -/
theorem foldl_initColumn_produced (pins : Nat → Nat → Bool) :
    ∀ (cols : List Nat) (s : KeyState),
      (cols.foldl (fun s col => initColumn pins col s) s).produced = s.produced
  | [], _ => rfl
  | _ :: cols, s => by
    rw [List.foldl_cons, foldl_initColumn_produced pins cols]
    rfl

/-- After `initKeyscan` both bit arrays hold, for each column, the pins as read;
the log is as before. -/
theorem initKeyscan_cells (pins : Nat → Nat → Bool) (s : KeyState) (c : Nat)
    (hc : c < COLUMN_OUTPUTS) :
    (initKeyscan pins s).keyInputState c
        = { b0 := pins c 0, b1 := pins c 1, b2 := pins c 2, b3 := pins c 3,
            b4 := pins c 4, b5 := pins c 5, b6 := pins c 6, b7 := pins c 7 }
      ∧ (initKeyscan pins s).keyOutputState c
        = { b0 := pins c 0, b1 := pins c 1, b2 := pins c 2, b3 := pins c 3,
            b4 := pins c 4, b5 := pins c 5, b6 := pins c 6, b7 := pins c 7 }
      ∧ (initKeyscan pins s).produced = s.produced := by
  unfold initKeyscan
  simp only []
  obtain ⟨h1, h2, h3⟩ := foldl_zero_frame (List.range (COLUMN_OUTPUTS * ROW_INPUTS / 2))
    ((List.range COLUMN_OUTPUTS).foldl (fun s col => initColumn pins col s)
      { s with COL_LAT := (s.COL_LAT ||| COLUMN_MASK) % 256 })
  rw [h1, h2, h3]
  have hm := foldl_initColumn_cells pins c (List.range COLUMN_OUTPUTS)
    { s with COL_LAT := (s.COL_LAT ||| COLUMN_MASK) % 256 } (List.mem_range.2 hc)
  exact ⟨hm.1, hm.2, foldl_initColumn_produced pins _ _⟩

theorem ByteBits.bit_mk (v0 v1 v2 v3 v4 v5 v6 v7 : Bool) (v : Nat → Bool)
    (h0 : v 0 = v0) (h1 : v 1 = v1) (h2 : v 2 = v2) (h3 : v 3 = v3) (h4 : v 4 = v4)
    (h5 : v 5 = v5) (h6 : v 6 = v6) (h7 : v 7 = v7) (r : Nat) (hr : r < 8) :
    ByteBits.bit (ByteBits.mk v0 v1 v2 v3 v4 v5 v6 v7) r = v r := by
  interval_cases r <;> simp [ByteBits.bit, *]

/-- After `initKeyscan` the accepted level and the logical level of every button
are the level sampled for it. -/
theorem initKeyscan_levels (pins : Nat → Nat → Bool) (s : KeyState) (pb : Nat)
    (hpb : pb < NUM_PB) :
    acceptedLevel (initKeyscan pins s) pb = pins (pb / ROW_INPUTS) (pb % ROW_INPUTS)
      ∧ logicalLevel (initKeyscan pins s) pb = pins (pb / ROW_INPUTS) (pb % ROW_INPUTS) := by
  have hc : pb / ROW_INPUTS < COLUMN_OUTPUTS := by
    unfold NUM_PB at hpb; unfold ROW_INPUTS COLUMN_OUTPUTS; omega
  have hr : pb % ROW_INPUTS < 8 := by unfold ROW_INPUTS; omega
  obtain ⟨h1, h2, _⟩ := initKeyscan_cells pins s (pb / ROW_INPUTS) hc
  unfold acceptedLevel logicalLevel
  rw [h1, h2]
  exact ⟨ByteBits.bit_mk _ _ _ _ _ _ _ _ (pins (pb / ROW_INPUTS)) rfl rfl rfl rfl rfl rfl rfl rfl
      _ hr,
    ByteBits.bit_mk _ _ _ _ _ _ _ _ (pins (pb / ROW_INPUTS)) rfl rfl rfl rfl rfl rfl rfl rfl
      _ hr⟩

/-- Filtering a concatenation over distinct indices by a predicate that holds on
the part of one index and fails on the parts of the others leaves that part. -/
theorem filter_flatMap_single (p : Event → Bool) (g : Nat → List Event) (c : Nat)
    (hself : ∀ e ∈ g c, p e = true) :
    ∀ (l : List Nat), l.Nodup → c ∈ l → (∀ a ∈ l, a ≠ c → ∀ e ∈ g a, p e = false) →
      (l.flatMap g).filter p = g c
  | [], _, h, _ => by simp at h
  | a :: l, hnd, h, hother => by
    rw [List.nodup_cons] at hnd
    rw [List.flatMap_cons, List.filter_append]
    by_cases hca : a = c
    · subst hca
      have h1 : (g a).filter p = g a := List.filter_eq_self.2 hself
      have h2 : (l.flatMap g).filter p = [] := by
        rw [List.filter_eq_nil_iff]
        intro e he
        obtain ⟨b, hb, heb⟩ := List.mem_flatMap.1 he
        have hba : b ≠ a := fun e => hnd.1 (e ▸ hb)
        rw [hother b (List.mem_cons_of_mem _ hb) hba e heb]
        exact Bool.false_ne_true
      rw [h1, h2, List.append_nil]
    · have hc : c ∈ l := by
        rcases List.mem_cons.1 h with e | e
        · exact absurd e.symm hca
        · exact e
      have h1 : (g a).filter p = [] := by
        rw [List.filter_eq_nil_iff]
        intro e he
        rw [hother a (List.mem_cons_self _ _) hca e he]
        exact Bool.false_ne_true
      rw [h1, List.nil_append]
      exact filter_flatMap_single p g c hself l hnd.2 hc
        (fun b hb => hother b (List.mem_cons_of_mem _ hb))

/-- The events a pass produces with the happening of the row-0 button of a
scanned column: those of the one call of `sendPBEvent` if the button commits,
none otherwise. -/
theorem keyScan_eventsFor (nv : Nat → Nat) (pins : Nat → Nat → Bool) (s : KeyState) (c : Nat)
    (hc : c < COLUMN_OUTPUTS) :
    eventsFor (PB c 0) (emitted s (keyScan nv pins s)) =
      if committed s (keyScan nv pins s) (PB c 0) then
        pbEvents (PB c 0) (logicalLevel (keyScan nv pins s) (PB c 0)).toNat
          (nv (NV_PB_FLAGS + PB c 0) % 256)
      else [] := by
  unfold eventsFor
  rw [keyScan_emitted]
  have hh : ∀ a, a < COLUMN_OUTPUTS → PB_2_HAPPENING (PB a 0) % 256 = PB_2_HAPPENING (PB a 0) := by
    intro a ha
    unfold COLUMN_OUTPUTS at ha
    rw [PB_zero]; unfold PB_2_HAPPENING; omega
  apply filter_flatMap_single _ _ c _ _ range_COLUMN_OUTPUTS_nodup (List.mem_range.2 hc)
  · intro a ha hac e he
    have ha8 := List.mem_range.1 ha
    split_ifs at he with hcm
    · have h1 := pbEvents_happening _ _ _ e he
      rw [hh a ha8] at h1
      simp only [h1, beq_eq_false_iff_ne, ne_eq, PB_2_HAPPENING, PB_zero]
      omega
    · simp at he
  · intro e he
    split_ifs at he with hcm
    · have h1 := pbEvents_happening _ _ _ e he
      rw [hh c hc] at h1
      simp [h1]
    · simp at he

/-- The events of a run with the happening of a button: those of its first pass,
then those of the rest. -/
theorem eventsFor_cons (pb : Nat) (i : ScanInput) (ins : List ScanInput) (s : KeyState) :
    eventsFor pb (emitted s (keyScanRun (i :: ins) s))
      = eventsFor pb (emitted s (keyScan i.nv i.pins s))
        ++ eventsFor pb (emitted (keyScan i.nv i.pins s)
            (keyScanRun ins (keyScan i.nv i.pins s))) := by
  unfold eventsFor
  rw [emitted_cons, List.filter_append]

/-- A run that commits nothing for `PB(c,0)` has no event of that button. -/
theorem eventsFor_no_commit (c : Nat) (ins : List ScanInput) (s : KeyState)
    (h : commitCount (PB c 0) ins s = 0) :
    eventsFor (PB c 0) (emitted s (keyScanRun ins s)) = [] := by
  unfold eventsFor
  rw [List.filter_eq_nil_iff]
  intro e he
  simp only [beq_iff_eq]
  exact run_no_event c ins s h e he

theorem PB_2_HAPPENING_mod (c : Nat) (hc : c < COLUMN_OUTPUTS) :
    PB_2_HAPPENING (PB c 0) % 256 = PB_2_HAPPENING (PB c 0) := by
  unfold COLUMN_OUTPUTS at hc
  rw [PB_zero]; unfold PB_2_HAPPENING; omega

/-- A run in which the sample of `PB(c,0)` is held at a level different from the
accepted one until the transition is committed, and beyond, with the same flags
byte at every pass: the logical level is recomputed once from the flags, and
the events of the button are those of one call of `sendPBEvent`. -/
theorem run_commit_events (c : Nat) (hc : c < COLUMN_OUTPUTS) (L : Bool) (f : Nat) :
    ∀ (ins : List ScanInput) (s : KeyState),
      (∀ i ∈ ins, i.pins c 0 = L ∧ i.nv (NV_PB_FLAGS + PB c 0) % 256 = f) →
      acceptedLevel s (PB c 0) ≠ L →
      debounceCounter s (PB c 0) ≤ DEBOUNCE_DELAY →
      DEBOUNCE_DELAY + 1 ≤ debounceCounter s (PB c 0) + ins.length →
      logicalLevel (keyScanRun ins s) (PB c 0) = storedLevel f (logicalLevel s (PB c 0)) L
        ∧ eventsFor (PB c 0) (emitted s (keyScanRun ins s))
            = pbEvents (PB c 0) (storedLevel f (logicalLevel s (PB c 0)) L).toNat f
  | [], s, _, _, hn, hl => by simp only [List.length_nil] at hl; omega
  | i :: ins, s, hp, ha, hn, hl => by
    have hi := hp i (List.mem_cons_self _ _)
    have hrest : ∀ j ∈ ins, j.pins c 0 = L ∧ j.nv (NV_PB_FLAGS + PB c 0) % 256 = f :=
      fun j hj => hp j (List.mem_cons_of_mem _ hj)
    have hrestp : ∀ j ∈ ins, j.pins c 0 = L := fun j hj => (hrest j hj).1
    simp only [List.length_cons, DEBOUNCE_DELAY] at hn hl
    have hev := keyScan_eventsFor i.nv i.pins s c hc
    rw [eventsFor_cons, keyScanRun_cons]
    by_cases h4 : debounceCounter s (PB c 0) = DEBOUNCE_DELAY
    · have h1 := keyScan_button_commit i.nv i.pins c s hc (by rw [hi.1]; exact ha) h4
      have hs := run_stable c hc L ins (keyScan i.nv i.pins s) hrestp (by rw [h1.1, hi.1])
      have hcm : committed s (keyScan i.nv i.pins s) (PB c 0) = true := by
        simp only [committed, h1.1, hi.1, bne_iff_ne, ne_eq]
        exact fun e => ha e.symm
      rw [hcm, if_pos rfl, h1.2.1, hi.1, hi.2] at hev
      rw [hev, eventsFor_no_commit c ins _ hs.2.2.2, List.append_nil, hs.2.1, h1.2.1, hi.1, hi.2]
      exact ⟨rfl, rfl⟩
    · have h1 := keyScan_button_count i.nv i.pins c s hc (by rw [hi.1]; exact ha) h4
      simp only [DEBOUNCE_DELAY] at h4
      have hcnt : debounceCounter (keyScan i.nv i.pins s) (PB c 0)
          = debounceCounter s (PB c 0) + 1 := by
        rw [h1.2.2]; omega
      have hcm : committed s (keyScan i.nv i.pins s) (PB c 0) = false := by
        simp [committed, h1.1]
      have ih := run_commit_events c hc L f ins (keyScan i.nv i.pins s) hrest
        (by rw [h1.1]; exact ha) (by rw [hcnt]; simp only [DEBOUNCE_DELAY]; omega)
        (by rw [hcnt]; simp only [DEBOUNCE_DELAY]; omega)
      rw [hcm] at hev
      simp only [Bool.false_eq_true, if_false] at hev
      rw [hev, List.nil_append, ih.1, ih.2, h1.2.1]
      exact ⟨rfl, rfl⟩

theorem toggleEvents_succ (h : Nat) (prev : Bool) (n : Nat) :
    toggleEvents h prev (1 + n)
      = (h, if prev then EventState.EVENT_OFF else EventState.EVENT_ON)
        :: toggleEvents h (!prev) n := by
  rw [Nat.add_comm]; rfl

/-- With TOGGLE, SEND_ON and SEND_OFF set at every pass, the events of the row-0
button of a scanned column over a run alternate, one per committed transition,
starting with the opposite of the logical level the run starts from. -/
theorem toggle_run_events (c : Nat) (hc : c < COLUMN_OUTPUTS) :
    ∀ (ins : List ScanInput) (s : KeyState),
      (∀ i ∈ ins, (i.nv (NV_PB_FLAGS + PB c 0) % 256) &&& NV_PB_FLAGS_TOGGLE ≠ 0
        ∧ (i.nv (NV_PB_FLAGS + PB c 0) % 256) &&& NV_PB_FLAGS_SEND_ON ≠ 0
        ∧ (i.nv (NV_PB_FLAGS + PB c 0) % 256) &&& NV_PB_FLAGS_SEND_OFF ≠ 0) →
      eventsFor (PB c 0) (emitted s (keyScanRun ins s))
        = toggleEvents (PB_2_HAPPENING (PB c 0)) (logicalLevel s (PB c 0))
            (commitCount (PB c 0) ins s)
  | [], s, _ => by simp [keyScanRun, emitted, eventsFor, commitCount, toggleEvents]
  | i :: ins, s, hf => by
    obtain ⟨ht, hon, hoff⟩ := hf i (List.mem_cons_self _ _)
    have ih := toggle_run_events c hc ins (keyScan i.nv i.pins s)
      (fun j hj => hf j (List.mem_cons_of_mem _ hj))
    have hev := keyScan_eventsFor i.nv i.pins s c hc
    rw [eventsFor_cons, ih, hev]
    simp only [commitCount]
    rcases keyScan_button_cases i.nv i.pins s (PB c 0) with ⟨hcm, _, hl, _⟩ | ⟨hcm, _, hl⟩
    · rw [hl, storedLevel_toggle _ _ _ ht]
      simp only [hcm, if_true]
      rw [toggleEvents_succ, pbEvents_eq, PB_2_HAPPENING_mod c hc]
      cases logicalLevel s (PB c 0) <;> simp [hon, hoff]
    · rw [hl]
      simp [hcm]

theorem pbEvents_length (pb state flags : Nat) : (pbEvents pb state flags).length ≤ 1 := by
  rw [pbEvents_eq]
  split_ifs <;> simp

/-- The step of column `c` leaves every button other than `PB(c,0)` alone:
accepted level, logical level and counter. -/
theorem keyScanColumn_button_frame (nv : Nat → Nat) (pins : Nat → Nat → Bool) (c : Nat)
    (s : KeyState) (q : Nat) (h : q ≠ PB c 0) :
    acceptedLevel (keyScanColumn nv pins c s) q = acceptedLevel s q
      ∧ logicalLevel (keyScanColumn nv pins c s) q = logicalLevel s q
      ∧ debounceCounter (keyScanColumn nv pins c s) q = debounceCounter s q := by
  rw [PB_zero] at h
  refine ⟨?_, ?_, ?_⟩
  · unfold acceptedLevel
    by_cases hq : q / ROW_INPUTS = c
    · exact (keyScanColumn_rows nv pins c s _ _ (by unfold ROW_INPUTS at hq ⊢; omega)).1
    · rw [keyScanColumn_input_other nv pins c _ s hq]
  · unfold logicalLevel
    by_cases hq : q / ROW_INPUTS = c
    · exact (keyScanColumn_rows nv pins c s _ _ (by unfold ROW_INPUTS at hq ⊢; omega)).2
    · rw [keyScanColumn_output_other nv pins c _ s hq]
  · unfold debounceCounter ByteNibbles.nibble
    by_cases hq : q / 2 = COUNTER_INDEX c 0
    · rw [COUNTER_INDEX_zero] at hq
      have h2 : ¬ q % 2 = 0 := by omega
      simp only [h2, if_false]
      exact keyScanColumn_upper nv pins c s _
    · rw [keyScanColumn_counter_other nv pins c _ s hq]

theorem pairwise_lt_of_length_le_one :
    ∀ l : List Nat, l.length ≤ 1 → List.Pairwise (fun a b => a < b) l
  | [], _ => List.Pairwise.nil
  | [x], _ => List.pairwise_singleton _ x
  | _ :: _ :: _, h => by simp at h

/-! ## The strobe latch -/

theorem lor_mask_byte (x : Nat) : (x ||| 255) % 256 = 255 := by
  apply Nat.eq_of_testBit_eq
  intro i
  have h1 : (256 : Nat) = 2 ^ 8 := rfl
  have h2 : (255 : Nat) = 2 ^ 8 - 1 := rfl
  rw [h1, Nat.testBit_mod_two_pow, h2, Nat.testBit_or, Nat.testBit_two_pow_sub_one]
  by_cases hi : i < 8 <;> simp [hi]

/-- The latch after the strobe statements of a column: every strobe bit high but
the bit of that column. -/
theorem strobeColumn_lat (col : Nat) (s : KeyState) :
    (strobeColumn col s).COL_LAT = 255 &&& (255 - ((1 <<< col) &&& 255) % 256) := by
  simp only [strobeColumn, COLUMN_MASK]
  rw [lor_mask_byte]

/-- The rest of a column step does not write the latch. -/
theorem keyScanColumn_lat (nv : Nat → Nat) (pins : Nat → Nat → Bool) (c : Nat) (s : KeyState) :
    (keyScanColumn nv pins c s).COL_LAT = (strobeColumn c s).COL_LAT := by
  by_cases ha : (s.keyInputState c).b0 = pins c 0
  · rw [keyScanColumn_agree nv pins c s ha]
  · by_cases hn : (s.debounceCounters (COUNTER_INDEX c 0)).lower = DEBOUNCE_DELAY
    · rw [keyScanColumn_commit nv pins c s ha hn]
    · rw [keyScanColumn_count nv pins c s ha hn]

/-- The latch when `keyScan` returns is as the strobe of the last column left it. -/
theorem keyScan_lat (nv : Nat → Nat) (pins : Nat → Nat → Bool) (s : KeyState) :
    (keyScan nv pins s).COL_LAT = 0x7F := by
  unfold keyScan
  have h : List.range COLUMN_OUTPUTS = List.range 7 ++ [7] := by decide
  rw [h, List.foldl_append]
  simp only [List.foldl_cons, List.foldl_nil]
  rw [keyScanColumn_lat, strobeColumn_lat]
  decide

/-- Zeroing bytes of counters does not write the latch. -/
theorem foldl_zero_lat :
    ∀ (l : List Nat) (s : KeyState),
      (l.foldl
        (fun s j =>
          { s with debounceCounters := Function.update s.debounceCounters j ByteNibbles.zero })
        s).COL_LAT = s.COL_LAT
  | [], _ => rfl
  | _ :: l, s => by
    rw [List.foldl_cons]
    exact foldl_zero_lat l _

/-- The latch when `initKeyscan` returns is as the strobe of the last column left
it. -/
theorem initKeyscan_lat (pins : Nat → Nat → Bool) (s : KeyState) :
    (initKeyscan pins s).COL_LAT = 0x7F := by
  unfold initKeyscan
  simp only []
  rw [foldl_zero_lat]
  have h : List.range COLUMN_OUTPUTS = List.range 7 ++ [7] := by decide
  rw [h, List.foldl_append]
  simp only [List.foldl_cons, List.foldl_nil]
  have : ∀ t : KeyState, (initColumn pins 7 t).COL_LAT = (strobeColumn 7 t).COL_LAT :=
    fun _ => rfl
  rw [this, strobeColumn_lat]
  decide

/-! ## Consumed events -/

theorem onOpcodes_mask : ∀ o ∈ onOpcodes, o &&& EVENT_ON_MASK = 0 := by decide

theorem offOpcodes_mask : ∀ o ∈ offOpcodes, o &&& EVENT_ON_MASK ≠ 0 := by decide

/-- The calls made for a list of pairs followed by another: those of the first
list, then those of the second with `pol` as the first list left it. -/
theorem runPairs_append (opc : Nat) :
    ∀ (xs ys : List (Nat × Nat)) (pol : Nat),
      runPairs opc (xs ++ ys) pol
        = runPairs opc xs pol ++ runPairs opc ys (polAfter opc xs pol)
  | [], _, _ => rfl
  | (ledNo, flags) :: xs, ys, pol => by
    show runPairs opc ((ledNo, flags) :: (xs ++ ys)) pol = _
    simp only [runPairs, polAfter, runPairs_append opc xs ys, List.append_assoc]

/-! ## Default events -/

/-- The loop of `factoryResetGlobalEvents` exits: entered at `i` with `n` values
of the counter left up to 65, and more than `n` units of fuel, it returns the
calls made so far followed by one call for each of `i`, `i + 1`, ..., 64. -/
theorem factoryResetLoop_exits (nn : Nat) :
    ∀ (n fuel i : Nat) (acc : List AddEventCall), i + n = 65 → n < fuel →
      factoryResetLoop nn fuel i acc
        = some (acc ++ (List.range' i n).map (fun j => AddEventCall.mk nn j 0 j true))
  | 0, fuel, i, acc, hi, hf => by
    obtain ⟨f, rfl⟩ : ∃ f, fuel = f + 1 := ⟨fuel - 1, by omega⟩
    have h : ¬ i ≤ NUM_PB := by unfold NUM_PB; omega
    simp [factoryResetLoop, h]
  | n + 1, fuel, i, acc, hi, hf => by
    obtain ⟨f, rfl⟩ : ∃ f, fuel = f + 1 := ⟨fuel - 1, by omega⟩
    have h : i ≤ NUM_PB := by unfold NUM_PB; omega
    have hm : (i + 1) % 256 = i + 1 := by omega
    rw [factoryResetLoop, if_pos h, hm,
      factoryResetLoop_exits nn n f (i + 1) _ (by omega) (by omega)]
    simp [List.range'_succ]

theorem range_succ_map (f : Nat → AddEventCall) :
    ∀ (n s : Nat), (List.range' (s + 1) n).map f = (List.range' s n).map (fun pb => f (pb + 1))
  | 0, _ => rfl
  | n + 1, s => by
    simp only [List.range'_succ, List.map_cons]
    rw [range_succ_map f n (s + 1)]

/-! ## The main loop -/

/-- No event of a pass is the start-of-day event. -/
theorem keyScan_no_sod (nv : Nat → Nat) (pins : Nat → Nat → Bool) (s : KeyState) :
    (emitted s (keyScan nv pins s)).count sodEvent = 0 := by
  rw [List.count_eq_zero]
  intro h
  obtain ⟨c, hc, _, he⟩ := keyScan_emitted_mem nv pins s sodEvent h
  rw [PB_zero] at he
  unfold sodEvent HAPPENING_SOD NUM_PB PB_2_HAPPENING at he
  unfold COLUMN_OUTPUTS at hc
  simp only at he
  omega

/-- The three courses of the first statement of `loop()`. -/
theorem loopStart_cases (lib : TickLib) (i : LoopInput) (t : MainState)
    (hst : t.started = 0 ∨ t.started = 1) :
    (t.started = 1 ∧ loopStart lib i t = (t, []))
      ∨ (t.started = 0 ∧ loopStart lib i t = (t, []))
      ∨ (t.started = 0 ∧ loopStart lib i t =
          (MainState.mk t.startTime 1 t.lastInputScanTime
              (sendProducedEvent HAPPENING_SOD EventState.EVENT_ON t.key) t.led,
            [MainCall.sendProducedEvent HAPPENING_SOD EventState.EVENT_ON])) := by
  unfold loopStart
  rcases hst with h | h
  · split_ifs
    · exact Or.inr (Or.inr ⟨h, rfl⟩)
    · exact Or.inr (Or.inl ⟨h, rfl⟩)
  · have : ¬ (t.started = 0 ∧ lib.tickTimeSince i.tickStart t.startTime
        > i.nv NV_SOD_DELAY * lib.HUNDRED_MILI_SECOND + lib.TWO_SECOND) := by
      intro hh; omega
    rw [if_neg this]
    exact Or.inl ⟨h, rfl⟩

/-- The second statement of `loop()` in one formula. -/
theorem loopScan_eq (lib : TickLib) (i : LoopInput) (r : MainState) :
    loopScan lib i r =
      if r.started ≠ 0
          ∧ lib.tickTimeSince i.tickScan r.lastInputScanTime > 10 * lib.ONE_MILI_SECOND then
        (MainState.mk r.startTime r.started i.tickNow (keyScan i.nv i.pins r.key) r.led,
          [MainCall.keyScan])
      else (r, []) := by
  unfold loopScan
  split_ifs <;> simp_all

/-- One call of `loop()` keeps the invariant. -/
theorem loop_inv (lib : TickLib) (i : LoopInput) (p : List Event) (t : MainState)
    (h : LoopInv p t) : LoopInv p (loop lib i t).1 := by
  obtain ⟨hst, l, hl, hc⟩ := h
  have hscan : ∀ r : MainState, LoopInv p r → LoopInv p (loopScan lib i r).1 := by
    intro r ⟨hr, l, hl, hc⟩
    rw [loopScan_eq]
    split_ifs
    · refine ⟨hr, l ++ emitted r.key (keyScan i.nv i.pins r.key), ?_, ?_⟩
      · show (keyScan i.nv i.pins r.key).produced = _
        rw [keyScan_produced_emitted, hl, List.append_assoc]
      · rw [List.count_append, keyScan_no_sod, hc]
        rfl
    · exact ⟨hr, l, hl, hc⟩
  unfold loop
  apply hscan
  rcases loopStart_cases lib i t hst with ⟨_, h⟩ | ⟨_, h⟩ | ⟨h0, h⟩
  · rw [h]; exact ⟨hst, l, hl, hc⟩
  · rw [h]; exact ⟨hst, l, hl, hc⟩
  · rw [h]
    refine ⟨Or.inr rfl, l ++ [sodEvent], ?_, ?_⟩
    · show (sendProducedEvent HAPPENING_SOD EventState.EVENT_ON t.key).produced = _
      unfold sendProducedEvent
      simp only [hl, List.append_assoc]
      rfl
    · rw [List.count_append, hc, h0]
      rfl

/-- Any number of calls of `loop()` keeps the invariant. -/
theorem loopRun_inv (lib : TickLib) (p : List Event) :
    ∀ (ins : List LoopInput) (t : MainState), LoopInv p t → LoopInv p (loopRun lib ins t)
  | [], _, h => h
  | i :: ins, t, h => by
    show LoopInv p (loopRun lib ins (loop lib i t).1)
    exact loopRun_inv lib p ins _ (loop_inv lib i p t h)

/-- The state left by `setup()` satisfies the invariant for its own log. -/
theorem setup_inv (nv : Nat → Nat) (pins : Nat → Nat → Bool) (tick : Nat) (s0 : MainState) :
    LoopInv (setup nv pins tick s0).key.produced (setup nv pins tick s0) :=
  ⟨Or.inl rfl, [], (List.append_nil _).symm, rfl⟩

/-- The five courses of one call of `loop()`, by the value of `started` on entry,
the start-up test and the scan test. -/
theorem loop_cases (lib : TickLib) (i : LoopInput) (t : MainState)
    (hst : t.started = 0 ∨ t.started = 1) :
    (t.started = 1
        ∧ lib.tickTimeSince i.tickScan t.lastInputScanTime > 10 * lib.ONE_MILI_SECOND
        ∧ loop lib i t
          = (MainState.mk t.startTime 1 i.tickNow (keyScan i.nv i.pins t.key) t.led,
              [MainCall.keyScan]))
      ∨ (t.started = 1
        ∧ ¬ lib.tickTimeSince i.tickScan t.lastInputScanTime > 10 * lib.ONE_MILI_SECOND
        ∧ loop lib i t = (t, []))
      ∨ (t.started = 0 ∧ loop lib i t = (t, []))
      ∨ (t.started = 0
        ∧ lib.tickTimeSince i.tickScan t.lastInputScanTime > 10 * lib.ONE_MILI_SECOND
        ∧ loop lib i t
          = (MainState.mk t.startTime 1 i.tickNow
                (keyScan i.nv i.pins (sendProducedEvent HAPPENING_SOD EventState.EVENT_ON t.key))
                t.led,
              [MainCall.sendProducedEvent HAPPENING_SOD EventState.EVENT_ON, MainCall.keyScan]))
      ∨ (t.started = 0
        ∧ ¬ lib.tickTimeSince i.tickScan t.lastInputScanTime > 10 * lib.ONE_MILI_SECOND
        ∧ loop lib i t
          = (MainState.mk t.startTime 1 t.lastInputScanTime
                (sendProducedEvent HAPPENING_SOD EventState.EVENT_ON t.key) t.led,
              [MainCall.sendProducedEvent HAPPENING_SOD EventState.EVENT_ON])) := by
  unfold loop
  simp only [loopScan_eq]
  rcases loopStart_cases lib i t hst with ⟨h1, h⟩ | ⟨h0, h⟩ | ⟨h0, h⟩
  · rw [h]
    by_cases hc : lib.tickTimeSince i.tickScan t.lastInputScanTime > 10 * lib.ONE_MILI_SECOND
    · refine Or.inl ⟨h1, hc, ?_⟩
      simp [h1, hc]
    · refine Or.inr (Or.inl ⟨h1, hc, ?_⟩)
      simp [hc]
  · rw [h]
    refine Or.inr (Or.inr (Or.inl ⟨h0, ?_⟩))
    simp [h0]
  · rw [h]
    by_cases hc : lib.tickTimeSince i.tickScan t.lastInputScanTime > 10 * lib.ONE_MILI_SECOND
    · refine Or.inr (Or.inr (Or.inr (Or.inl ⟨h0, hc, ?_⟩)))
      simp [hc]
    · refine Or.inr (Or.inr (Or.inr (Or.inr ⟨h0, hc, ?_⟩)))
      simp [hc]

theorem emitted_self (s : KeyState) : emitted s s = [] := by
  unfold emitted
  exact List.drop_length _

theorem emitted_send (h : Nat) (st : EventState) (s : KeyState) :
    emitted s (sendProducedEvent h st s) = [(h, st)] := by
  unfold emitted sendProducedEvent
  simp

theorem emitted_send_keyScan (nv : Nat → Nat) (pins : Nat → Nat → Bool) (h : Nat)
    (st : EventState) (s : KeyState) :
    emitted s (keyScan nv pins (sendProducedEvent h st s))
      = (h, st) :: emitted (sendProducedEvent h st s)
          (keyScan nv pins (sendProducedEvent h st s)) := by
  have h1 := keyScan_produced_emitted nv pins (sendProducedEvent h st s)
  have h2 : (sendProducedEvent h st s).produced = s.produced ++ [(h, st)] := rfl
  conv_lhs => unfold emitted; rw [h1, h2, List.append_assoc, List.drop_left]
  rfl

/-! ## One pass against the advance function -/

/-- While the counter of `PB(c,0)` is below 15, the largest value of its 4-bit
field, one pass does to the button what the advance function of the
specification does: an increment is then an increment by exactly one. -/
theorem keyScan_advance_below_wrap (nv : Nat → Nat) (pins : Nat → Nat → Bool) (c : Nat)
    (s : KeyState) (hc : c < COLUMN_OUTPUTS) (hn : debounceCounter s (PB c 0) < 15) :
    passEffect nv pins s (PB c 0)
      = specAdvance (debounceCounter s (PB c 0)) (acceptedLevel s (PB c 0)) (pins c 0) := by
  have h8 : PB c 0 % 8 = 0 := by rw [PB_zero]; omega
  have hd : PB c 0 / 8 = c := by rw [PB_zero]; omega
  have hci := committed_iff nv pins s (PB c 0)
  rw [hd] at hci
  unfold passEffect specAdvance
  by_cases ha : acceptedLevel s (PB c 0) = pins c 0
  · have h := keyScan_button_agree nv pins c s hc ha
    have hnc : ¬ committed s (keyScan nv pins s) (PB c 0) = true := by
      rw [hci]; intro h; exact h.2.2.1 ha
    simp only [h.1, h.2.2, hnc, ha, if_true, if_false, Bool.false_eq_true]
  · have ha2 : ¬ pins c 0 = acceptedLevel s (PB c 0) := fun e => ha e.symm
    by_cases h4 : debounceCounter s (PB c 0) = DEBOUNCE_DELAY
    · have h := keyScan_button_commit nv pins c s hc ha h4
      have hcm : committed s (keyScan nv pins s) (PB c 0) = true := hci.2 ⟨h8, hc, ha, h4⟩
      simp only [h.1, h.2.2, hcm, ha2, h4, if_true, if_false]
    · have h := keyScan_button_count nv pins c s hc ha h4
      have hnc : ¬ committed s (keyScan nv pins s) (PB c 0) = true := by
        rw [hci]; intro h; exact h4 h.2.2.2
      have hw : (debounceCounter s (PB c 0) + 1) % 16 = debounceCounter s (PB c 0) + 1 := by
        omega
      simp only [h.1, h.2.2, hnc, ha2, h4, hw, if_false, Bool.false_eq_true]

/-! ## The claims -/

set_option maxRecDepth 100000

/-- C1 (as amended). Debounce stability: for every column `c` and the row-0 button
`PB(c,0)`, starting from a state where its counter is 0 and its accepted level
differs from a raw level `L` that is then held constant, the first
`DEBOUNCE_DELAY` passes only count (after `k ≤ 4` passes nothing is committed,
the accepted level is unchanged and the counter is `k`), the transition is
committed on pass `DEBOUNCE_DELAY + 1` (the 5th), and from then on exactly one
transition has been committed, the counter is 0 and the accepted level is `L`. -/
theorem debounce_stability (c : Nat) (hc : c < COLUMN_OUTPUTS) (L : Bool) (s : KeyState)
    (ins : List ScanInput) (hp : ∀ i ∈ ins, i.pins c 0 = L)
    (h0 : debounceCounter s (PB c 0) = 0) (ha : acceptedLevel s (PB c 0) ≠ L)
    (k : Nat) (hk : k ≤ ins.length) :
    (k ≤ DEBOUNCE_DELAY →
        commitCount (PB c 0) (ins.take k) s = 0
          ∧ acceptedLevel (keyScanRun (ins.take k) s) (PB c 0) = acceptedLevel s (PB c 0)
          ∧ debounceCounter (keyScanRun (ins.take k) s) (PB c 0) = k)
      ∧ (DEBOUNCE_DELAY + 1 ≤ k →
        commitCount (PB c 0) (ins.take k) s = 1
          ∧ acceptedLevel (keyScanRun (ins.take k) s) (PB c 0) = L
          ∧ debounceCounter (keyScanRun (ins.take k) s) (PB c 0) = 0) := by
  have hp2 : ∀ i ∈ ins.take k, i.pins c 0 = L := fun i hi => hp i (List.mem_of_mem_take hi)
  have hlen : (ins.take k).length = k := by rw [List.length_take]; omega
  constructor
  · intro hk4
    have h := run_counting c hc L (ins.take k) s hp2 ha (by rw [h0, hlen]; omega)
    refine ⟨h.2.2.2, h.1, ?_⟩
    rw [h.2.2.1, h0, hlen]; omega
  · intro hk5
    have h := run_commit c hc L (ins.take k) s hp2 ha (by rw [h0]; exact Nat.zero_le _)
      (by rw [h0, hlen]; omega)
    exact ⟨h.2.2, h.1, h.2.1⟩

/-- Witness of C1: column 0 pressed from idle and held for five passes. -/
theorem debounce_stability_witness :
    commitCount (PB 0 0) (List.replicate 4 (pass 3 (pinsOnly 0 0))) idleState = 0
      ∧ commitCount (PB 0 0) (List.replicate 5 (pass 3 (pinsOnly 0 0))) idleState = 1
      ∧ acceptedLevel (keyScanRun (List.replicate 5 (pass 3 (pinsOnly 0 0))) idleState)
          (PB 0 0) = true
      ∧ debounceCounter (keyScanRun (List.replicate 5 (pass 3 (pinsOnly 0 0))) idleState)
          (PB 0 0) = 0 := by
  have hp : ∀ i ∈ List.replicate 5 (pass 3 (pinsOnly 0 0)), i.pins 0 0 = true :=
    fun i hi => by rw [List.eq_of_mem_replicate hi]; rfl
  have h4 := (debounce_stability 0 (by decide) true idleState _ hp rfl (by decide) 4
    (by decide)).1 (by decide)
  have h5 := (debounce_stability 0 (by decide) true idleState _ hp rfl (by decide) 5
    (by decide)).2 (by decide)
  exact ⟨h4.1, h5.1, h5.2.1, h5.2.2⟩

/-- Counterexample to C1 as stated: from idle (counter 0, accepted level low) the
pin of button 0 is held high; after `DEBOUNCE_DELAY` = 4 passes nothing has been
committed, the accepted level is still low and the counter is 4; the commit
comes with the 5th pass. -/
theorem debounce_fourth_pass_counterexample :
    debounceCounter idleState (PB 0 0) = 0
      ∧ acceptedLevel idleState (PB 0 0) = false
      ∧ commitCount (PB 0 0) (List.replicate DEBOUNCE_DELAY (pass 3 (pinsOnly 0 0))) idleState = 0
      ∧ acceptedLevel (keyScanRun (List.replicate DEBOUNCE_DELAY (pass 3 (pinsOnly 0 0)))
          idleState) (PB 0 0) = false
      ∧ debounceCounter (keyScanRun (List.replicate DEBOUNCE_DELAY (pass 3 (pinsOnly 0 0)))
          idleState) (PB 0 0) = 4
      ∧ commitCount (PB 0 0) (List.replicate (DEBOUNCE_DELAY + 1) (pass 3 (pinsOnly 0 0)))
          idleState = 1 := by
  decide

/-- C2. For every column `c`, every state the scan can be in (any state reached
from `initKeyscan` by `keyScan` passes) and every sampled level, the effect of
one `keyScan` pass on button `PB(c,0)` equals the advance function of the
specification: unchanged and nothing committed if the sample equals the accepted
level; counter 0, accepted level the sample and the transition committed if the
counter equals `DEBOUNCE_DELAY`; otherwise counter plus one, nothing committed. -/
theorem keyScan_refines_advance (nv : Nat → Nat) (pins : Nat → Nat → Bool) (c : Nat)
    (s : KeyState) (hc : c < COLUMN_OUTPUTS) (hr : Reachable s) :
    passEffect nv pins s (PB c 0)
      = specAdvance (debounceCounter s (PB c 0)) (acceptedLevel s (PB c 0)) (pins c 0) := by
  have hi : COUNTER_INDEX c 0 < COLUMN_OUTPUTS * ROW_INPUTS / 2 := by
    unfold COUNTER_INDEX
    rw [PB_zero]
    unfold COLUMN_OUTPUTS ROW_INPUTS
    unfold COLUMN_OUTPUTS at hc
    omega
  have hn : debounceCounter s (PB c 0) < 15 := by
    rw [debounceCounter_PB]
    have h := (Reachable.counters s hr _ hi).1
    unfold DEBOUNCE_DELAY at h
    omega
  exact keyScan_advance_below_wrap nv pins c s hc hn

/-- Witness of C2: the reachable state with the counter of button 0 at
`DEBOUNCE_DELAY` and its accepted level low; a pass with its pin high commits. -/
theorem keyScan_refines_advance_witness :
    Reachable noisyState
      ∧ passEffect (nvAll 7) (pinsOnly 0 0) noisyState (PB 0 0) = (0, true, some true) := by
  have hr : Reachable noisyState := Reachable.run _ (Reachable.init pinsLow resetState) _
  refine ⟨hr, ?_⟩
  rw [keyScan_refines_advance (nvAll 7) (pinsOnly 0 0) 0 noisyState (by decide) hr]
  decide

/-- Outside the reachable states the 4-bit counter can wrap: with the counter
nibble of button 0 at 15 and a sample that differs from the accepted level, the
pass takes the counter to 0, where the advance function gives 16.  No run from
`initKeyscan` reaches that state. -/
theorem counter_wrap_unreachable :
    ¬ Reachable saturatedState
      ∧ debounceCounter saturatedState (PB 0 0) = 15
      ∧ acceptedLevel saturatedState (PB 0 0) = false
      ∧ passEffect (nvAll 3) (pinsOnly 0 0) saturatedState (PB 0 0) = (0, false, none)
      ∧ specAdvance 15 false (pinsOnly 0 0 0 0) = (16, false, none) := by
  refine ⟨fun h => ?_, by decide, by decide, by decide, by decide⟩
  exact absurd (Reachable.counters saturatedState h 0 (by decide)).1 (by decide)

/-- C3 (the code does not do this). Button 1 is row 1 of column 0. From idle, with
send-on and send-off enabled, its pin is held high: the sample disagrees with
the accepted level, yet a pass neither increments its counter nor commits; after
one pass and after six passes the accepted level is still low, the counter still
0 (both nibbles of its byte of counters are), nothing was committed and no event
was produced. -/
theorem keyScan_skips_row_one :
    acceptedLevel idleState (PB 0 1) = false
      ∧ pinsOnly 0 1 0 1 = true
      ∧ debounceCounter idleState (PB 0 1) = 0
      ∧ debounceCounter (keyScan (nvAll 3) (pinsOnly 0 1) idleState) (PB 0 1) = 0
      ∧ committed idleState (keyScan (nvAll 3) (pinsOnly 0 1) idleState) (PB 0 1) = false
      ∧ acceptedLevel (keyScanRun (List.replicate 6 (pass 3 (pinsOnly 0 1))) idleState)
          (PB 0 1) = false
      ∧ debounceCounter (keyScanRun (List.replicate 6 (pass 3 (pinsOnly 0 1))) idleState)
          (PB 0 1) = 0
      ∧ (keyScanRun (List.replicate 6 (pass 3 (pinsOnly 0 1))) idleState).debounceCounters
          (COUNTER_INDEX 0 1) = ByteNibbles.zero
      ∧ commitCount (PB 0 1) (List.replicate 6 (pass 3 (pinsOnly 0 1))) idleState = 0
      ∧ (keyScanRun (List.replicate 6 (pass 3 (pinsOnly 0 1))) idleState).produced = [] := by
  decide

/-- C4. On every transition that a `keyScan` pass commits for a button `pb`, the
committed level `L` is the level sampled for the button, and with `f` the flags
byte of the button the logical state stored is: the negation of the previous
logical state if `f` has TOGGLE; otherwise `L` if `f` has POLARITY; otherwise
the complement of `L`. -/
theorem committed_logical_state (nv : Nat → Nat) (pins : Nat → Nat → Bool) (s : KeyState)
    (pb : Nat) (h : committed s (keyScan nv pins s) pb = true) :
    acceptedLevel (keyScan nv pins s) pb = pins (pb / ROW_INPUTS) (pb % ROW_INPUTS)
      ∧ logicalLevel (keyScan nv pins s) pb =
        (if (nv (NV_PB_FLAGS + pb) % 256) &&& NV_PB_FLAGS_TOGGLE ≠ 0 then
          !logicalLevel s pb
        else if (nv (NV_PB_FLAGS + pb) % 256) &&& NV_PB_FLAGS_POLARITY ≠ 0 then
          acceptedLevel (keyScan nv pins s) pb
        else !acceptedLevel (keyScan nv pins s) pb) := by
  obtain ⟨h8, hc, ha, hn⟩ := (committed_iff nv pins s pb).1 h
  have hpb := PB_div_mod pb h8
  have hk := keyScan_button_commit nv pins (pb / 8) s hc (by rw [hpb]; exact ha)
    (by rw [hpb]; exact hn)
  rw [hpb] at hk
  refine ⟨?_, ?_⟩
  · rw [hk.1]; simp only [ROW_INPUTS, h8]
  · rw [hk.2.1, hk.1]; rfl

/-- Witness of C4: button 0 with flags POLARITY, counter at `DEBOUNCE_DELAY` after
four passes with its pin high, commits on the next pass and stores the level. -/
theorem committed_logical_state_witness :
    committed (keyScanRun (List.replicate 4 (pass 4 (pinsOnly 0 0))) idleState)
        (keyScan (nvAll 4) (pinsOnly 0 0)
          (keyScanRun (List.replicate 4 (pass 4 (pinsOnly 0 0))) idleState)) 0 = true
      ∧ logicalLevel (keyScan (nvAll 4) (pinsOnly 0 0)
          (keyScanRun (List.replicate 4 (pass 4 (pinsOnly 0 0))) idleState)) 0 = true := by
  have hc : committed (keyScanRun (List.replicate 4 (pass 4 (pinsOnly 0 0))) idleState)
      (keyScan (nvAll 4) (pinsOnly 0 0)
        (keyScanRun (List.replicate 4 (pass 4 (pinsOnly 0 0))) idleState)) 0 = true := by
    decide
  have h := committed_logical_state (nvAll 4) (pinsOnly 0 0)
    (keyScanRun (List.replicate 4 (pass 4 (pinsOnly 0 0))) idleState) 0 hc
  refine ⟨hc, ?_⟩
  rw [h.2, h.1]
  decide

/-- C5. For every button `pb`, state and flags, `sendPBEvent` hands the sink at most
one event: exactly `(pb+1, EVENT_ON)` when the state is non-zero and SEND_ON is
set, exactly `(pb+1, EVENT_OFF)` when the state is zero and SEND_OFF is set, and
nothing otherwise; and the log after a `keyScan` pass is the old log followed, for
the columns in order, by the events of one such call for each committed
transition, made with the logical state the pass stored; only row-0 buttons of
the scanned columns commit. -/
theorem sendPBEvent_at_most_one (pb state flags : Nat) (s : KeyState) (nv : Nat → Nat)
    (pins : Nat → Nat → Bool) (hpb : pb < NUM_PB) :
    sendPBEvent pb state flags s = { s with produced := s.produced ++ pbEvents pb state flags }
      ∧ pbEvents pb state flags =
          (if state ≠ 0 then
            if flags &&& NV_PB_FLAGS_SEND_ON ≠ 0 then [(pb + 1, EventState.EVENT_ON)] else []
          else
            if flags &&& NV_PB_FLAGS_SEND_OFF ≠ 0 then [(pb + 1, EventState.EVENT_OFF)] else [])
      ∧ (pbEvents pb state flags).length ≤ 1
      ∧ (keyScan nv pins s).produced = s.produced ++
          (List.range COLUMN_OUTPUTS).flatMap (fun c =>
            if committed s (keyScan nv pins s) (PB c 0) then
              pbEvents (PB c 0) (logicalLevel (keyScan nv pins s) (PB c 0)).toNat
                (nv (NV_PB_FLAGS + PB c 0) % 256)
            else [])
      ∧ ∀ b, committed s (keyScan nv pins s) b = true → ∃ c, c < COLUMN_OUTPUTS ∧ b = PB c 0 := by
  have hh : PB_2_HAPPENING pb % 256 = pb + 1 := by
    unfold PB_2_HAPPENING; unfold NUM_PB at hpb; omega
  have he := pbEvents_eq pb state flags
  rw [hh] at he
  refine ⟨sendPBEvent_eq pb state flags s, he, ?_, ?_, ?_⟩
  · rw [he]; split_ifs <;> simp
  · rw [keyScan_produced_emitted, keyScan_emitted]
  · intro b hb
    obtain ⟨h8, hc, _, _⟩ := (committed_iff nv pins s b).1 hb
    exact ⟨b / 8, hc, (PB_div_mod b h8).symm⟩

/-- Witness of C5: button 0 reports ON. -/
theorem sendPBEvent_at_most_one_witness :
    (0 : Nat) < NUM_PB ∧ pbEvents 0 1 3 = [(1, EventState.EVENT_ON)] := by
  have h := sendPBEvent_at_most_one 0 1 3 idleState (nvAll 3) pinsLow (by decide)
  exact ⟨by decide, by rw [h.2.1]; decide⟩

/-- C6. Emission gating: when a transition committed by a `keyScan` pass makes the
logical state of a button true while its SEND_ON flag is clear, or false while
its SEND_OFF flag is clear, the pass still stores the new accepted level (the
sample, different from the old accepted level) and the new logical state, and
produces no event with the happening of that button. -/
theorem emission_gating (nv : Nat → Nat) (pins : Nat → Nat → Bool) (s : KeyState) (pb : Nat)
    (h : committed s (keyScan nv pins s) pb = true)
    (hg : (logicalLevel (keyScan nv pins s) pb = true
            ∧ (nv (NV_PB_FLAGS + pb) % 256) &&& NV_PB_FLAGS_SEND_ON = 0)
          ∨ (logicalLevel (keyScan nv pins s) pb = false
            ∧ (nv (NV_PB_FLAGS + pb) % 256) &&& NV_PB_FLAGS_SEND_OFF = 0)) :
    acceptedLevel (keyScan nv pins s) pb = pins (pb / ROW_INPUTS) (pb % ROW_INPUTS)
      ∧ acceptedLevel (keyScan nv pins s) pb ≠ acceptedLevel s pb
      ∧ logicalLevel (keyScan nv pins s) pb
          = storedLevel (nv (NV_PB_FLAGS + pb) % 256) (logicalLevel s pb)
              (pins (pb / ROW_INPUTS) (pb % ROW_INPUTS))
      ∧ ∀ e ∈ emitted s (keyScan nv pins s), e.1 ≠ PB_2_HAPPENING pb := by
  obtain ⟨h8, hc, ha, hn⟩ := (committed_iff nv pins s pb).1 h
  have hpb := PB_div_mod pb h8
  have hk := keyScan_button_commit nv pins (pb / 8) s hc (by rw [hpb]; exact ha)
    (by rw [hpb]; exact hn)
  rw [hpb] at hk
  have hr : pins (pb / ROW_INPUTS) (pb % ROW_INPUTS) = pins (pb / 8) 0 := by
    simp only [ROW_INPUTS, h8]
  refine ⟨by rw [hk.1, hr], by rw [hk.1]; exact fun e => ha e.symm, by rw [hk.2.1, hr], ?_⟩
  intro e he hep
  rw [keyScan_emitted, List.mem_flatMap] at he
  obtain ⟨c, hcr, hec⟩ := he
  have hc8 := List.mem_range.1 hcr
  split_ifs at hec with hcm
  · have h1 := pbEvents_happening _ _ _ e hec
    have hcp : PB c 0 = pb := by
      rw [h1, PB_zero, PB_2_HAPPENING] at hep
      rw [PB_zero]
      unfold COLUMN_OUTPUTS at hc8 hc
      unfold PB_2_HAPPENING at hep
      omega
    rw [hcp, pbEvents_eq] at hec
    rcases hg with ⟨hl, hf⟩ | ⟨hl, hf⟩
    · simp [hl, hf] at hec
    · simp [hl, hf] at hec
  · simp at hec

/-- Witness of C6: button 0 with flags POLARITY only commits to logical true and
produces nothing. -/
theorem emission_gating_witness :
    committed (keyScanRun (List.replicate 4 (pass 4 (pinsOnly 0 0))) idleState)
        (keyScan (nvAll 4) (pinsOnly 0 0)
          (keyScanRun (List.replicate 4 (pass 4 (pinsOnly 0 0))) idleState)) 0 = true
      ∧ logicalLevel (keyScan (nvAll 4) (pinsOnly 0 0)
          (keyScanRun (List.replicate 4 (pass 4 (pinsOnly 0 0))) idleState)) 0 = true
      ∧ ∀ e ∈ emitted (keyScanRun (List.replicate 4 (pass 4 (pinsOnly 0 0))) idleState)
          (keyScan (nvAll 4) (pinsOnly 0 0)
            (keyScanRun (List.replicate 4 (pass 4 (pinsOnly 0 0))) idleState)),
          e.1 ≠ PB_2_HAPPENING 0 := by
  have hc : committed (keyScanRun (List.replicate 4 (pass 4 (pinsOnly 0 0))) idleState)
      (keyScan (nvAll 4) (pinsOnly 0 0)
        (keyScanRun (List.replicate 4 (pass 4 (pinsOnly 0 0))) idleState)) 0 = true := by
    decide
  have hl : logicalLevel (keyScan (nvAll 4) (pinsOnly 0 0)
      (keyScanRun (List.replicate 4 (pass 4 (pinsOnly 0 0))) idleState)) 0 = true := by
    decide
  exact ⟨hc, hl, (emission_gating (nvAll 4) (pinsOnly 0 0) _ 0 hc
    (Or.inl ⟨hl, by decide⟩)).2.2.2⟩

/-- C7. Toggle semantics: for a button whose flags have TOGGLE set throughout, after
a run of passes that commits `N` transitions for it (of either raw direction),
starting from logical state `s`, `getKeyState` returns `s XOR (N mod 2)`. -/
theorem toggle_semantics (pb : Nat) (ins : List ScanInput) (s : KeyState)
    (ht : ∀ i ∈ ins, (i.nv (NV_PB_FLAGS + pb) % 256) &&& NV_PB_FLAGS_TOGGLE ≠ 0) :
    getKeyState (keyScanRun ins s) pb
      = if xor (decide (getKeyState s pb = EventState.EVENT_ON))
            (decide (commitCount pb ins s % 2 = 1))
        then EventState.EVENT_ON else EventState.EVENT_OFF := by
  rw [getKeyState_eq, getKeyState_eq, toggle_run pb ins s ht]
  cases logicalLevel s pb <;> simp

/-- Witness of C7: button 0 with TOGGLE, pressed (five passes high) and released
(five passes low): two committed transitions, and the state is back at OFF. -/
theorem toggle_semantics_witness :
    commitCount 0 (List.replicate 5 (pass 11 (pinsOnly 0 0)) ++ List.replicate 5 (pass 11 pinsLow))
        idleState = 2
      ∧ getKeyState idleState 0 = EventState.EVENT_OFF
      ∧ getKeyState (keyScanRun (List.replicate 5 (pass 11 (pinsOnly 0 0))
          ++ List.replicate 5 (pass 11 pinsLow)) idleState) 0 = EventState.EVENT_OFF := by
  have hc : commitCount 0 (List.replicate 5 (pass 11 (pinsOnly 0 0))
      ++ List.replicate 5 (pass 11 pinsLow)) idleState = 2 := by decide
  have h := toggle_semantics 0 (List.replicate 5 (pass 11 (pinsOnly 0 0))
      ++ List.replicate 5 (pass 11 pinsLow)) idleState (by decide)
  refine ⟨hc, by decide, ?_⟩
  rw [h, hc]
  decide

/-- C8 (as amended). Debounce rejection of noise: for every row-0 button `PB(c,0)`
and every state (reachable or not), if the sampled level disagrees with the
accepted level for `k` consecutive passes, where the counter of the button plus
`k` does not exceed `DEBOUNCE_DELAY` (with the counter at 0, any
`k ≤ DEBOUNCE_DELAY`), and then matches the accepted level again, none of those
passes commits a transition: the accepted level and the logical state are
unchanged and no event with the happening of the button is produced.  The
counter is left at its old value plus `k`. -/
theorem noise_rejected (c : Nat) (hc : c < COLUMN_OUTPUTS) (s : KeyState)
    (noise calm : List ScanInput)
    (hnoise : ∀ i ∈ noise, i.pins c 0 ≠ acceptedLevel s (PB c 0))
    (hcalm : ∀ i ∈ calm, i.pins c 0 = acceptedLevel s (PB c 0))
    (hk : debounceCounter s (PB c 0) + noise.length ≤ DEBOUNCE_DELAY) :
    commitCount (PB c 0) (noise ++ calm) s = 0
      ∧ acceptedLevel (keyScanRun (noise ++ calm) s) (PB c 0) = acceptedLevel s (PB c 0)
      ∧ logicalLevel (keyScanRun (noise ++ calm) s) (PB c 0) = logicalLevel s (PB c 0)
      ∧ (∀ e ∈ emitted s (keyScanRun (noise ++ calm) s), e.1 ≠ PB_2_HAPPENING (PB c 0))
      ∧ debounceCounter (keyScanRun (noise ++ calm) s) (PB c 0)
          = debounceCounter s (PB c 0) + noise.length := by
  have hn2 : ∀ i ∈ noise, i.pins c 0 = !acceptedLevel s (PB c 0) :=
    fun i hi => bool_eq_not_of_ne _ _ (hnoise i hi)
  have h1 := run_counting c hc (!acceptedLevel s (PB c 0)) noise s hn2 (by simp) hk
  have h2 := run_stable c hc (acceptedLevel s (PB c 0)) calm (keyScanRun noise s) hcalm h1.1
  have hcount : commitCount (PB c 0) (noise ++ calm) s = 0 := by
    rw [commitCount_append, h1.2.2.2, h2.2.2.2]
  rw [keyScanRun_append]
  refine ⟨hcount, h2.1, by rw [h2.2.1, h1.2.1], ?_, by rw [h2.2.2.1, h1.2.2.1]⟩
  rw [← keyScanRun_append]
  exact run_no_event c (noise ++ calm) s hcount

/-- Witness of C8: from idle, the pin of button 0 reads high for three passes and
then low again. -/
theorem noise_rejected_witness :
    commitCount (PB 0 0) (List.replicate 3 (pass 7 (pinsOnly 0 0)) ++ [pass 7 pinsLow])
        idleState = 0
      ∧ debounceCounter (keyScanRun (List.replicate 3 (pass 7 (pinsOnly 0 0)) ++ [pass 7 pinsLow])
          idleState) (PB 0 0) = 3 := by
  have h := noise_rejected 0 (by decide) idleState (List.replicate 3 (pass 7 (pinsOnly 0 0)))
    [pass 7 pinsLow] (by decide) (by decide) (by decide)
  exact ⟨h.1, h.2.2.2.2⟩

/-- Counterexample to C8 as stated: `noisyState` is reachable from `initKeyscan` by
passes and in it the accepted level of button 0 is low and the sample low agrees
with it; then the pin reads high for one single pass (`k = 1 < DEBOUNCE_DELAY`)
and low again.  That one pass commits: accepted level and logical state become
high and the event `(1, EVENT_ON)` is produced. -/
theorem noise_commit_counterexample :
    Reachable noisyState
      ∧ acceptedLevel noisyState (PB 0 0) = false
      ∧ logicalLevel noisyState (PB 0 0) = false
      ∧ pinsOnly 0 0 0 0 ≠ acceptedLevel noisyState (PB 0 0)
      ∧ pinsLow 0 0 = acceptedLevel noisyState (PB 0 0)
      ∧ committed noisyState (keyScan (nvAll 7) (pinsOnly 0 0) noisyState) (PB 0 0) = true
      ∧ acceptedLevel (keyScan (nvAll 7) (pinsOnly 0 0) noisyState) (PB 0 0) = true
      ∧ logicalLevel (keyScan (nvAll 7) (pinsOnly 0 0) noisyState) (PB 0 0) = true
      ∧ emitted noisyState (keyScan (nvAll 7) (pinsOnly 0 0) noisyState)
          = [(1, EventState.EVENT_ON)]
      ∧ commitCount (PB 0 0) [pass 7 (pinsOnly 0 0), pass 7 pinsLow] noisyState = 1 := by
  refine ⟨Reachable.run _ (Reachable.init pinsLow resetState) _, ?_⟩
  decide

/-- C9. In every state reachable from `initKeyscan` by `keyScan` passes with
arbitrary pin samples and flag values, every debounce counter (both nibbles of
each of the 32 bytes) lies in `[0, DEBOUNCE_DELAY]`; and a further pass never
increments a counter that equals `DEBOUNCE_DELAY` nor wraps a nibble: each lower
nibble stays, or goes from `DEBOUNCE_DELAY` to 0, or goes from a value below
`DEBOUNCE_DELAY` to that value plus one, and each upper nibble stays. -/
theorem counters_bounded (s : KeyState) (h : Reachable s) (i : Nat)
    (hi : i < COLUMN_OUTPUTS * ROW_INPUTS / 2) (nv : Nat → Nat) (pins : Nat → Nat → Bool) :
    (s.debounceCounters i).lower ≤ DEBOUNCE_DELAY
      ∧ (s.debounceCounters i).upper ≤ DEBOUNCE_DELAY
      ∧ ((keyScan nv pins s).debounceCounters i).upper = (s.debounceCounters i).upper
      ∧ (((keyScan nv pins s).debounceCounters i).lower = (s.debounceCounters i).lower
        ∨ ((s.debounceCounters i).lower = DEBOUNCE_DELAY
            ∧ ((keyScan nv pins s).debounceCounters i).lower = 0)
        ∨ ((s.debounceCounters i).lower < DEBOUNCE_DELAY
            ∧ ((keyScan nv pins s).debounceCounters i).lower
                = (s.debounceCounters i).lower + 1)) := by
  obtain ⟨hl, hu⟩ := Reachable.counters s h i hi
  obtain ⟨hu2, hc⟩ := keyScan_counter_cases nv pins s i
  refine ⟨hl, by rw [hu]; exact Nat.zero_le _, hu2, ?_⟩
  unfold DEBOUNCE_DELAY at hl hc ⊢
  rcases hc with hc | hc | ⟨hne, hc⟩
  · exact Or.inl hc
  · exact Or.inr (Or.inl hc)
  · refine Or.inr (Or.inr ⟨by omega, ?_⟩)
    rw [hc]; omega

/-- Witness of C9: the state with the counter of button 0 at `DEBOUNCE_DELAY`, and
the pass that then commits. -/
theorem counters_bounded_witness :
    (noisyState.debounceCounters 0).lower = 4
      ∧ ((keyScan (nvAll 7) (pinsOnly 0 0) noisyState).debounceCounters 0).lower = 0 := by
  have h := counters_bounded noisyState
    (Reachable.run _ (Reachable.init pinsLow resetState) _) 0 (by decide) (nvAll 7)
    (pinsOnly 0 0)
  have h4 : (noisyState.debounceCounters 0).lower = 4 := by decide
  refine ⟨h4, ?_⟩
  rcases h.2.2.2 with h1 | h1 | h1
  · decide
  · exact h1.2
  · exact absurd h1.1 (by rw [h4]; decide)

/-- C10. Scenario D: a `keyScan` pass in which every sampled level equals the
corresponding accepted level produces no event and leaves `keyInputState`,
`keyOutputState` and every byte of `debounceCounters` exactly as they were,
whatever the counters hold. -/
theorem quiet_pass (nv : Nat → Nat) (pins : Nat → Nat → Bool) (s : KeyState)
    (h : ∀ c, c < COLUMN_OUTPUTS → ∀ r, r < ROW_INPUTS →
      pins c r = acceptedLevel s (PB c r)) :
    emitted s (keyScan nv pins s) = []
      ∧ (keyScan nv pins s).produced = s.produced
      ∧ (keyScan nv pins s).keyInputState = s.keyInputState
      ∧ (keyScan nv pins s).keyOutputState = s.keyOutputState
      ∧ (keyScan nv pins s).debounceCounters = s.debounceCounters := by
  have h0 : ∀ c, c < COLUMN_OUTPUTS → (s.keyInputState c).b0 = pins c 0 := by
    intro c hc
    rw [h c hc 0 (by decide), acceptedLevel_PB]
  have he : emitted s (keyScan nv pins s) = [] := by
    unfold emitted
    rw [keyScan_produced, List.drop_left, List.flatMap_eq_nil_iff]
    intro c hc
    exact (keyScan_agree nv pins c s (List.mem_range.1 hc) (h0 c (List.mem_range.1 hc))).2.2.2
  refine ⟨he, ?_, ?_, ?_, ?_⟩
  · rw [keyScan_produced_emitted, he, List.append_nil]
  · funext c
    by_cases hc : c < COLUMN_OUTPUTS
    · exact (keyScan_agree nv pins c s hc (h0 c hc)).1
    · exact (keyScan_column_other nv pins s c (Nat.not_lt.1 hc)).1
  · funext c
    by_cases hc : c < COLUMN_OUTPUTS
    · exact (keyScan_agree nv pins c s hc (h0 c hc)).2.1
    · exact (keyScan_column_other nv pins s c (Nat.not_lt.1 hc)).2
  · funext i
    by_cases hex : ∃ a, a < COLUMN_OUTPUTS ∧ i = COUNTER_INDEX a 0
    · obtain ⟨a, ha, hia⟩ := hex
      subst hia
      exact (keyScan_agree nv pins a s ha (h0 a ha)).2.2.1
    · exact keyScan_counter_other nv pins s i (fun a ha hia => hex ⟨a, ha, hia⟩)

/-- Witness of C10: in `noisyState` the counter of button 0 holds 4; a pass with
every pin low, as accepted, leaves it at 4 and produces nothing. -/
theorem quiet_pass_witness :
    (∀ c, c < COLUMN_OUTPUTS → ∀ r, r < ROW_INPUTS →
        pinsLow c r = acceptedLevel noisyState (PB c r))
      ∧ debounceCounter noisyState (PB 0 0) = 4
      ∧ emitted noisyState (keyScan (nvAll 7) pinsLow noisyState) = []
      ∧ (keyScan (nvAll 7) pinsLow noisyState).debounceCounters = noisyState.debounceCounters := by
  have hq : ∀ c, c < COLUMN_OUTPUTS → ∀ r, r < ROW_INPUTS →
      pinsLow c r = acceptedLevel noisyState (PB c r) := by decide
  have h := quiet_pass (nvAll 7) pinsLow noisyState hq
  exact ⟨hq, by decide, h.1, h.2.2.2.2⟩

/-- C13. `APP_GetEventState(h)`, for a one-byte happening `h`, returns
`EVENT_UNKNOWN` exactly when the button id `h - 1` in 8-bit unsigned arithmetic
is at least `NUM_PB`, that is when `h = 0` (the id wraps to 255) or `h ≥ 65`;
for every `h` in 1..64 it returns `getKeyState(h - 1)`, which is `EVENT_ON` or
`EVENT_OFF`. -/
theorem getEventState_unknown (s : KeyState) (h : Nat) (hh : h < 256) :
    (APP_GetEventState s h = EventState.EVENT_UNKNOWN
        ↔ NUM_PB ≤ (HAPPENING_2_PB (h : Int) % 256).toNat)
      ∧ (NUM_PB ≤ (HAPPENING_2_PB (h : Int) % 256).toNat ↔ h = 0 ∨ 65 ≤ h)
      ∧ (h = 0 → (HAPPENING_2_PB (h : Int) % 256).toNat = 255)
      ∧ (1 ≤ h → h ≤ 64 →
          APP_GetEventState s h = getKeyState s (h - 1)
            ∧ (getKeyState s (h - 1) = EventState.EVENT_ON
              ∨ getKeyState s (h - 1) = EventState.EVENT_OFF)) := by
  have hb : (HAPPENING_2_PB (h : Int) % 256).toNat = if h = 0 then 255 else h - 1 := by
    unfold HAPPENING_2_PB
    split_ifs with h0
    · subst h0; decide
    · omega
  have hk : ∀ pb, getKeyState s pb = EventState.EVENT_ON
      ∨ getKeyState s pb = EventState.EVENT_OFF := by
    intro pb
    rw [getKeyState_eq]
    cases logicalLevel s pb <;> simp
  have hnu : ∀ pb, getKeyState s pb ≠ EventState.EVENT_UNKNOWN := by
    intro pb
    rcases hk pb with e | e <;> rw [e] <;> decide
  refine ⟨?_, ?_, ?_, ?_⟩
  · unfold APP_GetEventState
    by_cases hge : NUM_PB ≤ (HAPPENING_2_PB (h : Int) % 256).toNat
    · simp [hge]
    · simp only [ge_iff_le, hge, if_false, iff_false]
      exact hnu _
  · rw [hb]; unfold NUM_PB
    split_ifs with h0
    · simp [h0]
    · omega
  · intro h0; rw [hb, if_pos h0]
  · intro h1 h64
    have hbu : (HAPPENING_2_PB (h : Int) % 256).toNat = h - 1 := by
      rw [hb, if_neg (by omega)]
    refine ⟨?_, hk _⟩
    unfold APP_GetEventState
    simp only [hbu, ge_iff_le]
    rw [if_neg]
    unfold NUM_PB; omega

/-- Witness of C13: happening 1 is button 0, happenings 0 and 65 are unknown. -/
theorem getEventState_unknown_witness :
    APP_GetEventState idleState 0 = EventState.EVENT_UNKNOWN
      ∧ APP_GetEventState idleState 65 = EventState.EVENT_UNKNOWN
      ∧ APP_GetEventState heldState 1 = getKeyState heldState 0 := by
  have h0 := getEventState_unknown idleState 0 (by decide)
  have h65 := getEventState_unknown idleState 65 (by decide)
  have h1 := getEventState_unknown heldState 1 (by decide)
  exact ⟨h0.1.2 (h0.2.1.2 (Or.inl rfl)), h65.1.2 (h65.2.1.2 (Or.inr (by decide))),
    (h1.2.2.2 (by decide) (by decide)).1⟩

/-- C19. Happening mapping: for every button id `pb` in `[0, NUM_PB)`,
`PB_2_HAPPENING(pb) = pb + 1` lies in `[1, 64]`, so it is neither `NO_ACTION` (0)
nor `HAPPENING_SOD` (65), it survives the cast to the one-byte `Happening`, the
mapping is injective, and `HAPPENING_2_PB(PB_2_HAPPENING(pb)) = pb`, also after
the store into a `uint8_t`. -/
theorem happening_mapping (pb : Nat) (hpb : pb < NUM_PB) :
    PB_2_HAPPENING pb = pb + 1
      ∧ 1 ≤ PB_2_HAPPENING pb ∧ PB_2_HAPPENING pb ≤ 64
      ∧ PB_2_HAPPENING pb ≠ NO_ACTION
      ∧ PB_2_HAPPENING pb ≠ HAPPENING_SOD
      ∧ HAPPENING_SOD = 65
      ∧ PB_2_HAPPENING pb % 256 = PB_2_HAPPENING pb
      ∧ (∀ qb, qb < NUM_PB → PB_2_HAPPENING pb = PB_2_HAPPENING qb → pb = qb)
      ∧ HAPPENING_2_PB (PB_2_HAPPENING pb : Nat) = pb
      ∧ (HAPPENING_2_PB (PB_2_HAPPENING pb : Nat) % 256).toNat = pb := by
  unfold NUM_PB at hpb
  unfold PB_2_HAPPENING HAPPENING_2_PB HAPPENING_SOD NO_ACTION NUM_PB
  refine ⟨rfl, by omega, by omega, by omega, by omega, rfl, by omega, ?_, by omega, by omega⟩
  intro qb _ h
  omega

/-- Witness of C19: the last button, 63, has happening 64. -/
theorem happening_mapping_witness :
    (63 : Nat) < NUM_PB ∧ PB_2_HAPPENING 63 = 64
      ∧ (HAPPENING_2_PB (PB_2_HAPPENING 63 : Nat) % 256).toNat = 63 := by
  have h := happening_mapping 63 (by decide)
  exact ⟨by decide, h.1, h.2.2.2.2.2.2.2.2.2⟩

/-- C14. `initKeyscan` performs a silent seeding pass: for every column `c` and
row `r` the accepted level afterwards (bit `r` of `keyInputState[c]`) equals the
level sampled for that button while its column was strobed, every debounce
counter is 0 (both nibbles of each of the 32 bytes), and no event is produced. -/
theorem initKeyscan_silent_seed (pins : Nat → Nat → Bool) (s : KeyState) (c r i : Nat)
    (hc : c < COLUMN_OUTPUTS) (hr : r < ROW_INPUTS) (hi : i < COLUMN_OUTPUTS * ROW_INPUTS / 2) :
    ((initKeyscan pins s).keyInputState c).bit r = pins c r
      ∧ acceptedLevel (initKeyscan pins s) (PB c r) = pins c r
      ∧ ((initKeyscan pins s).debounceCounters i).lower = 0
      ∧ ((initKeyscan pins s).debounceCounters i).upper = 0
      ∧ debounceCounter (initKeyscan pins s) (PB c r) = 0
      ∧ (initKeyscan pins s).produced = s.produced
      ∧ emitted s (initKeyscan pins s) = [] := by
  unfold COLUMN_OUTPUTS at hc
  unfold ROW_INPUTS at hr
  have hpb : PB c r < NUM_PB := by unfold PB ROW_INPUTS NUM_PB; omega
  have hd : PB c r / ROW_INPUTS = c := by unfold PB ROW_INPUTS; omega
  have hm : PB c r % ROW_INPUTS = r := by unfold PB ROW_INPUTS; omega
  have hl := (initKeyscan_levels pins s (PB c r) hpb).1
  rw [hd, hm] at hl
  have hz := initKeyscan_counters pins s i hi
  have hz2 := initKeyscan_counters pins s (PB c r / 2)
    (by unfold PB ROW_INPUTS COLUMN_OUTPUTS; omega)
  have hp := (initKeyscan_cells pins s c hc).2.2
  refine ⟨?_, hl, by rw [hz]; rfl, by rw [hz]; rfl, ?_, hp, ?_⟩
  · have := hl
    unfold acceptedLevel at this
    rw [hd, hm] at this
    exact this
  · unfold debounceCounter
    rw [hz2]
    simp [ByteNibbles.nibble, ByteNibbles.zero]
  · unfold emitted
    rw [hp, List.drop_length]

/-- Witness of C14: column 0, row 0 sampled high at power-up. -/
theorem initKeyscan_silent_seed_witness :
    acceptedLevel heldState (PB 0 0) = true
      ∧ debounceCounter heldState (PB 0 0) = 0
      ∧ heldState.produced = [] := by
  have h := initKeyscan_silent_seed (pinsOnly 0 0) resetState 0 0 0 (by decide) (by decide)
    (by decide)
  exact ⟨h.2.1, h.2.2.2.2.1, h.2.2.2.2.2.1⟩

/-- C11 (as amended). Scenario A: for a row-0 button whose accepted level is false,
when the raw level flips to true and is held until the transition is committed
(and beyond), exactly one transition is committed and the logical state store
is written.  With the flags byte SEND_ON only, the state stored is false, the
complement of the committed level as POLARITY is clear, and no event is produced
for the button, SEND_OFF being clear.  With the flags byte SEND_ON and
POLARITY, the state stored is true and exactly one event, (button happening,
ON), is produced for the button. -/
theorem scenario_a (c : Nat) (hc : c < COLUMN_OUTPUTS) (f : Nat) (ins : List ScanInput)
    (s : KeyState)
    (hp : ∀ i ∈ ins, i.pins c 0 = true ∧ i.nv (NV_PB_FLAGS + PB c 0) % 256 = f)
    (ha : acceptedLevel s (PB c 0) = false)
    (hn : debounceCounter s (PB c 0) ≤ DEBOUNCE_DELAY)
    (hl : DEBOUNCE_DELAY + 1 ≤ debounceCounter s (PB c 0) + ins.length) :
    commitCount (PB c 0) ins s = 1
      ∧ acceptedLevel (keyScanRun ins s) (PB c 0) = true
      ∧ (f = NV_PB_FLAGS_SEND_ON →
          logicalLevel (keyScanRun ins s) (PB c 0) = false
            ∧ eventsFor (PB c 0) (emitted s (keyScanRun ins s)) = [])
      ∧ (f = NV_PB_FLAGS_SEND_ON ||| NV_PB_FLAGS_POLARITY →
          logicalLevel (keyScanRun ins s) (PB c 0) = true
            ∧ eventsFor (PB c 0) (emitted s (keyScanRun ins s))
                = [(PB_2_HAPPENING (PB c 0), EventState.EVENT_ON)]) := by
  have hne : acceptedLevel s (PB c 0) ≠ true := by rw [ha]; exact Bool.false_ne_true
  have h1 := run_commit c hc true ins s (fun i hi => (hp i hi).1) hne hn hl
  have h2 := run_commit_events c hc true f ins s hp hne hn hl
  refine ⟨h1.2.2, h1.1, ?_, ?_⟩
  · intro hf
    subst hf
    have hs : ∀ prev, storedLevel NV_PB_FLAGS_SEND_ON prev true = false := by
      intro prev; cases prev <;> decide
    have e1 : NV_PB_FLAGS_SEND_ON &&& NV_PB_FLAGS_SEND_OFF = 0 := by decide
    rw [h2.1, h2.2, pbEvents_eq, hs]
    exact ⟨rfl, by simp [e1]⟩
  · intro hf
    subst hf
    have hs : ∀ prev,
        storedLevel (NV_PB_FLAGS_SEND_ON ||| NV_PB_FLAGS_POLARITY) prev true = true := by
      intro prev; cases prev <;> decide
    rw [h2.1, h2.2, pbEvents_eq, PB_2_HAPPENING_mod c hc, hs]
    exact ⟨rfl, by simp; decide⟩

/-- Witness of C11: button 0 from idle, pin held high for five passes, flags SEND_ON
and POLARITY: one event, (1, ON). -/
theorem scenario_a_witness :
    acceptedLevel idleState (PB 0 0) = false
      ∧ logicalLevel (keyScanRun (List.replicate 5 (pass 5 (pinsOnly 0 0))) idleState) (PB 0 0)
          = true
      ∧ eventsFor (PB 0 0)
          (emitted idleState (keyScanRun (List.replicate 5 (pass 5 (pinsOnly 0 0))) idleState))
          = [(1, EventState.EVENT_ON)] := by
  have h := scenario_a 0 (by decide) 5 (List.replicate 5 (pass 5 (pinsOnly 0 0))) idleState
    (by decide) (by decide) (by decide) (by decide)
  exact ⟨by decide, (h.2.2.2 (by decide)).1, (h.2.2.2 (by decide)).2⟩

/-- Counterexample to C11 as stated: button 0 from idle (accepted level false), flags
byte SEND_ON only, pin held high for five passes: the transition is committed,
the logical state stored is false and the log stays empty; no ON event is
produced. -/
theorem scenario_a_counterexample :
    acceptedLevel idleState (PB 0 0) = false
      ∧ nvAll NV_PB_FLAGS_SEND_ON (NV_PB_FLAGS + PB 0 0) % 256 = 1
      ∧ commitCount (PB 0 0) (List.replicate 5 (pass NV_PB_FLAGS_SEND_ON (pinsOnly 0 0)))
          idleState = 1
      ∧ acceptedLevel (keyScanRun (List.replicate 5 (pass NV_PB_FLAGS_SEND_ON (pinsOnly 0 0)))
          idleState) (PB 0 0) = true
      ∧ logicalLevel (keyScanRun (List.replicate 5 (pass NV_PB_FLAGS_SEND_ON (pinsOnly 0 0)))
          idleState) (PB 0 0) = false
      ∧ (keyScanRun (List.replicate 5 (pass NV_PB_FLAGS_SEND_ON (pinsOnly 0 0)))
          idleState).produced = [] := by
  decide

/-- C12. Scenario B: for a row-0 button with TOGGLE, SEND_ON and SEND_OFF set whose
logical state starts false, a run of passes that commits four transitions for
it (they alternate: press, release, press, release) produces exactly four events
for that button, in the order ON, OFF, ON, OFF, and leaves its logical state
equal to the starting state. -/
theorem scenario_b (c : Nat) (hc : c < COLUMN_OUTPUTS) (ins : List ScanInput) (s : KeyState)
    (hf : ∀ i ∈ ins, (i.nv (NV_PB_FLAGS + PB c 0) % 256) &&& NV_PB_FLAGS_TOGGLE ≠ 0
      ∧ (i.nv (NV_PB_FLAGS + PB c 0) % 256) &&& NV_PB_FLAGS_SEND_ON ≠ 0
      ∧ (i.nv (NV_PB_FLAGS + PB c 0) % 256) &&& NV_PB_FLAGS_SEND_OFF ≠ 0)
    (h0 : logicalLevel s (PB c 0) = false)
    (h4 : commitCount (PB c 0) ins s = 4) :
    eventsFor (PB c 0) (emitted s (keyScanRun ins s))
        = [(PB_2_HAPPENING (PB c 0), EventState.EVENT_ON),
           (PB_2_HAPPENING (PB c 0), EventState.EVENT_OFF),
           (PB_2_HAPPENING (PB c 0), EventState.EVENT_ON),
           (PB_2_HAPPENING (PB c 0), EventState.EVENT_OFF)]
      ∧ logicalLevel (keyScanRun ins s) (PB c 0) = logicalLevel s (PB c 0)
      ∧ getKeyState (keyScanRun ins s) (PB c 0) = EventState.EVENT_OFF := by
  have he := toggle_run_events c hc ins s hf
  have hl := toggle_run (PB c 0) ins s (fun i hi => (hf i hi).1)
  rw [h4, h0] at he hl
  have hl2 : logicalLevel (keyScanRun ins s) (PB c 0) = false := by rw [hl]; decide
  refine ⟨?_, by rw [hl2, h0], by rw [getKeyState_eq, hl2]; rfl⟩
  rw [he]
  rfl

/-- Witness of C12: button 0 with flags TOGGLE, SEND_ON and SEND_OFF, pressed and
released twice from idle. -/
theorem scenario_b_witness :
    commitCount (PB 0 0) (twoCycles 11) idleState = 4
      ∧ eventsFor (PB 0 0) (emitted idleState (keyScanRun (twoCycles 11) idleState))
        = [(1, EventState.EVENT_ON), (1, EventState.EVENT_OFF),
           (1, EventState.EVENT_ON), (1, EventState.EVENT_OFF)]
      ∧ getKeyState (keyScanRun (twoCycles 11) idleState) (PB 0 0) = EventState.EVENT_OFF := by
  have h4 : commitCount (PB 0 0) (twoCycles 11) idleState = 4 := by decide
  have h := scenario_b 0 (by decide) (twoCycles 11) idleState (by decide) (by decide) h4
  exact ⟨h4, h.1, h.2.2⟩

/-- C17. A `keyScan` pass changes the logical state bit of a button, and produces an
event with the happening of a button, only if it commits a transition for that
same button in that pass; it then writes the bit once (one application of the
interpreter to the old bit and the committed level) and produces at most one
event for the button.  The step of a column, in which the commit of `PB(c,0)`
is made, leaves the accepted level, the counter and the logical state of every
other button, in other columns and in the other rows of the same column, as
they were. -/
theorem commit_frame (nv : Nat → Nat) (pins : Nat → Nat → Bool) (s : KeyState) :
    (∀ pb, logicalLevel (keyScan nv pins s) pb ≠ logicalLevel s pb →
        committed s (keyScan nv pins s) pb = true)
      ∧ (∀ pb, ∀ e ∈ emitted s (keyScan nv pins s), e.1 = PB_2_HAPPENING pb →
        committed s (keyScan nv pins s) pb = true)
      ∧ (∀ pb, committed s (keyScan nv pins s) pb = true →
        logicalLevel (keyScan nv pins s) pb
            = storedLevel (nv (NV_PB_FLAGS + pb) % 256) (logicalLevel s pb)
                (acceptedLevel (keyScan nv pins s) pb)
          ∧ (eventsFor pb (emitted s (keyScan nv pins s))).length ≤ 1)
      ∧ (∀ c q, q ≠ PB c 0 →
        acceptedLevel (keyScanColumn nv pins c s) q = acceptedLevel s q
          ∧ logicalLevel (keyScanColumn nv pins c s) q = logicalLevel s q
          ∧ debounceCounter (keyScanColumn nv pins c s) q = debounceCounter s q) := by
  refine ⟨?_, ?_, ?_, fun c q h => keyScanColumn_button_frame nv pins c s q h⟩
  · intro pb hne
    rcases keyScan_button_cases nv pins s pb with ⟨hcm, _⟩ | ⟨_, _, hl⟩
    · exact hcm
    · exact absurd hl hne
  · intro pb e he hep
    obtain ⟨c, _, hcm, hec⟩ := keyScan_emitted_mem nv pins s e he
    have : pb = PB c 0 := by
      rw [hec] at hep
      unfold PB_2_HAPPENING at hep
      omega
    rw [this]; exact hcm
  · intro pb hcm
    obtain ⟨h8, hc, _, _⟩ := (committed_iff nv pins s pb).1 hcm
    have hpb := PB_div_mod pb h8
    rcases keyScan_button_cases nv pins s pb with ⟨_, ha, hl, _⟩ | ⟨hcf, _⟩
    · refine ⟨by rw [hl, ha], ?_⟩
      rw [← hpb, keyScan_eventsFor nv pins s (pb / 8) hc]
      split_ifs
      · exact pbEvents_length _ _ _
      · simp
    · rw [hcf] at hcm; exact Bool.noConfusion hcm

/-- C18. Within one `keyScan` pass the events are produced in column order: the
happening ids of the events of a single pass are strictly increasing, for every
state, every set of pin samples and every flag configuration. -/
theorem events_increasing (nv : Nat → Nat) (pins : Nat → Nat → Bool) (s : KeyState) :
    List.Pairwise (fun a b => a < b) ((emitted s (keyScan nv pins s)).map Prod.fst) := by
  rw [keyScan_emitted, List.map_flatMap, List.pairwise_flatMap]
  have hmem : ∀ c, c < COLUMN_OUTPUTS → ∀ x ∈ List.map Prod.fst
      (if committed s (keyScan nv pins s) (PB c 0) = true then
        pbEvents (PB c 0) (logicalLevel (keyScan nv pins s) (PB c 0)).toNat
          (nv (NV_PB_FLAGS + PB c 0) % 256)
      else []), x = 8 * c + 1 := by
    intro c hc x hx
    obtain ⟨e, he, hex⟩ := List.mem_map.1 hx
    split_ifs at he
    · rw [← hex, pbEvents_happening _ _ _ e he, PB_2_HAPPENING_mod c hc, PB_zero]
      rfl
    · simp at he
  constructor
  · intro c _
    apply pairwise_lt_of_length_le_one
    rw [List.length_map]
    split_ifs
    · exact pbEvents_length _ _ _
    · simp
  · refine List.Pairwise.imp_of_mem ?_ (List.pairwise_lt_range COLUMN_OUTPUTS)
    intro a b ha hb hab x hx y hy
    rw [hmem a (List.mem_range.1 ha) x hx, hmem b (List.mem_range.1 hb) y hy]
    omega

/-- C20. Button identity is decomposed in the same way by writer and reader: for
every column `c` and row `r < ROW_INPUTS`, `PB(c,r) / 8 = c` and
`PB(c,r) % 8 = r`, so `getKeyState(PB(c,r))` reads exactly bit `r` of
`keyOutputState[c]`; and right after a pass commits a transition for `PB(c,0)`,
`getKeyState(PB(c,0))` returns `EVENT_ON` iff the logical state the pass stored
is true. -/
theorem identity_decomposition (s : KeyState) (c r : Nat) (hr : r < ROW_INPUTS)
    (nv : Nat → Nat) (pins : Nat → Nat → Bool) :
    PB c r = c * ROW_INPUTS + r
      ∧ PB c r / 8 = c ∧ PB c r % 8 = r
      ∧ getKeyState s (PB c r)
          = (if (s.keyOutputState c).bit r then EventState.EVENT_ON else EventState.EVENT_OFF)
      ∧ (committed s (keyScan nv pins s) (PB c 0) = true →
          ((keyScan nv pins s).keyOutputState c).b0
              = storedLevel (nv (NV_PB_FLAGS + PB c 0) % 256) (s.keyOutputState c).b0 (pins c 0)
            ∧ (getKeyState (keyScan nv pins s) (PB c 0) = EventState.EVENT_ON
              ↔ storedLevel (nv (NV_PB_FLAGS + PB c 0) % 256) (s.keyOutputState c).b0
                  (pins c 0) = true)) := by
  unfold ROW_INPUTS at hr
  have hd : PB c r / 8 = c := by unfold PB ROW_INPUTS; omega
  have hm : PB c r % 8 = r := by unfold PB ROW_INPUTS; omega
  refine ⟨rfl, hd, hm, ?_, ?_⟩
  · rw [getKeyState_eq]
    unfold logicalLevel ROW_INPUTS
    rw [hd, hm]
  · intro hcm
    obtain ⟨_, hc, _, _⟩ := (committed_iff nv pins s (PB c 0)).1 hcm
    have hd0 : PB c 0 / 8 = c := by rw [PB_zero]; omega
    rw [hd0] at hc
    rcases keyScan_button_cases nv pins s (PB c 0) with ⟨_, _, hl, _⟩ | ⟨hcf, _⟩
    · rw [hd0, logicalLevel_PB, logicalLevel_PB] at hl
      refine ⟨hl, ?_⟩
      rw [getKeyState_eq, logicalLevel_PB, hl]
      cases storedLevel (nv (NV_PB_FLAGS + PB c 0) % 256) (s.keyOutputState c).b0 (pins c 0)
        <;> simp
    · rw [hcf] at hcm; exact Bool.noConfusion hcm

/-- Witness of C20: button 10 is row 2 of column 1. -/
theorem identity_decomposition_witness :
    PB 1 2 = 10 ∧ PB 1 2 / 8 = 1 ∧ PB 1 2 % 8 = 2
      ∧ getKeyState idleState (PB 1 2) = EventState.EVENT_OFF := by
  have h := identity_decomposition idleState 1 2 (by decide) (nvAll 0) pinsLow
  refine ⟨h.1, h.2.1, h.2.2.1, ?_⟩
  rw [h.2.2.2.1]
  decide

/-- C21 (as amended). When `keyScan` returns, and likewise when `initKeyscan`
returns, `COL_LAT` is `0x7F` whatever it was before: the strobe bits of columns
0 to 6 are high and the strobe line of the last column sampled, bit 7, is still
active low. -/
theorem strobe_left_on_last_column (nv : Nat → Nat) (pins : Nat → Nat → Bool) (s : KeyState) :
    (keyScan nv pins s).COL_LAT = 0x7F
      ∧ (initKeyscan pins s).COL_LAT = 0x7F
      ∧ (∀ i, i < 7 → Nat.testBit (keyScan nv pins s).COL_LAT i = true
          ∧ Nat.testBit (initKeyscan pins s).COL_LAT i = true)
      ∧ Nat.testBit (keyScan nv pins s).COL_LAT 7 = false
      ∧ Nat.testBit (initKeyscan pins s).COL_LAT 7 = false := by
  rw [keyScan_lat, initKeyscan_lat]
  refine ⟨rfl, rfl, ?_, by decide, by decide⟩
  intro i hi
  interval_cases i <;> decide

/-- Counterexample to C21 as stated: after `initKeyscan` with every pin low, and
after a `keyScan` pass from there, the bits of `COL_LAT` selected by
`COLUMN_MASK` are not all high: the latch holds `0x7F`, column 7 is strobed
low. -/
theorem strobe_inactive_counterexample :
    idleState.COL_LAT &&& COLUMN_MASK = 0x7F
      ∧ (keyScan (nvAll 0) pinsLow idleState).COL_LAT &&& COLUMN_MASK = 0x7F
      ∧ (keyScan (nvAll 0) pinsLow idleState).COL_LAT &&& COLUMN_MASK ≠ COLUMN_MASK
      ∧ Nat.testBit COLUMN_MASK 7 = true
      ∧ Nat.testBit (keyScan (nvAll 0) pinsLow idleState).COL_LAT 7 = false := by
  decide

/-- C22 (the code does not do this). `setOn(1)` after `initLedDriver(0)`: the LED
operations use `segNum = (n-1) % 8`, the bit number, as the bit mask, so for LED
1 the byte is or-ed with 0: bit 0 of `ledsMap[0][0]` and of `ledsMap[1][0]` stays
clear and the two bytes sent to `MX_DIG_P0` and `MX_DIG_P1` are 0.  `setOn(4)`
or-s the byte with 3: it sets bits 0 and 1, not bit 3. -/
theorem setOn_uses_bit_number_as_mask :
    bitOf ((setOn 1 ledStart).ledsMap 0 0) 0 = false
      ∧ bitOf ((setOn 1 ledStart).ledsMap 1 0) 0 = false
      ∧ (setOn 1 ledStart).sent.drop ledStart.sent.length
          = [(MX_DIG_P0 + 0, 0), (MX_DIG_P1 + 0, 0)]
      ∧ (setOn 4 ledStart).ledsMap 0 0 = 3
      ∧ (setOn 4 ledStart).ledsMap 1 0 = 3
      ∧ bitOf ((setOn 4 ledStart).ledsMap 0 0) 3 = false
      ∧ (setOn 4 ledStart).sent.drop ledStart.sent.length
          = [(MX_DIG_P0 + 0, 3), (MX_DIG_P1 + 0, 3)] := by
  decide

/-- C23 (the code does not do this). With LED 1 lit in both planes (byte 1 in digit
0) the bit of LED 2, bit 1, is clear in both planes; `setOn(2)` followed by
`setOff(2)` leaves byte 0, not the original byte 1: the mask used is the bit
number 1.  With only LED 2 lit (byte 2), `setOff(2)` leaves LED 2 lit. -/
theorem setOff_not_inverse_of_setOn :
    bitOf ((ledDigit0 1).ledsMap 0 0) 1 = false
      ∧ bitOf ((ledDigit0 1).ledsMap 1 0) 1 = false
      ∧ (setOff 2 (setOn 2 (ledDigit0 1))).ledsMap 0 0 = 0
      ∧ (setOff 2 (setOn 2 (ledDigit0 1))).ledsMap 1 0 = 0
      ∧ (setOff 2 (setOn 2 (ledDigit0 1))).ledsMap 0 0 ≠ (ledDigit0 1).ledsMap 0 0
      ∧ bitOf ((setOff 2 (ledDigit0 2)).ledsMap 0 0) 1 = true := by
  decide

/-- C24 (the code does not do this). After `initLedDriver(0)` every LED is off;
`setOn(2)` and `flashLed(2)` set bit 0 of digit 0, the bit of LED 1, and with
LED 1 lit (byte 1) `setOff(2)` and `antiFlashLed(2)` clear it: a bit other than
bit `(n-1) % 8 = 1` changes.  The mask used is the bit number. -/
theorem led_operations_touch_other_bits :
    bitOf (ledStart.ledsMap 0 0) 0 = false
      ∧ bitOf ((setOn 2 ledStart).ledsMap 0 0) 0 = true
      ∧ bitOf ((flashLed 2 ledStart).ledsMap 0 0) 0 = true
      ∧ bitOf ((ledDigit0 1).ledsMap 0 0) 0 = true
      ∧ bitOf ((setOff 2 (ledDigit0 1)).ledsMap 0 0) 0 = false
      ∧ bitOf ((antiFlashLed 2 (ledDigit0 1)).ledsMap 0 0) 0 = false := by
  decide

/-- C25 (the code does not do this). After `initLedDriver(0)`, `flashLed(1)` leaves
bit 0 of plane 0 clear and `antiFlashLed(1)` leaves bit 0 of plane 1 clear;
`flashLed(4)` sets bits 0 and 1 of plane 0 and leaves the bit of LED 4, bit 3,
clear.  The mask used is the bit number `(n-1) % 8`. -/
theorem flashLed_uses_bit_number_as_mask :
    bitOf ((flashLed 1 ledStart).ledsMap 0 0) 0 = false
      ∧ bitOf ((antiFlashLed 1 ledStart).ledsMap 1 0) 0 = false
      ∧ (flashLed 4 ledStart).ledsMap 0 0 = 3
      ∧ bitOf ((flashLed 4 ledStart).ledsMap 0 0) 3 = false
      ∧ (antiFlashLed 4 ledStart).ledsMap 1 0 = 3
      ∧ bitOf ((antiFlashLed 4 ledStart).ledsMap 1 0) 3 = false := by
  decide

/-- C27. `APP_processConsumedEvent` returns `NOT_PROCESSED` exactly when the message
length is below 5 or the opcode is not one of the accessory on/off opcodes
(ACON, ASON, ACOF, ASOF and their variants with 1 to 3 data bytes); it then makes
no call at all, neither an LED operation nor `doSOD`; for every other message it
returns `PROCESSED`. -/
theorem consumed_event_not_processed (m : Message) (evs : Nat → Nat) (pol0 : Nat) :
    ((APP_processConsumedEvent m evs pol0).1 = Processed.NOT_PROCESSED
        ↔ (m.len < 5 ∨ ¬ (m.opc ∈ onOpcodes ∨ m.opc ∈ offOpcodes)))
      ∧ ((APP_processConsumedEvent m evs pol0).1 = Processed.NOT_PROCESSED →
          (APP_processConsumedEvent m evs pol0).2 = [])
      ∧ (¬ (m.len < 5 ∨ ¬ (m.opc ∈ onOpcodes ∨ m.opc ∈ offOpcodes)) →
          (APP_processConsumedEvent m evs pol0).1 = Processed.PROCESSED) := by
  unfold APP_processConsumedEvent
  by_cases hl : m.len < 5
  · simp [hl]
  · by_cases ho : m.opc ∈ onOpcodes ∨ m.opc ∈ offOpcodes
    · simp [hl, ho]
    · simp [hl, ho]

/-- C28. For a consumed accessory event and an action pair `(ledNo, flags)` with
`ledNo` in 1..64 whose enable flag for the direction of the event is set
(ENABLEON for an ON opcode, ENABLEOFF for an OFF opcode), exactly one LED
operation is called for the pair, determined by `pol = (event is ON) XOR
INVERT_EVENT`: with `pol = 1` and FLASH set it is `antiFlashLed(ledNo)` when
INVERT_FLASH is set and `flashLed(ledNo)` otherwise; with `pol = 1` and FLASH
clear it is `setOn(ledNo)`; with `pol = 0` it is `setOff(ledNo)`.  In the calls
of the whole function that one call stands between the calls of the pairs
before and those of the pairs after, whatever value `pol` held before. -/
theorem action_pair_operation (opc ledNo flags pol : Nat)
    (hled : 1 ≤ ledNo ∧ ledNo ≤ 64)
    (hen : (opc ∈ onOpcodes ∧ flags &&& ACTION_FLAGS_ENABLEON ≠ 0)
      ∨ (opc ∈ offOpcodes ∧ flags &&& ACTION_FLAGS_ENABLEOFF ≠ 0)) :
    actionPair opc ledNo flags pol =
        ([if xor (decide (opc ∈ onOpcodes)) (decide (flags &&& ACTION_FLAGS_INVERT_EVENT ≠ 0))
          then
            if flags &&& ACTION_FLAGS_FLASH ≠ 0 then
              if flags &&& ACTION_FLAGS_INVERT_FLASH ≠ 0 then PanelCall.antiFlashLed ledNo
              else PanelCall.flashLed ledNo
            else PanelCall.setOn ledNo
          else PanelCall.setOff ledNo],
         (xor (decide (opc ∈ onOpcodes))
            (decide (flags &&& ACTION_FLAGS_INVERT_EVENT ≠ 0))).toNat)
      ∧ ∀ (m : Message) (evs : Nat → Nat) (pol0 : Nat) (before after : List (Nat × Nat)),
          m.opc = opc → 5 ≤ m.len → evPairs evs = before ++ (ledNo, flags) :: after →
          (APP_processConsumedEvent m evs pol0).2
            = runPairs opc before pol0
              ++ (actionPair opc ledNo flags pol).1
              ++ runPairs opc after (actionPair opc ledNo flags pol).2 := by
  have hkey : ∀ pol, actionPair opc ledNo flags pol =
      ([if xor (decide (opc ∈ onOpcodes)) (decide (flags &&& ACTION_FLAGS_INVERT_EVENT ≠ 0))
        then
          if flags &&& ACTION_FLAGS_FLASH ≠ 0 then
            if flags &&& ACTION_FLAGS_INVERT_FLASH ≠ 0 then PanelCall.antiFlashLed ledNo
            else PanelCall.flashLed ledNo
          else PanelCall.setOn ledNo
        else PanelCall.setOff ledNo],
       (xor (decide (opc ∈ onOpcodes))
          (decide (flags &&& ACTION_FLAGS_INVERT_EVENT ≠ 0))).toNat) := by
    intro pol
    have h1 : ledNo ≠ NO_ACTION := by unfold NO_ACTION; omega
    have h2 : ¬ (ledNo = ACTION_SPECIALS ∧ flags = ACTION_SPECIAL_SOD) := by
      unfold ACTION_SPECIALS NUM_LED; omega
    have h3 : ¬ ledNo > NUM_ACTIONS := by unfold NUM_ACTIONS NUM_LED; omega
    unfold actionPair
    rw [if_neg h1, if_neg h2, if_neg h3]
    rcases hen with ⟨hon, he⟩ | ⟨hoff, he⟩
    · have hm := onOpcodes_mask opc hon
      by_cases hi : flags &&& ACTION_FLAGS_INVERT_EVENT ≠ 0
      · simp [hm, he, hi, hon]
      · by_cases hf : flags &&& ACTION_FLAGS_FLASH ≠ 0
        · by_cases hv : flags &&& ACTION_FLAGS_INVERT_FLASH ≠ 0 <;> simp [hm, he, hi, hon, hf, hv]
        · simp [hm, he, hi, hon, hf]
    · have hm := offOpcodes_mask opc hoff
      have hnon : opc ∉ onOpcodes := fun h => hm (onOpcodes_mask opc h)
      by_cases hi : flags &&& ACTION_FLAGS_INVERT_EVENT ≠ 0
      · by_cases hf : flags &&& ACTION_FLAGS_FLASH ≠ 0
        · by_cases hv : flags &&& ACTION_FLAGS_INVERT_FLASH ≠ 0 <;>
            simp [hm, he, hi, hnon, hf, hv]
        · simp [hm, he, hi, hnon, hf]
      · simp [hm, he, hi, hnon]
  refine ⟨hkey pol, ?_⟩
  intro m evs pol0 before after hopc hlen hev
  have ho : m.opc ∈ onOpcodes ∨ m.opc ∈ offOpcodes := by
    rw [hopc]
    rcases hen with ⟨h, _⟩ | ⟨h, _⟩
    · exact Or.inl h
    · exact Or.inr h
  unfold APP_processConsumedEvent
  rw [if_neg (by omega), if_pos ho, hopc, hev, runPairs_append]
  simp only [runPairs, List.append_assoc]
  rw [hkey pol, hkey (polAfter opc before pol0)]

/-- Witness of C28: an ON event `OPC_ACON` and the pair (LED 5, ENABLEON and FLASH)
at `evs[1]`, `evs[2]`: the one call is `flashLed(5)`. -/
theorem action_pair_operation_witness :
    (APP_processConsumedEvent { len := 5, opc := 0x90 } (evsOne 5 9) 0).2
      = [PanelCall.flashLed 5] := by
  have h := action_pair_operation 0x90 5 9 0 (by decide) (Or.inl (by decide))
  have hp := h.2 { len := 5, opc := 0x90 } (evsOne 5 9) 0 []
    (List.replicate 9 (0, 0)) rfl (by decide) (by decide)
  rw [hp, h.1]
  decide

/-- C30. `sendInvertedProducedEvent` inverts the state if required and checks the
send permissions: with `state` one of `EVENT_OFF`, `EVENT_ON` and `x` the state
XOR `invert`, it calls `sendProducedEvent(happening, x)` and returns the result
of that call exactly when `x` is ON and `can_send_on`, or `x` is OFF and
`can_send_off`; otherwise it sends nothing and returns TRUE. -/
theorem send_inverted_event (ok : Nat → EventState → Bool) (happening : Nat)
    (state : EventState) (invert can_send_on can_send_off : Nat) (s : KeyState)
    (hst : state = EventState.EVENT_OFF ∨ state = EventState.EVENT_ON) :
    sendInvertedProducedEvent ok happening state invert can_send_on can_send_off s =
      if xor (decide (state = EventState.EVENT_ON)) (decide (invert ≠ 0)) then
        if can_send_on ≠ 0 then
          (ok happening EventState.EVENT_ON, sendProducedEvent happening EventState.EVENT_ON s)
        else (true, s)
      else
        if can_send_off ≠ 0 then
          (ok happening EventState.EVENT_OFF, sendProducedEvent happening EventState.EVENT_OFF s)
        else (true, s) := by
  unfold sendInvertedProducedEvent
  rcases hst with h | h <;> subst h <;> by_cases hi : invert ≠ 0 <;>
    by_cases hon : can_send_on ≠ 0 <;> by_cases hoff : can_send_off ≠ 0 <;>
    simp [EventState.lnot, EventState.truthy, hi, hon, hoff]

/-- Witness of C30: state ON inverted is OFF, and OFF events may be sent. -/
theorem send_inverted_event_witness :
    sendInvertedProducedEvent okAll 3 EventState.EVENT_ON 4 1 2 idleState
      = (true, sendProducedEvent 3 EventState.EVENT_OFF idleState) := by
  rw [send_inverted_event okAll 3 EventState.EVENT_ON 4 1 2 idleState (Or.inr rfl)]
  rfl

/-- C29. `sodTRCallback` uses the steps 0..63 for the 64 buttons: it returns
`TIMED_RESPONSE_RESULT_FINISHED` exactly when `step >= NUM_PB`, and then produces
nothing; for every `step < NUM_PB` it returns `TIMED_RESPONSE_RESULT_NEXT` and
produces at most one event, whose happening is `step + 1`, and no event at all
when the ENABLE_SOD flag of the button is clear. -/
theorem sod_callback (nv : Nat → Nat) (ok : Nat → EventState → Bool) (step : Nat)
    (s : KeyState) :
    ((sodTRCallback nv ok step s).1 = TimedResponseResult.TIMED_RESPONSE_RESULT_FINISHED
        ↔ NUM_PB ≤ step)
      ∧ (NUM_PB ≤ step → (sodTRCallback nv ok step s).2 = s)
      ∧ (step < NUM_PB →
          (sodTRCallback nv ok step s).1 = TimedResponseResult.TIMED_RESPONSE_RESULT_NEXT
            ∧ (sodTRCallback nv ok step s).2.produced
                = s.produced ++ emitted s (sodTRCallback nv ok step s).2
            ∧ (emitted s (sodTRCallback nv ok step s).2).length ≤ 1
            ∧ (∀ e ∈ emitted s (sodTRCallback nv ok step s).2, e.1 = step + 1)
            ∧ ((nv (NV_PB_FLAGS + step) % 256) &&& NV_PB_FLAGS_ENABLE_SOD = 0 →
                (sodTRCallback nv ok step s).2 = s)) := by
  have hsend : ∀ h st i a b,
      (sendInvertedProducedEvent ok h st i a b s).2 = s
        ∨ ∃ x, (sendInvertedProducedEvent ok h st i a b s).2 = sendProducedEvent h x s := by
    intro h st i a b
    unfold sendInvertedProducedEvent
    simp only []
    split_ifs <;> first | exact Or.inr ⟨_, rfl⟩ | exact Or.inl rfl
  by_cases hge : NUM_PB ≤ step
  · have h1 : sodTRCallback nv ok step s
        = (TimedResponseResult.TIMED_RESPONSE_RESULT_FINISHED, s) := by
      unfold sodTRCallback; rw [if_pos hge]
    rw [h1]
    refine ⟨by simp [hge], fun _ => rfl, fun hlt => absurd hge (Nat.not_le.2 hlt)⟩
  · have hlt : step < NUM_PB := Nat.not_le.1 hge
    have hh : PB_2_HAPPENING step % 256 = step + 1 := by
      unfold PB_2_HAPPENING; unfold NUM_PB at hlt; omega
    have hcases : (sodTRCallback nv ok step s).1
          = TimedResponseResult.TIMED_RESPONSE_RESULT_NEXT
        ∧ ((sodTRCallback nv ok step s).2 = s
          ∨ ∃ x, (sodTRCallback nv ok step s).2 = sendProducedEvent (step + 1) x s)
        ∧ ((nv (NV_PB_FLAGS + step) % 256) &&& NV_PB_FLAGS_ENABLE_SOD = 0 →
          (sodTRCallback nv ok step s).2 = s) := by
      unfold sodTRCallback
      rw [if_neg hge]
      simp only [hh]
      by_cases he : (nv (NV_PB_FLAGS + step) % 256) &&& NV_PB_FLAGS_ENABLE_SOD = 0
      · rw [if_pos he]
        exact ⟨rfl, Or.inl rfl, fun _ => rfl⟩
      · rw [if_neg he]
        split_ifs
        · exact ⟨rfl, hsend _ _ _ _ _, fun h => absurd h he⟩
        · exact ⟨rfl, Or.inl rfl, fun h => absurd h he⟩
    obtain ⟨hr, hs, hen⟩ := hcases
    refine ⟨by rw [hr]; simp [hge], fun h => absurd h hge, fun _ => ⟨hr, ?_, ?_, ?_, hen⟩⟩
    · rcases hs with h | ⟨x, h⟩ <;> rw [h] <;> simp [emitted, sendProducedEvent]
    · rcases hs with h | ⟨x, h⟩ <;> rw [h] <;> simp [emitted, sendProducedEvent]
    · rcases hs with h | ⟨x, h⟩ <;> rw [h] <;> simp [emitted, sendProducedEvent]

/-- C31. `factoryResetGlobalEvents` creates the push button produced events: given
fuel for its 65 loop tests it terminates, having made exactly `NUM_PB` = 64 calls
of `addEvent`, the call number `pb` (from 0) being `addEvent(nn, pb + 1, 0,
PB_2_HAPPENING(pb), TRUE)`, that is `addEvent(nn, i, 0, i, TRUE)` for `i` = 1, 2,
..., 64 in that order: the event number `pb + 1` gets the happening of button
`pb` in EV#0, and no call names `HAPPENING_SOD`. -/
theorem factory_default_events (nn fuel : Nat) (hf : 65 ≤ fuel) :
    ∃ calls, factoryResetGlobalEvents nn fuel = some calls
      ∧ calls = (List.range' 1 64).map (fun i => AddEventCall.mk nn i 0 i true)
      ∧ calls.length = NUM_PB
      ∧ (∀ pb, pb < NUM_PB →
          calls[pb]? = some (AddEventCall.mk nn (pb + 1) 0 (PB_2_HAPPENING pb) true))
      ∧ (∀ c ∈ calls, c.evVal ≠ HAPPENING_SOD ∧ c.eventNumber ≠ HAPPENING_SOD) := by
  have h := factoryResetLoop_exits nn 64 fuel 1 [] (by omega) (by omega)
  rw [List.nil_append] at h
  refine ⟨_, h, rfl, by simp [NUM_PB], ?_, ?_⟩
  · intro pb hpb
    unfold NUM_PB at hpb
    rw [range_succ_map _ 64 0, List.getElem?_map, List.getElem?_range' _ _ hpb]
    simp [PB_2_HAPPENING]
  · intro c hc
    rw [List.mem_map] at hc
    obtain ⟨i, hi, rfl⟩ := hc
    rw [List.mem_range'_1] at hi
    simp only [HAPPENING_SOD, NUM_PB]
    omega

/-- Witness of C31: node number 258 and fuel for exactly the 65 loop tests. -/
theorem factory_default_events_witness :
    ∃ calls, factoryResetGlobalEvents 258 65 = some calls ∧ calls.length = 64
      ∧ calls[0]? = some (AddEventCall.mk 258 1 0 1 true)
      ∧ calls[63]? = some (AddEventCall.mk 258 64 0 64 true) := by
  obtain ⟨calls, h, _, hl, hi, _⟩ := factory_default_events 258 65 (by decide)
  exact ⟨calls, h, hl, hi 0 (by decide), hi 63 (by decide)⟩

/-- C32. Start-of-day reporting does not agree with the logical state store when
the POLARITY flag is set.  Button 0 with ENABLE_SOD, SEND_ON, SEND_OFF and
POLARITY (flags 0x17), pressed from idle: `keyScan` emits `(1, ON)` and
`getKeyState(0)` returns ON, but `sodTRCallback(step 0)` emits `(1, OFF)`, the
state inverted a second time.  With POLARITY clear (flags 0x13) the three
agree. -/
theorem sod_inverts_logical_state :
    (pressedState 0x17).produced = [(1, EventState.EVENT_ON)]
      ∧ getKeyState (pressedState 0x17) 0 = EventState.EVENT_ON
      ∧ emitted (pressedState 0x17) (sodTRCallback (nvAll 0x17) okAll 0 (pressedState 0x17)).2
          = [(1, EventState.EVENT_OFF)]
      ∧ (pressedState 0x13).produced = [(1, EventState.EVENT_OFF)]
      ∧ getKeyState (pressedState 0x13) 0 = EventState.EVENT_OFF
      ∧ emitted (pressedState 0x13) (sodTRCallback (nvAll 0x13) okAll 0 (pressedState 0x13)).2
          = [(1, EventState.EVENT_OFF)] := by
  decide

/-- C33. The enable flags do not gate the LED operation.  For the ON event
`OPC_ACON` and the pair (LED 5, flags 0), ENABLEON clear, an operation is still
called, chosen by the value `pol` holds from before: `setOff(5)` when the
uninitialised `pol` is 0 and `setOn(5)` when it is 1; after a pair (LED 3,
ENABLEON) it is `setOn(5)`, after a pair (LED 3, ENABLEON and INVERT_EVENT) it is
`setOff(5)`.  Likewise for the OFF event `OPC_ACOF` and a pair with only
ENABLEON set. -/
theorem disabled_pair_still_acts :
    (APP_processConsumedEvent { len := 5, opc := 0x90 } (evsOne 5 0) 0).2
        = [PanelCall.setOff 5]
      ∧ (APP_processConsumedEvent { len := 5, opc := 0x90 } (evsOne 5 0) 1).2
        = [PanelCall.setOn 5]
      ∧ (APP_processConsumedEvent { len := 5, opc := 0x90 } (evsTwo 3 1 5 0) 0).2
        = [PanelCall.setOn 3, PanelCall.setOn 5]
      ∧ (APP_processConsumedEvent { len := 5, opc := 0x90 } (evsTwo 3 5 5 0) 1).2
        = [PanelCall.setOff 3, PanelCall.setOff 5]
      ∧ (APP_processConsumedEvent { len := 5, opc := 0x91 } (evsTwo 3 2 5 1) 1).2
        = [PanelCall.setOff 3, PanelCall.setOff 5]
      ∧ 0 &&& ACTION_FLAGS_ENABLEON = 0 ∧ 1 &&& ACTION_FLAGS_ENABLEOFF = 0 := by
  decide

/-- C34. An LED operation can receive the LED number 65.  For the ON event
`OPC_ACON` and the pair (65, ENABLEON and ENABLEOFF), whose flags byte is not
`ACTION_SPECIAL_SOD`, the test `ledNo > NUM_ACTIONS` lets 65 through and
`setOn(65)` is called; its digit index is 8, not below the 8 bytes of a plane of
`ledsMap`, and it writes the registers `MX_DIG_P0 + 8` and `MX_DIG_P1 + 8`. -/
theorem led_number_65_reaches_setOn :
    (APP_processConsumedEvent { len := 5, opc := 0x90 } (evsOne 65 3) 0).2
        = [PanelCall.setOn 65]
      ∧ 65 = ACTION_SPECIALS ∧ 3 ≠ ACTION_SPECIAL_SOD ∧ ¬ (65 ≤ NUM_LED)
      ∧ digNumOf 65 = 8 ∧ ¬ (digNumOf 65 < DIGIT_MAP_SIZE)
      ∧ (PanelCall.run (PanelCall.setOn 65) ledStart).sent
          = ledStart.sent ++ [(MX_DIG_P0 + 8, 0), (MX_DIG_P1 + 8, 0)] := by
  decide

/-- C35. The action loop reads `evs[20]`.  The indices visited are 1, 3, ..., 19
and at `e` = 19 the loop reads `evs[19]` and `evs[20]`; 20 is not below
`EVperEVT`.  The byte read there decides the call: with LED 5 at `evs[19]`, the
ON event `OPC_ACON` calls `setOn(5)` when `evs[20]` holds ENABLEON and
`setOff(5)` when it holds 0, the entries `evs[0]` to `evs[19]` being the same. -/
theorem action_loop_reads_past_buffer :
    evIndices = [1, 3, 5, 7, 9, 11, 13, 15, 17, 19]
      ∧ evReads = [1, 2, 3, 4, 5, 6, 7, 8, 9, 10, 11, 12, 13, 14, 15, 16, 17, 18, 19, 20]
      ∧ 20 ∈ evReads ∧ ¬ (20 < EVperEVT)
      ∧ (∀ e, e < EVperEVT → evsLast 5 1 e = evsLast 5 0 e)
      ∧ (APP_processConsumedEvent { len := 5, opc := 0x90 } (evsLast 5 1) 0).2
          = [PanelCall.setOn 5]
      ∧ (APP_processConsumedEvent { len := 5, opc := 0x90 } (evsLast 5 0) 0).2
          = [PanelCall.setOff 5] := by
  refine ⟨by decide, by decide, by decide, by decide, ?_, by decide, by decide⟩
  intro e he
  unfold EVperEVT at he
  have h : e ≠ 20 := by omega
  simp [evsLast, h]

/-- C36. Over any sequence of `loop()` calls after `setup()`, with `t` the state
before a call and `u` the state after it: `started` holds FALSE or TRUE and
changes only from FALSE to TRUE; the call sends the start-of-day event
`(HAPPENING_SOD, EVENT_ON)` exactly when it sets `started`, and the events
produced since `setup()` hold it once if `started` is TRUE after the call and
not at all if it is FALSE; the call makes no call at all while `started` stays
FALSE; it invokes `keyScan` at most once, after the start-of-day event if both
occur, exactly when `started` is TRUE by then and `tickTimeSince(
lastInputScanTime)` exceeds `10 * ONE_MILI_SECOND`, and then sets
`lastInputScanTime` to the tick read, leaving it alone otherwise. -/
theorem loop_start_of_day (lib : TickLib) (nv : Nat → Nat) (pins : Nat → Nat → Bool)
    (tick : Nat) (s0 : MainState) (ins : List LoopInput) (i : LoopInput) (t u : MainState)
    (ht : t = loopRun lib ins (setup nv pins tick s0)) (hu : u = (loop lib i t).1) :
    (t.started = 0 ∨ t.started = 1)
      ∧ (u.started = 0 ∨ u.started = 1)
      ∧ (t.started = 1 → u.started = 1)
      ∧ (loop lib i t).2
          = (if t.started = 0 ∧ u.started = 1 then
              [MainCall.sendProducedEvent HAPPENING_SOD EventState.EVENT_ON] else [])
            ++ (if u.started = 1 ∧ lib.tickTimeSince i.tickScan t.lastInputScanTime
                  > 10 * lib.ONE_MILI_SECOND then [MainCall.keyScan] else [])
      ∧ (emitted t.key u.key).count sodEvent = (if t.started = 0 ∧ u.started = 1 then 1 else 0)
      ∧ (emitted (setup nv pins tick s0).key u.key).count sodEvent = u.started
      ∧ (u.started = 0 → (loop lib i t).2 = [])
      ∧ (loop lib i t).2.count MainCall.keyScan ≤ 1
      ∧ u.lastInputScanTime
          = (if MainCall.keyScan ∈ (loop lib i t).2 then i.tickNow else t.lastInputScanTime) := by
  subst hu
  have hinv : LoopInv (setup nv pins tick s0).key.produced t := by
    rw [ht]
    exact loopRun_inv lib _ ins _ (setup_inv nv pins tick s0)
  obtain ⟨hsu, l, hl, hc⟩ := loop_inv lib i _ t hinv
  obtain ⟨hst, _⟩ := hinv
  have htotal : (emitted (setup nv pins tick s0).key (loop lib i t).1.key).count sodEvent
      = (loop lib i t).1.started := by
    unfold emitted
    rw [hl, List.drop_left, hc]
  have hks := keyScan_no_sod i.nv i.pins
  have hsod : [sodEvent].count sodEvent = 1 := by decide
  refine ⟨hst, hsu, ?_, ?_, ?_, htotal, ?_, ?_, ?_⟩
  all_goals
    rcases loop_cases lib i t hst with ⟨h1, hc2, h⟩ | ⟨h1, hc2, h⟩ | ⟨h0, h⟩ | ⟨h0, hc2, h⟩
      | ⟨h0, hc2, h⟩
  all_goals
    first
      | simp [h, h1, hc2, hks, emitted_self]
      | simp [h, h0, hc2, hks, emitted_self, emitted_send, emitted_send_keyScan, hsod]; done
      | simp [h, h0, emitted_self]
  · rw [emitted_send_keyScan]
    show ((sodEvent :: emitted _ _).count sodEvent) = 1
    rw [List.count_cons_self, hks]
  · rw [emitted_send]
    exact hsod

/-- Witness of C36: ticks in milliseconds, `setup()` at tick 0, a call of `loop()`
at tick 5 and the next at tick 2001, which sets `started`, sends the start-of-day
event and scans the keys. -/
theorem loop_start_of_day_witness :
    (loopRun ticksMs [loopAt 5] (setup (nvAll 0) pinsLow 0 mainReset)).started = 0
      ∧ (loop ticksMs (loopAt 2001)
          (loopRun ticksMs [loopAt 5] (setup (nvAll 0) pinsLow 0 mainReset))).1.started = 1
      ∧ (loop ticksMs (loopAt 2001)
          (loopRun ticksMs [loopAt 5] (setup (nvAll 0) pinsLow 0 mainReset))).2
        = [MainCall.sendProducedEvent HAPPENING_SOD EventState.EVENT_ON, MainCall.keyScan]
      ∧ (emitted (setup (nvAll 0) pinsLow 0 mainReset).key
          (loop ticksMs (loopAt 2001)
            (loopRun ticksMs [loopAt 5] (setup (nvAll 0) pinsLow 0 mainReset))).1.key).count
          sodEvent
        = (loop ticksMs (loopAt 2001)
            (loopRun ticksMs [loopAt 5] (setup (nvAll 0) pinsLow 0 mainReset))).1.started :=
  have h := loop_start_of_day ticksMs (nvAll 0) pinsLow 0 mainReset [loopAt 5] (loopAt 2001)
    _ _ rfl rfl
  ⟨by decide, by decide, by decide, h.2.2.2.2.2.1⟩

end CANPanel
